import Mathlib

/-!
Verification development for the smali language-server analysis core.

The Rust sources embedded here (shallowly, as executable Lean functions) are:
  * `src/server/lexer.rs`      — token types and the `logos`-driven lexer `lex_str`;
  * `src/server/helper.rs`     — position bridge (`pos_to_lsp_pos`, `lsp_pos_to_pos`),
    `trim_space_tokens`, `tokens_to_diagnostic`;
  * `src/server/validation/mod.rs` and `validation/directives/{header,method}.rs`
    — the streaming validation engine `validate`.

Modelling conventions:
  * strings are Lean `String`s / `List Char`; the document is treated as a sequence
    of characters (the repository's inputs are ASCII, cf. the byte/char open question
    in the spec), so Rust byte indices become character indices;
  * Rust `u32`/`usize` become `Nat` (no claim depends on integer wrap-around);
  * Rust panics (out-of-range `split_at`, `unwrap` on `None`, indexing an empty
    slice) are modelled by `Option`: `none` is a panic. Functions that cannot
    panic stay total;
  * `Result<Vec<Diagnostic>, String>` in `validate`: the `Err` variant is never
    constructed by the source, so `validate` is modelled as
    `String → Option (List Diagnostic)` where `none` is a panic and `some` is `Ok`.
-/

/-- LSP `Position` (lspower::lsp::Position): zero-based line and character. -/
structure Position where
  line : Nat
  character : Nat
  deriving DecidableEq, Repr

/-- LSP `Range` (lspower::lsp::Range). -/
structure LspRange where
  start : Position
  stop : Position
  deriving DecidableEq, Repr

/-- `lspower::lsp::DiagnosticSeverity`. -/
inductive Severity where
  | Error
  | Warning
  | Information
  | Hint
  deriving DecidableEq, Repr

/-- LSP `Diagnostic`. The Rust code always sets `code`, `code_description`, `data`,
`related_information`, `source` and `tags` to `None`, so only the three fields the
program actually populates are modelled. -/
structure Diagnostic where
  range : LspRange
  severity : Option Severity
  message : String
  deriving DecidableEq, Repr

/-- The character `\n`. -/
def nlChar : Char := '\n'

/-- Rust `str::split('\n')` on a character list: splits into the (always
non-empty) list of `'\n'`-separated segments. `"" → [""]`, `"\n" → ["", ""]`. -/
def splitNl : List Char → List (List Char)
  | [] => [[]]
  | c :: cs =>
    let r := splitNl cs
    if c = nlChar then [] :: r else (c :: r.headD []) :: r.tail

/-- Rust `[&str]::join("\n")`: concatenates the segments with a `'\n'` between
each pair of neighbours. -/
def joinNl : List (List Char) → List Char
  | [] => []
  | [l] => l
  | l :: ls => l ++ nlChar :: joinNl ls

/-- `helper.rs::pos_to_lsp_pos`: converts a character offset into an LSP
position. `line` is the number of `'\n'`s strictly before the offset;
`character` is the length of the last `'\n'`-separated segment of the prefix.

Rust uses `content.split_at(input)`, whose precondition is `input ≤ content.len()`;
every call site in the repository satisfies it (lexer spans and round-trip inputs),
and on that domain `split_at(input).0` is exactly `take input`. -/
def pos_to_lsp_pos (input : Nat) (content : String) : Position :=
  let pre := content.data.take input
  let parts := splitNl pre
  { line := parts.length - 1, character := (parts.getLastD []).length }

/-- `helper.rs::lsp_pos_to_pos`: converts an LSP position back to an offset.
If the line index is out of range the result is `content.len()`. Otherwise Rust
evaluates `line.split_at(input.character)`, which panics when
`input.character > line.len()` — modelled by `none`. In the non-panicking case
the result is the length of the joined preceding lines, plus one separator when
`line > 0`, plus `character`. -/
def lsp_pos_to_pos (input : Position) (content : String) : Option Nat :=
  let lines := splitNl content.data
  match lines[input.line]? with
  | none => some content.data.length
  | some line =>
    if input.character ≤ line.length then
      some ((joinNl (lines.take input.line)).length
            + (if 0 < input.line then 1 else 0) + input.character)
    else none

/-- `helper.rs::range_to_lsp_range` on raw offsets `start ≤ stop ≤ content.len()`. -/
def range_to_lsp_range (start stop : Nat) (content : String) : LspRange :=
  { start := pos_to_lsp_pos start content, stop := pos_to_lsp_pos stop content }

section SplitNlLemmas

theorem splitNl_ne_nil (cs : List Char) : splitNl cs ≠ [] := by
  cases cs with
  | nil => simp [splitNl]
  | cons c cs =>
    simp only [splitNl]
    split <;> simp

theorem splitNl_nil : splitNl [] = [[]] := rfl

theorem splitNl_cons_nl (cs : List Char) :
    splitNl (nlChar :: cs) = [] :: splitNl cs := by
  simp [splitNl]

theorem splitNl_cons_other (c : Char) (cs : List Char) (h : c ≠ nlChar) :
    splitNl (c :: cs) = (c :: (splitNl cs).headD []) :: (splitNl cs).tail := by
  simp [splitNl, h]

/-- On a newline-free list, `splitNl` gives a single segment. -/
theorem splitNl_no_nl (cs : List Char) (h : nlChar ∉ cs) : splitNl cs = [cs] := by
  induction cs with
  | nil => rfl
  | cons c cs ih =>
    have hc : c ≠ nlChar := by intro hc; exact h (hc ▸ List.mem_cons_self c cs)
    have hcs : nlChar ∉ cs := fun hm => h (List.mem_cons_of_mem c hm)
    rw [splitNl_cons_other c cs hc, ih hcs]
    simp

/-- The first segment of `splitNl` is the longest newline-free prefix. -/
theorem splitNl_headD (cs : List Char) :
    (splitNl cs).headD [] = cs.takeWhile (· ≠ nlChar) := by
  induction cs with
  | nil => rfl
  | cons c cs ih =>
    by_cases hc : c = nlChar
    · subst hc
      rw [splitNl_cons_nl]
      simp [List.takeWhile_cons]
    · rw [splitNl_cons_other c cs hc, List.takeWhile_cons]
      have h1 : ((c :: (splitNl cs).headD []) :: (splitNl cs).tail).headD []
          = c :: (splitNl cs).headD [] := rfl
      rw [h1, ih]
      simp [hc]

theorem joinNl_nil : joinNl [] = [] := rfl

theorem joinNl_single (l : List Char) : joinNl [l] = l := rfl

theorem joinNl_cons (l : List Char) (ls : List (List Char)) (h : ls ≠ []) :
    joinNl (l :: ls) = l ++ nlChar :: joinNl ls := by
  cases ls with
  | nil => exact absurd rfl h
  | cons m ms => rfl

/-- `joinNl` inverts `splitNl`. -/
theorem joinNl_splitNl (cs : List Char) : joinNl (splitNl cs) = cs := by
  induction cs with
  | nil => rfl
  | cons c cs ih =>
    by_cases hc : c = nlChar
    · subst hc
      rw [splitNl_cons_nl, joinNl_cons _ _ (splitNl_ne_nil cs), ih]
      simp
    · rw [splitNl_cons_other c cs hc]
      rcases hsp : splitNl cs with _ | ⟨l, ls⟩
      · exact absurd hsp (splitNl_ne_nil cs)
      · rw [hsp] at ih
        cases ls with
        | nil =>
          rw [joinNl_single] at ih
          simp only [List.headD, List.tail]
          rw [joinNl_single, ih]
        | cons m ms =>
          rw [joinNl_cons _ _ (by simp)] at ih
          simp only [List.headD, List.tail]
          rw [joinNl_cons _ _ (by simp)]
          simp [List.cons_append, ih]

end SplitNlLemmas

/-! ## Lexer (`src/server/lexer.rs`)

`TokenType` derives `logos::Logos`: at each input position the generated lexer
takes the longest match among all patterns (ties resolved in favour of the
earlier declaration), and when no pattern matches it emits a catch-all
`Error` token (modelled here as a single unmatched character, per the
spec's description of minimal-span error tokens). Each `#[token]`/`#[regex]`
pattern below is embedded as a longest-match-length function
`List Char → Option Nat`. -/

/-- The `"` character (written numerically to keep it out of string literals). -/
def quoteChar : Char := Char.ofNat 34

/-- The open-brace character. -/
def lbraceChar : Char := Char.ofNat 123

/-- The close-brace character. -/
def rbraceChar : Char := Char.ofNat 125

/-- Length of the longest prefix of `cs` all of whose characters satisfy `p`. -/
def countWhile (p : Char → Bool) : List Char → Nat
  | [] => 0
  | c :: cs => if p c then countWhile p cs + 1 else 0

/-- Match a fixed literal at the start of `cs`. -/
def litLen (w : String) (cs : List Char) : Option Nat :=
  if w.data.isPrefixOf cs then some w.data.length else none

/-- Longest of two optional match lengths. -/
def maxAlt : Option Nat → Option Nat → Option Nat
  | some m, some n => some (if m < n then n else m)
  | some m, none => some m
  | none, r => r

/-- Longest literal alternative matching at the start of `cs`. -/
def litAlt (ws : List String) (cs : List Char) : Option Nat :=
  ws.foldr (fun w acc => maxAlt (litLen w cs) acc) none

/-- Greedy optional literal continuation after `n` matched characters. -/
def optLit (w : String) (cs : List Char) (n : Nat) : Nat :=
  if w.data.isPrefixOf (cs.drop n) then n + w.data.length else n

/-- Greedy optional alternative continuation after `n` matched characters. -/
def optAlt (ws : List String) (cs : List Char) (n : Nat) : Nat :=
  match litAlt ws (cs.drop n) with
  | some k => n + k
  | none => n

/-- `#[token("\n")]` -/
def matchNewLine (cs : List Char) : Option Nat := litLen "\n" cs

/-- `#[regex(r"#.*")]` (`.` matches anything but a newline) -/
def matchComment (cs : List Char) : Option Nat :=
  if cs.head? = some '#' then some (countWhile (fun d => d ≠ nlChar) cs.tail + 1) else none

/-- `#[regex(r"public|private|protected")]` -/
def matchVisibility (cs : List Char) : Option Nat :=
  litAlt ["public", "private", "protected"] cs

/-- `#[regex(r"static|constructor|final|synthetic")]` -/
def matchModifier (cs : List Char) : Option Nat :=
  litAlt ["static", "constructor", "final", "synthetic"] cs

/-- `#[regex(r"( |\t)+")]` -/
def matchSpace (cs : List Char) : Option Nat :=
  if countWhile (fun c => c = ' ' || c = '\t') cs = 0 then none
  else some (countWhile (fun c => c = ' ' || c = '\t') cs)

/-- Character class `[a-zA-Z0-9\$_\-\./]` of the `Class` pattern. -/
def isClassNameChar (c : Char) : Bool :=
  c.isAlphanum || c = '$' || c = '_' || c = '-' || c = '.' || c = '/'

/-- `#[regex(r"L[a-zA-Z0-9\$_\-\./]*;")]` -/
def matchClass (cs : List Char) : Option Nat :=
  if cs.head? = some 'L' then
    if (cs.tail.drop (countWhile isClassNameChar cs.tail)).head? = some ';' then
      some (countWhile isClassNameChar cs.tail + 2)
    else none
  else none

/-- `#[regex(r"(p|v)\d+")]` -/
def matchRegister (cs : List Char) : Option Nat :=
  if cs.head? = some 'p' ∨ cs.head? = some 'v' then
    if countWhile Char.isDigit cs.tail = 0 then none
    else some (countWhile Char.isDigit cs.tail + 1)
  else none

/-- `#[regex(r"\.(method|end method)")]` -/
def matchMethod (cs : List Char) : Option Nat := litAlt [".method", ".end method"] cs

/-- `#[regex(r"\.(field|end field)")]` -/
def matchField (cs : List Char) : Option Nat := litAlt [".field", ".end field"] cs

/-- `#[regex(r":(goto|cond)_\d+")]` -/
def matchLabel (cs : List Char) : Option Nat :=
  if cs.head? = some ':' then
    match litAlt ["goto_", "cond_"] cs.tail with
    | some k =>
      if countWhile Char.isDigit (cs.tail.drop k) = 0 then none
      else some (1 + k + countWhile Char.isDigit (cs.tail.drop k))
    | none => none
  else none

/-- `#[regex(r"\.(class|source|super|implements|locals|local|registers|line|prologue|goto)")]` -/
def matchDirective (cs : List Char) : Option Nat :=
  litAlt [".class", ".source", ".super", ".implements", ".locals", ".local",
          ".registers", ".line", ".prologue", ".goto"] cs

/-- `#[regex(r"invoke-(direct|static|virtual|interface)(/range)?")]` -/
def matchInvoke (cs : List Char) : Option Nat :=
  (litAlt ["invoke-direct", "invoke-static", "invoke-virtual", "invoke-interface"] cs).map
    (optLit "/range" cs)

/-- `#[token("check-cast")]` -/
def matchCheckCast (cs : List Char) : Option Nat := litLen "check-cast" cs

/-- `#[token("new-instance")]` -/
def matchNewInstance (cs : List Char) : Option Nat := litLen "new-instance" cs

/-- `#[regex(r"const-string(/jumbo|)")]` -/
def matchConstString (cs : List Char) : Option Nat :=
  (litLen "const-string" cs).map (optLit "/jumbo" cs)

/-- `#[regex(r"const/(4|16)")]` -/
def matchConstInt (cs : List Char) : Option Nat := litAlt ["const/4", "const/16"] cs

/-- `#[regex(r"const(-(class|class)|)")]` -/
def matchConst (cs : List Char) : Option Nat :=
  (litLen "const" cs).map (optLit "-class" cs)

/-- `#[regex(r"if-(lt|le|gt|ge|eq|eq|ne|ne)(z|)")]` -/
def matchIf (cs : List Char) : Option Nat :=
  litAlt ["if-lt", "if-ltz", "if-le", "if-lez", "if-gt", "if-gtz",
          "if-ge", "if-gez", "if-eq", "if-eqz", "if-ne", "if-nez"] cs

/-- `#[regex(r"iget(-(object|string|wide)|)")]` -/
def matchIGet (cs : List Char) : Option Nat :=
  (litLen "iget" cs).map (optAlt ["-object", "-string", "-wide"] cs)

/-- `#[regex(r"sget(-(object|string|wide)|)")]` -/
def matchSGet (cs : List Char) : Option Nat :=
  (litLen "sget" cs).map (optAlt ["-object", "-string", "-wide"] cs)

/-- `#[regex(r"iput(-(object|string|wide)|)")]` -/
def matchIPut (cs : List Char) : Option Nat :=
  (litLen "iput" cs).map (optAlt ["-object", "-string", "-wide"] cs)

/-- `#[regex(r"sput(-(object|string|wide)|)")]` -/
def matchSPut (cs : List Char) : Option Nat :=
  (litLen "sput" cs).map (optAlt ["-object", "-string", "-wide"] cs)

/-- `#[regex(r"move(-(result(-object|)|)|)")]`: the language is
`move`, `move-`, `move-result`, `move-result-object`. -/
def matchMove (cs : List Char) : Option Nat :=
  litAlt ["move", "move-", "move-result", "move-result-object"] cs

/-- `#[regex(r"return(-(void|object|wide)|)")]` -/
def matchReturn (cs : List Char) : Option Nat :=
  litAlt ["return", "return-void", "return-object", "return-wide"] cs

/-- `#[regex("\"[^\"]*\"")]` (the body may span newlines) -/
def matchStr (cs : List Char) : Option Nat :=
  if cs.head? = some quoteChar then
    if (cs.tail.drop (countWhile (fun d => d ≠ quoteChar) cs.tail)).head? = some quoteChar then
      some (countWhile (fun d => d ≠ quoteChar) cs.tail + 2)
    else none
  else none

/-- Digit run helper for `Number`. -/
def digitRun (r : List Char) : Option Nat :=
  if countWhile Char.isDigit r = 0 then none else some (countWhile Char.isDigit r)

/-- `(0x|)\d+` part of `Number`: longest of the hex-prefixed and plain forms. -/
def numBody (r : List Char) : Option Nat :=
  maxAlt
    (if r.head? = some '0' ∧ r.tail.head? = some 'x' then (digitRun r.tail.tail).map (· + 2)
     else none)
    (digitRun r)

/-- `#[regex(r"(-|)(0x|)\d+")]` (`matchNumber [] = none`, as `numBody [] = none`) -/
def matchNumber (cs : List Char) : Option Nat :=
  if cs.head? = some '-' then (numBody cs.tail).map (· + 1) else numBody cs

/-- Character class `[a-z/a-zA-Z0-9_]` of `TreecordMacro`. -/
def isTreecordChar (c : Char) : Bool := c.isAlphanum || c = '/' || c = '_'

/-- The `TreecordMacro` pattern: two open braces, the character class, two
close braces. -/
def matchTreecordMacro (cs : List Char) : Option Nat :=
  if [lbraceChar, lbraceChar].isPrefixOf cs then
    if [rbraceChar, rbraceChar].isPrefixOf
        (cs.drop (2 + countWhile isTreecordChar (cs.drop 2))) then
      some (countWhile isTreecordChar (cs.drop 2) + 4)
    else none
  else none

/-- The `Brace` pattern: a single open or close brace. -/
def matchBrace (cs : List Char) : Option Nat :=
  if cs.head? = some lbraceChar ∨ cs.head? = some rbraceChar then some 1 else none

/-- `#[regex(r"(\(|\))")]` -/
def matchParen (cs : List Char) : Option Nat :=
  if cs.head? = some '(' ∨ cs.head? = some ')' then some 1 else none

/-- Character class of the `BuiltinType` pattern `(V|Z|B|S|C|I|J|F|D)`. -/
def isBuiltinTypeChar (c : Char) : Bool :=
  c = 'V' || c = 'Z' || c = 'B' || c = 'S' || c = 'C' || c = 'I' || c = 'J'
    || c = 'F' || c = 'D'

/-- `#[regex(r"(V|Z|B|S|C|I|J|F|D)")]` -/
def matchBuiltinType (cs : List Char) : Option Nat :=
  if cs.head?.any isBuiltinTypeChar then some 1 else none

/-- Character class `[a-zA-Z0-9\$<>]` of `MethodCall`/`MethodName`. -/
def isMethodNameChar (c : Char) : Bool := c.isAlphanum || c = '$' || c = '<' || c = '>'

/-- `#[regex(r"->[a-zA-Z0-9\$<>]+\(")]` -/
def matchMethodCall (cs : List Char) : Option Nat :=
  if ['-', '>'].isPrefixOf cs then
    if countWhile isMethodNameChar (cs.drop 2) = 0 then none
    else if (cs.drop (2 + countWhile isMethodNameChar (cs.drop 2))).head? = some '(' then
      some (2 + countWhile isMethodNameChar (cs.drop 2) + 1)
    else none
  else none

/-- `#[regex(r"[a-zA-Z0-9\$<>]+\(")]` -/
def matchMethodName (cs : List Char) : Option Nat :=
  if countWhile isMethodNameChar cs = 0 then none
  else if (cs.drop (countWhile isMethodNameChar cs)).head? = some '(' then
    some (countWhile isMethodNameChar cs + 1)
  else none

/-- Character class `[a-zA-Z0-9\$]` of `FieldName`. -/
def isFieldNameChar (c : Char) : Bool := c.isAlphanum || c = '$'

/-- `#[regex(r"[a-zA-Z0-9\$]+:")]` -/
def matchFieldName (cs : List Char) : Option Nat :=
  if countWhile isFieldNameChar cs = 0 then none
  else if (cs.drop (countWhile isFieldNameChar cs)).head? = some ':' then
    some (countWhile isFieldNameChar cs + 1)
  else none

/-- `#[token("[")]` -/
def matchArrayOp (cs : List Char) : Option Nat := litLen "[" cs

/-- `#[token("..")]` -/
def matchRangeOp (cs : List Char) : Option Nat := litLen ".." cs

/-- `#[token(",")]` -/
def matchCommaOp (cs : List Char) : Option Nat := litLen "," cs

/-- `lexer.rs::TokenType`, in declaration order; `Error` is the `#[error]`
catch-all. -/
inductive TokenType where
  | NewLine
  | Comment
  | Visibility
  | Modifier
  | Space
  | Class
  | Register
  | Method
  | Field
  | Label
  | Directive
  | Invoke
  | CheckCast
  | NewInstance
  | ConstString
  | ConstInt
  | Const
  | If
  | IGet
  | SGet
  | IPut
  | SPut
  | Move
  | Return
  | String
  | Number
  | TreecordMacro
  | Brace
  | Paren
  | BuiltinType
  | MethodCall
  | MethodName
  | FieldName
  | ArrayOp
  | RangeOp
  | CommaOp
  | Error
  deriving DecidableEq, Repr, Inhabited

/-- Compare a candidate match of length `n` against the best match of the
later entries: the later match survives only if strictly longer. -/
def better (n : Nat) (t : TokenType) : Option (TokenType × Nat) → Option (TokenType × Nat)
  | some (u, m) => if n < m then some (u, m) else some (t, n)
  | none => some (t, n)

/-- Keep the longest match; earlier entries win ties (declaration order). -/
def pick : List (TokenType × Option Nat) → Option (TokenType × Nat)
  | [] => none
  | (t, some n) :: rest => better n t (pick rest)
  | (_, none) :: rest => pick rest

/-- All matchers of the token enum, in declaration order. -/
def bestMatch (cs : List Char) : Option (TokenType × Nat) :=
  pick
    [(TokenType.NewLine, matchNewLine cs),
     (TokenType.Comment, matchComment cs),
     (TokenType.Visibility, matchVisibility cs),
     (TokenType.Modifier, matchModifier cs),
     (TokenType.Space, matchSpace cs),
     (TokenType.Class, matchClass cs),
     (TokenType.Register, matchRegister cs),
     (TokenType.Method, matchMethod cs),
     (TokenType.Field, matchField cs),
     (TokenType.Label, matchLabel cs),
     (TokenType.Directive, matchDirective cs),
     (TokenType.Invoke, matchInvoke cs),
     (TokenType.CheckCast, matchCheckCast cs),
     (TokenType.NewInstance, matchNewInstance cs),
     (TokenType.ConstString, matchConstString cs),
     (TokenType.ConstInt, matchConstInt cs),
     (TokenType.Const, matchConst cs),
     (TokenType.If, matchIf cs),
     (TokenType.IGet, matchIGet cs),
     (TokenType.SGet, matchSGet cs),
     (TokenType.IPut, matchIPut cs),
     (TokenType.SPut, matchSPut cs),
     (TokenType.Move, matchMove cs),
     (TokenType.Return, matchReturn cs),
     (TokenType.String, matchStr cs),
     (TokenType.Number, matchNumber cs),
     (TokenType.TreecordMacro, matchTreecordMacro cs),
     (TokenType.Brace, matchBrace cs),
     (TokenType.Paren, matchParen cs),
     (TokenType.BuiltinType, matchBuiltinType cs),
     (TokenType.MethodCall, matchMethodCall cs),
     (TokenType.MethodName, matchMethodName cs),
     (TokenType.FieldName, matchFieldName cs),
     (TokenType.ArrayOp, matchArrayOp cs),
     (TokenType.RangeOp, matchRangeOp cs),
     (TokenType.CommaOp, matchCommaOp cs)]

section MatcherPositivity

theorem litLen_pos {w : String} {cs : List Char} {n : Nat} (hw : w.data ≠ [])
    (h : litLen w cs = some n) : 1 ≤ n := by
  unfold litLen at h
  split at h
  · cases h
    exact List.length_pos.mpr hw
  · cases h

theorem maxAlt_cases {a b : Option Nat} {n : Nat} (h : maxAlt a b = some n) :
    a = some n ∨ b = some n := by
  cases a with
  | none => exact Or.inr h
  | some m =>
    cases b with
    | none => exact Or.inl h
    | some k =>
      have hstep : maxAlt (some m) (some k) = some (if m < k then k else m) := rfl
      rw [hstep] at h
      by_cases hlt : m < k
      · rw [if_pos hlt] at h
        exact Or.inr h
      · rw [if_neg hlt] at h
        exact Or.inl h

theorem litAlt_pos {ws : List String} {cs : List Char} {n : Nat}
    (hw : ∀ w ∈ ws, w.data ≠ []) (h : litAlt ws cs = some n) : 1 ≤ n := by
  induction ws with
  | nil => cases h
  | cons w rest ih =>
    have hstep : litAlt (w :: rest) cs = maxAlt (litLen w cs) (litAlt rest cs) := rfl
    rw [hstep] at h
    rcases maxAlt_cases h with h1 | h1
    · exact litLen_pos (hw w (List.mem_cons_self w rest)) h1
    · exact ih (fun v hv => hw v (List.mem_cons_of_mem w hv)) h1

theorem optLit_ge (w : String) (cs : List Char) (n : Nat) : n ≤ optLit w cs n := by
  unfold optLit
  split <;> omega

theorem optAlt_ge (ws : List String) (cs : List Char) (n : Nat) : n ≤ optAlt ws cs n := by
  unfold optAlt
  split <;> omega

theorem matchNewLine_pos {cs : List Char} {n : Nat} (h : matchNewLine cs = some n) : 1 ≤ n :=
  litLen_pos (by decide) h

theorem matchComment_pos {cs : List Char} {n : Nat} (h : matchComment cs = some n) : 1 ≤ n := by
  unfold matchComment at h
  split at h
  · cases h; omega
  · cases h

theorem matchVisibility_pos {cs : List Char} {n : Nat}
    (h : matchVisibility cs = some n) : 1 ≤ n :=
  litAlt_pos (by decide) h

theorem matchModifier_pos {cs : List Char} {n : Nat}
    (h : matchModifier cs = some n) : 1 ≤ n :=
  litAlt_pos (by decide) h

theorem matchSpace_pos {cs : List Char} {n : Nat} (h : matchSpace cs = some n) : 1 ≤ n := by
  unfold matchSpace at h
  split at h
  · cases h
  · cases h; omega

theorem matchClass_pos {cs : List Char} {n : Nat} (h : matchClass cs = some n) : 1 ≤ n := by
  unfold matchClass at h
  split at h
  · split at h
    · cases h; omega
    · cases h
  · cases h

theorem matchRegister_pos {cs : List Char} {n : Nat} (h : matchRegister cs = some n) : 1 ≤ n := by
  unfold matchRegister at h
  split at h
  · split at h
    · cases h
    · cases h; omega
  · cases h

theorem matchMethod_pos {cs : List Char} {n : Nat} (h : matchMethod cs = some n) : 1 ≤ n :=
  litAlt_pos (by decide) h

theorem matchField_pos {cs : List Char} {n : Nat} (h : matchField cs = some n) : 1 ≤ n :=
  litAlt_pos (by decide) h

theorem matchLabel_pos {cs : List Char} {n : Nat} (h : matchLabel cs = some n) : 1 ≤ n := by
  unfold matchLabel at h
  split at h
  · split at h
    · split at h
      · cases h
      · cases h; omega
    · cases h
  · cases h

theorem matchDirective_pos {cs : List Char} {n : Nat} (h : matchDirective cs = some n) : 1 ≤ n :=
  litAlt_pos (by decide) h

theorem matchInvoke_pos {cs : List Char} {n : Nat} (h : matchInvoke cs = some n) : 1 ≤ n := by
  unfold matchInvoke at h
  rcases Option.map_eq_some'.mp h with ⟨m, hm, hn⟩
  have h1 := litAlt_pos (by decide) hm
  have h2 := optLit_ge "/range" cs m
  omega

theorem matchCheckCast_pos {cs : List Char} {n : Nat} (h : matchCheckCast cs = some n) : 1 ≤ n :=
  litLen_pos (by decide) h

theorem matchNewInstance_pos {cs : List Char} {n : Nat}
    (h : matchNewInstance cs = some n) : 1 ≤ n :=
  litLen_pos (by decide) h

theorem matchConstString_pos {cs : List Char} {n : Nat}
    (h : matchConstString cs = some n) : 1 ≤ n := by
  unfold matchConstString at h
  rcases Option.map_eq_some'.mp h with ⟨m, hm, hn⟩
  have h1 := litLen_pos (by decide) hm
  have h2 := optLit_ge "/jumbo" cs m
  omega

theorem matchConstInt_pos {cs : List Char} {n : Nat} (h : matchConstInt cs = some n) : 1 ≤ n :=
  litAlt_pos (by decide) h

theorem matchConst_pos {cs : List Char} {n : Nat} (h : matchConst cs = some n) : 1 ≤ n := by
  unfold matchConst at h
  rcases Option.map_eq_some'.mp h with ⟨m, hm, hn⟩
  have h1 := litLen_pos (by decide) hm
  have h2 := optLit_ge "-class" cs m
  omega

theorem matchIf_pos {cs : List Char} {n : Nat} (h : matchIf cs = some n) : 1 ≤ n :=
  litAlt_pos (by decide) h

theorem matchIGet_pos {cs : List Char} {n : Nat} (h : matchIGet cs = some n) : 1 ≤ n := by
  unfold matchIGet at h
  rcases Option.map_eq_some'.mp h with ⟨m, hm, hn⟩
  have h1 := litLen_pos (by decide) hm
  have h2 := optAlt_ge ["-object", "-string", "-wide"] cs m
  omega

theorem matchSGet_pos {cs : List Char} {n : Nat} (h : matchSGet cs = some n) : 1 ≤ n := by
  unfold matchSGet at h
  rcases Option.map_eq_some'.mp h with ⟨m, hm, hn⟩
  have h1 := litLen_pos (by decide) hm
  have h2 := optAlt_ge ["-object", "-string", "-wide"] cs m
  omega

theorem matchIPut_pos {cs : List Char} {n : Nat} (h : matchIPut cs = some n) : 1 ≤ n := by
  unfold matchIPut at h
  rcases Option.map_eq_some'.mp h with ⟨m, hm, hn⟩
  have h1 := litLen_pos (by decide) hm
  have h2 := optAlt_ge ["-object", "-string", "-wide"] cs m
  omega

theorem matchSPut_pos {cs : List Char} {n : Nat} (h : matchSPut cs = some n) : 1 ≤ n := by
  unfold matchSPut at h
  rcases Option.map_eq_some'.mp h with ⟨m, hm, hn⟩
  have h1 := litLen_pos (by decide) hm
  have h2 := optAlt_ge ["-object", "-string", "-wide"] cs m
  omega

theorem matchMove_pos {cs : List Char} {n : Nat} (h : matchMove cs = some n) : 1 ≤ n :=
  litAlt_pos (by decide) h

theorem matchReturn_pos {cs : List Char} {n : Nat} (h : matchReturn cs = some n) : 1 ≤ n :=
  litAlt_pos (by decide) h

theorem matchStr_pos {cs : List Char} {n : Nat} (h : matchStr cs = some n) : 1 ≤ n := by
  unfold matchStr at h
  split at h
  · split at h
    · cases h; omega
    · cases h
  · cases h

theorem digitRun_pos {r : List Char} {n : Nat} (h : digitRun r = some n) : 1 ≤ n := by
  unfold digitRun at h
  split at h
  · cases h
  · cases h; omega

theorem numBody_pos {r : List Char} {n : Nat} (h : numBody r = some n) : 1 ≤ n := by
  unfold numBody at h
  rcases maxAlt_cases h with h1 | h1
  · split at h1
    · rcases Option.map_eq_some'.mp h1 with ⟨m, hm, hn⟩
      omega
    · cases h1
  · exact digitRun_pos h1

theorem matchNumber_pos {cs : List Char} {n : Nat} (h : matchNumber cs = some n) : 1 ≤ n := by
  unfold matchNumber at h
  split at h
  · rcases Option.map_eq_some'.mp h with ⟨m, hm, hn⟩
    omega
  · exact numBody_pos h

theorem matchTreecordMacro_pos {cs : List Char} {n : Nat}
    (h : matchTreecordMacro cs = some n) : 1 ≤ n := by
  unfold matchTreecordMacro at h
  split at h
  · split at h
    · cases h; omega
    · cases h
  · cases h

theorem matchBrace_pos {cs : List Char} {n : Nat} (h : matchBrace cs = some n) : 1 ≤ n := by
  unfold matchBrace at h
  split at h
  · cases h; omega
  · cases h

theorem matchParen_pos {cs : List Char} {n : Nat} (h : matchParen cs = some n) : 1 ≤ n := by
  unfold matchParen at h
  split at h
  · cases h; omega
  · cases h

theorem matchBuiltinType_pos {cs : List Char} {n : Nat}
    (h : matchBuiltinType cs = some n) : 1 ≤ n := by
  unfold matchBuiltinType at h
  split at h
  · cases h; omega
  · cases h

theorem matchMethodCall_pos {cs : List Char} {n : Nat}
    (h : matchMethodCall cs = some n) : 1 ≤ n := by
  unfold matchMethodCall at h
  split at h
  · split at h
    · cases h
    · split at h
      · cases h; omega
      · cases h
  · cases h

theorem matchMethodName_pos {cs : List Char} {n : Nat}
    (h : matchMethodName cs = some n) : 1 ≤ n := by
  unfold matchMethodName at h
  split at h
  · cases h
  · split at h
    · cases h; omega
    · cases h

theorem matchFieldName_pos {cs : List Char} {n : Nat}
    (h : matchFieldName cs = some n) : 1 ≤ n := by
  unfold matchFieldName at h
  split at h
  · cases h
  · split at h
    · cases h; omega
    · cases h

theorem matchArrayOp_pos {cs : List Char} {n : Nat} (h : matchArrayOp cs = some n) : 1 ≤ n :=
  litLen_pos (by decide) h

theorem matchRangeOp_pos {cs : List Char} {n : Nat} (h : matchRangeOp cs = some n) : 1 ≤ n :=
  litLen_pos (by decide) h

theorem matchCommaOp_pos {cs : List Char} {n : Nat} (h : matchCommaOp cs = some n) : 1 ≤ n :=
  litLen_pos (by decide) h

theorem better_cases {n : Nat} {t u : TokenType} {m : Nat} {r : Option (TokenType × Nat)}
    (h : better n t r = some (u, m)) : (u = t ∧ m = n) ∨ r = some (u, m) := by
  cases r with
  | none =>
    simp only [better, Option.some.injEq, Prod.mk.injEq] at h
    exact Or.inl ⟨h.1.symm, h.2.symm⟩
  | some p =>
    match p with
    | (v, k) =>
      have hstep : better n t (some (v, k)) = if n < k then some (v, k) else some (t, n) := rfl
      rw [hstep] at h
      by_cases hlt : n < k
      · rw [if_pos hlt] at h
        exact Or.inr h
      · rw [if_neg hlt] at h
        simp only [Option.some.injEq, Prod.mk.injEq] at h
        exact Or.inl ⟨h.1.symm, h.2.symm⟩

theorem pick_mem {l : List (TokenType × Option Nat)} {t : TokenType} {n : Nat}
    (h : pick l = some (t, n)) : (t, some n) ∈ l := by
  induction l with
  | nil => cases h
  | cons p rest ih =>
    match p with
    | (u, o) =>
      cases o with
      | none =>
        have hstep : pick ((u, none) :: rest) = pick rest := rfl
        rw [hstep] at h
        exact List.mem_cons_of_mem _ (ih h)
      | some m =>
        have hstep : pick ((u, some m) :: rest) = better m u (pick rest) := rfl
        rw [hstep] at h
        rcases better_cases h with ⟨rfl, rfl⟩ | hr
        · exact List.mem_cons_self _ _
        · exact List.mem_cons_of_mem _ (ih hr)

theorem bestMatch_pos {cs : List Char} {t : TokenType} {n : Nat}
    (h : bestMatch cs = some (t, n)) : 1 ≤ n := by
  have hm := pick_mem h
  simp only [List.mem_cons, List.not_mem_nil, or_false] at hm
  rcases hm with h1|h1|h1|h1|h1|h1|h1|h1|h1|h1|h1|h1|h1|h1|h1|h1|h1|h1|h1|h1|h1|h1|h1|h1|h1|h1|h1|h1|h1|h1|h1|h1|h1|h1|h1|h1
  · exact matchNewLine_pos (Prod.ext_iff.mp h1).2.symm
  · exact matchComment_pos (Prod.ext_iff.mp h1).2.symm
  · exact matchVisibility_pos (Prod.ext_iff.mp h1).2.symm
  · exact matchModifier_pos (Prod.ext_iff.mp h1).2.symm
  · exact matchSpace_pos (Prod.ext_iff.mp h1).2.symm
  · exact matchClass_pos (Prod.ext_iff.mp h1).2.symm
  · exact matchRegister_pos (Prod.ext_iff.mp h1).2.symm
  · exact matchMethod_pos (Prod.ext_iff.mp h1).2.symm
  · exact matchField_pos (Prod.ext_iff.mp h1).2.symm
  · exact matchLabel_pos (Prod.ext_iff.mp h1).2.symm
  · exact matchDirective_pos (Prod.ext_iff.mp h1).2.symm
  · exact matchInvoke_pos (Prod.ext_iff.mp h1).2.symm
  · exact matchCheckCast_pos (Prod.ext_iff.mp h1).2.symm
  · exact matchNewInstance_pos (Prod.ext_iff.mp h1).2.symm
  · exact matchConstString_pos (Prod.ext_iff.mp h1).2.symm
  · exact matchConstInt_pos (Prod.ext_iff.mp h1).2.symm
  · exact matchConst_pos (Prod.ext_iff.mp h1).2.symm
  · exact matchIf_pos (Prod.ext_iff.mp h1).2.symm
  · exact matchIGet_pos (Prod.ext_iff.mp h1).2.symm
  · exact matchSGet_pos (Prod.ext_iff.mp h1).2.symm
  · exact matchIPut_pos (Prod.ext_iff.mp h1).2.symm
  · exact matchSPut_pos (Prod.ext_iff.mp h1).2.symm
  · exact matchMove_pos (Prod.ext_iff.mp h1).2.symm
  · exact matchReturn_pos (Prod.ext_iff.mp h1).2.symm
  · exact matchStr_pos (Prod.ext_iff.mp h1).2.symm
  · exact matchNumber_pos (Prod.ext_iff.mp h1).2.symm
  · exact matchTreecordMacro_pos (Prod.ext_iff.mp h1).2.symm
  · exact matchBrace_pos (Prod.ext_iff.mp h1).2.symm
  · exact matchParen_pos (Prod.ext_iff.mp h1).2.symm
  · exact matchBuiltinType_pos (Prod.ext_iff.mp h1).2.symm
  · exact matchMethodCall_pos (Prod.ext_iff.mp h1).2.symm
  · exact matchMethodName_pos (Prod.ext_iff.mp h1).2.symm
  · exact matchFieldName_pos (Prod.ext_iff.mp h1).2.symm
  · exact matchArrayOp_pos (Prod.ext_iff.mp h1).2.symm
  · exact matchRangeOp_pos (Prod.ext_iff.mp h1).2.symm
  · exact matchCommaOp_pos (Prod.ext_iff.mp h1).2.symm

end MatcherPositivity

instance : Inhabited Position := ⟨⟨0, 0⟩⟩

instance : Inhabited LspRange := ⟨⟨default, default⟩⟩

/-- `lexer.rs::Token`. -/
structure Token where
  range : LspRange
  content : String
  token_type : TokenType
  deriving DecidableEq, Repr, Inhabited

/-- `lexer.rs::Token::to_diagnostic`. -/
def Token.to_diagnostic (t : Token) (message : String) (severity : Option Severity) :
    Diagnostic :=
  { range := t.range, severity := severity, message := message }

/-- The lexing loop of `lex_str`: repeatedly take the best match at the current
position (or a one-character `Error` token when nothing matches) and continue on
the rest. The `fuel` argument makes the recursion structural; since every step
consumes at least one character, `fuel = input.length` never runs out
(established by `piecesGo_concat`). -/
def piecesGo : Nat → List Char → List (TokenType × List Char)
  | 0, _ => []
  | _ + 1, [] => []
  | fuel + 1, c :: cs =>
    match bestMatch (c :: cs) with
    | some (t, n) => (t, (c :: cs).take n) :: piecesGo fuel ((c :: cs).drop n)
    | none => (TokenType.Error, [c]) :: piecesGo fuel cs

/-- The token-type/content pieces of the whole input. -/
def pieces (input : List Char) : List (TokenType × List Char) := piecesGo input.length input

/-- Stamp each piece with its LSP range (Rust does this inside the lexing loop
via `lex.span()`; offsets are the cumulative content lengths). -/
def tokensFromPieces (content : String) (off : Nat) :
    List (TokenType × List Char) → List Token
  | [] => []
  | (t, w) :: rest =>
    { range := range_to_lsp_range off (off + w.length) content,
      content := String.mk w,
      token_type := t } :: tokensFromPieces content (off + w.length) rest

/-- `lexer.rs::lex_str`. -/
def lex_str (content : String) : List Token :=
  tokensFromPieces content 0 (pieces content.data)

section LexTotality

theorem piecesGo_concat (fuel : Nat) : ∀ cs : List Char, cs.length ≤ fuel →
    ((piecesGo fuel cs).map (fun p => p.2)).flatten = cs := by
  induction fuel with
  | zero =>
    intro cs h
    have hnil : cs = [] := List.length_eq_zero.mp (Nat.le_zero.mp h)
    subst hnil
    rfl
  | succ fuel ih =>
    intro cs h
    cases cs with
    | nil => rfl
    | cons c cs =>
      simp only [List.length_cons] at h
      have h0 : piecesGo (fuel + 1) (c :: cs)
          = (match bestMatch (c :: cs) with
             | some (t, n) => (t, (c :: cs).take n) :: piecesGo fuel ((c :: cs).drop n)
             | none => (TokenType.Error, [c]) :: piecesGo fuel cs) := rfl
      rw [h0]
      split
      · rename_i t n hb
        simp only [List.map_cons, List.flatten_cons]
        have hn := bestMatch_pos hb
        have hlen : ((c :: cs).drop n).length ≤ fuel := by
          simp only [List.length_drop, List.length_cons]
          omega
        rw [ih _ hlen, List.take_append_drop]
      · simp only [List.map_cons, List.flatten_cons]
        rw [ih cs (by omega)]
        rfl

theorem pieces_concat (cs : List Char) :
    ((pieces cs).map (fun p => p.2)).flatten = cs :=
  piecesGo_concat cs.length cs (Nat.le_refl _)

theorem tokensFromPieces_contents (content : String) (ps : List (TokenType × List Char)) :
    ∀ off : Nat,
      (tokensFromPieces content off ps).map (fun t => t.content)
        = ps.map (fun p => String.mk p.2) := by
  induction ps with
  | nil => intro off; rfl
  | cons p rest ih =>
    intro off
    match p with
    | (t, w) =>
      simp only [tokensFromPieces, List.map_cons]
      rw [ih]

theorem strFoldAppend_mk (ws : List (List Char)) :
    ∀ acc : List Char,
      List.foldl (· ++ ·) (String.mk acc) (ws.map String.mk)
        = String.mk (acc ++ ws.flatten) := by
  induction ws with
  | nil => intro acc; simp
  | cons w ws ih =>
    intro acc
    simp only [List.map_cons, List.foldl_cons, List.flatten_cons]
    have hmk : String.mk acc ++ String.mk w = String.mk (acc ++ w) := rfl
    rw [hmk, ih (acc ++ w), List.append_assoc]

theorem strJoin_mk (ws : List (List Char)) :
    String.join (ws.map String.mk) = String.mk ws.flatten := by
  have h := strFoldAppend_mk ws []
  simpa [String.join] using h

/-- Totality of the lexer: the token contents tile the input exactly. -/
theorem lex_str_concat (content : String) :
    String.join ((lex_str content).map (fun t => t.content)) = content := by
  unfold lex_str
  rw [tokensFromPieces_contents]
  have hmap : (pieces content.data).map (fun p => String.mk p.2)
      = ((pieces content.data).map (fun p => p.2)).map String.mk := by
    rw [List.map_map]
    rfl
  rw [hmap, strJoin_mk, pieces_concat]

end LexTotality

/-- `helper.rs::trim_space_tokens`' loop state: accumulated output and the
buffered run of interior spaces. -/
def trimSpaceGo (output buffer : List Token) : List Token → List Token
  | [] => output
  | token :: rest =>
    if token.token_type = TokenType.Space then
      if output.isEmpty then trimSpaceGo output buffer rest
      else trimSpaceGo output (buffer ++ [token]) rest
    else trimSpaceGo (output ++ buffer ++ [token]) [] rest

/-- `helper.rs::trim_space_tokens`: drops leading spaces and any trailing run of
spaces; interior space runs are kept only when followed by a non-space token. -/
def trim_space_tokens (tokens : List Token) : List Token :=
  trimSpaceGo [] [] tokens

/-- `helper.rs::tokens_to_diagnostic`: a diagnostic spanning the first token's
start to the last token's end. Rust `unwrap`s `first()`/`last()`, so an empty
slice is a panic (`none`). -/
def tokens_to_diagnostic (tokens : List Token) (message : String)
    (severity : Option Severity) : Option Diagnostic := do
  let first ← tokens.head?
  let last ← tokens.getLast?
  pure { range := { start := first.range.start, stop := last.range.stop },
         severity := severity, message := message }

/-- Total companion of `tokens_to_diagnostic` used to state theorems: equals it
on non-empty token lists (`tokens_to_diagnostic_eq`). -/
def mkLineDiag (tokens : List Token) (message : String) (severity : Option Severity) :
    Diagnostic :=
  { range := { start := (tokens.headD default).range.start,
               stop := (tokens.getLastD default).range.stop },
    severity := severity, message := message }

theorem tokens_to_diagnostic_eq {tokens : List Token} (message : String)
    (severity : Option Severity) (h : tokens ≠ []) :
    tokens_to_diagnostic tokens message severity = some (mkLineDiag tokens message severity) := by
  cases tokens with
  | nil => exact absurd rfl h
  | cons t rest =>
    have hhead : (t :: rest).head? = some t := rfl
    have hlast : (t :: rest).getLast? = some ((t :: rest).getLastD default) := by
      rw [List.getLastD_eq_getLast?]
      cases hl : (t :: rest).getLast? with
      | none => exact absurd (List.getLast?_eq_none_iff.mp hl) (by simp)
      | some x => rfl
    simp only [tokens_to_diagnostic, hhead, hlast, Option.bind_eq_bind, Option.some_bind]
    rfl

/-! ## Validation engine (`src/server/validation/`) -/

/-- `header.rs::HeaderValidator` state. -/
structure HeaderValidator where
  top_line : Option (List Token)
  super_declaration : Option (List Token)
  class_declaration : Option (List Token)
  source_declaration : Option (List Token)
  blank_line : Bool
  last_token : Option Token
  deriving DecidableEq, Repr

/-- `HeaderValidator::default()`. -/
def headerDefault : HeaderValidator := ⟨none, none, none, none, false, none⟩

/-- `HeaderValidator::validate_token`: tracks blank lines and the last
non-space token; never emits diagnostics (returns `Vec::new()`). -/
def header_validate_token (v : HeaderValidator) (token : Token) : HeaderValidator :=
  let v1 :=
    if token.token_type == TokenType.NewLine
        && v.last_token.any (fun tkn => tkn.token_type == TokenType.NewLine) then
      { v with blank_line := true }
    else v
  if token.token_type ≠ TokenType.Space then { v1 with last_token := some token } else v1

/-- `header.rs::Stage`. -/
inductive Stage where
  | Modifier
  | Other
  deriving DecidableEq, Repr

/-- One iteration of the `for (idx, token)` loop of `header.rs::validate_class`:
diagnostics for this token, plus the updated visibility/final/synthetic slots
and stage. -/
def validateClassStep (vsblty final synthc : Option Token) (stage : Stage) (idx : Nat)
    (token : Token) :
    List Diagnostic × Option Token × Option Token × Option Token × Stage :=
  if idx = 0 then ([], vsblty, final, synthc, stage)
  else if idx = 1 then
    ((if token.token_type ≠ TokenType.Space
      then [token.to_diagnostic "Space expected." (some Severity.Error)] else []),
     vsblty, final, synthc, stage)
  else if stage = Stage.Modifier then
    match token.token_type with
    | TokenType.Visibility =>
      match vsblty with
      | some vt =>
        ([vt.to_diagnostic "Visibility modifier defined here." (some Severity.Hint),
          token.to_diagnostic "Visibility modifier already defined." (some Severity.Error)],
         vsblty, final, synthc, stage)
      | none => ([], some token, final, synthc, stage)
    | TokenType.Modifier =>
      if token.content = "static" then
        ([token.to_diagnostic "Class cannot be defined as static." (some Severity.Error)],
         vsblty, final, synthc, stage)
      else if token.content = "final" then
        match final with
        | some ft =>
          ([ft.to_diagnostic "Final modifier defined here." (some Severity.Hint),
            token.to_diagnostic "Final modifier already defined." (some Severity.Error)],
           vsblty, final, synthc, stage)
        | none => ([], vsblty, some token, synthc, stage)
      else if token.content = "synthetic" then
        match synthc with
        | some st =>
          ([st.to_diagnostic "Synthetic modifier defined here." (some Severity.Hint),
            token.to_diagnostic "Synthetic modifier already defined." (some Severity.Error)],
           vsblty, final, synthc, stage)
        | none => ([], vsblty, final, some token, stage)
      else ([], vsblty, final, synthc, stage)
    | TokenType.Class => ([], vsblty, final, synthc, Stage.Other)
    | _ => ([], vsblty, final, synthc, stage)
  else
    ((if token.token_type ≠ TokenType.Space
      then [token.to_diagnostic "New line expected." (some Severity.Error)] else []),
     vsblty, final, synthc, stage)

/-- The `for (idx, token)` loop of `header.rs::validate_class`. -/
def validateClassGo (vsblty final synthc : Option Token) (stage : Stage) (idx : Nat) :
    List Token → List Diagnostic
  | [] => []
  | token :: rest =>
    let s := validateClassStep vsblty final synthc stage idx token
    s.1 ++ validateClassGo s.2.1 s.2.2.1 s.2.2.2.1 s.2.2.2.2 (idx + 1) rest

/-- `header.rs::validate_class`. -/
def validate_class (line : List Token) : List Diagnostic :=
  validateClassGo none none none Stage.Modifier 0 line

/-- One step of the index loop of `header.rs::validate_simple`. -/
def validateSimpleItem (first token : Token) (idx : Nat) : List Diagnostic :=
  if idx = 0 then []
  else if idx = 1 then
    if token.token_type ≠ TokenType.Space
    then [token.to_diagnostic "Space expected." (some Severity.Error)] else []
  else if idx = 2 then
    if token.token_type ≠ TokenType.Class ∧ first.content ≠ ".source" then
      [token.to_diagnostic "Class expected." (some Severity.Error)]
    else if token.token_type ≠ TokenType.String ∧ first.content = ".source" then
      [token.to_diagnostic "String expected." (some Severity.Error)]
    else []
  else [token.to_diagnostic "New line expected." (some Severity.Error)]

/-- The index loop of `header.rs::validate_simple`. -/
def validateSimpleGo (first : Token) (idx : Nat) : List Token → List Diagnostic
  | [] => []
  | token :: rest => validateSimpleItem first token idx ++ validateSimpleGo first (idx + 1) rest

/-- `header.rs::validate_simple`: shape check for `.super`/`.source`/`.implements`
lines; fewer than three tokens yields a single usage error. -/
def validate_simple (line : List Token) : Option (List Diagnostic) :=
  match line.head? with
  | none => none
  | some first =>
    if line.length < 3 then
      match tokens_to_diagnostic line
          ("\x27" ++ first.content ++ " "
            ++ (if first.content = ".source" then "\x22FileName\x22" else "Lclass/Name;")
            ++ "\x27")
          (some Severity.Error) with
      | none => none
      | some d => some [d]
    else
      some (validateSimpleGo first 0 line)

/-- The directive dispatch of `HeaderValidator::validate_line` (everything
before the final `top_line` update). -/
def headerLineCore (v : HeaderValidator) (first : Token) (line : List Token) :
    Option (HeaderValidator × List Diagnostic) :=
  if first.token_type = TokenType.Directive then
    if first.content = ".class" then
      match v.class_declaration with
      | some tokens =>
        match tokens_to_diagnostic tokens "Class declared here." (some Severity.Hint),
              tokens_to_diagnostic line "Class already declared." (some Severity.Error) with
        | some d1, some d2 => some (v, [d1, d2])
        | _, _ => none
      | none => some ({ v with class_declaration := some line }, validate_class line)
    else if first.content = ".super" then
      match v.super_declaration with
      | some tokens =>
        match tokens_to_diagnostic tokens "Super declared here." (some Severity.Hint),
              tokens_to_diagnostic line "Super already declared." (some Severity.Error) with
        | some d1, some d2 => some (v, [d1, d2])
        | _, _ => none
      | none =>
        match validate_simple line with
        | none => none
        | some ds => some ({ v with super_declaration := some line }, ds)
    else if first.content = ".implements" then
      match validate_simple line with
      | none => none
      | some ds => some (v, ds)
    else if first.content = ".source" then
      match v.source_declaration with
      | some tokens =>
        match tokens_to_diagnostic tokens "Source declared here." (some Severity.Hint),
              tokens_to_diagnostic line "Source already declared." (some Severity.Error) with
        | some d1, some d2 => some (v, [d1, d2])
        | _, _ => none
      | none =>
        match validate_simple line with
        | none => none
        | some ds => some ({ v with source_declaration := some line }, ds)
    else some (v, [])
  else some (v, [])

/-- `HeaderValidator::validate_line`. -/
def header_validate_line (v : HeaderValidator) (line : List Token) :
    Option (HeaderValidator × List Diagnostic) :=
  match line.head? with
  | none => none
  | some first =>
    match headerLineCore v first line with
    | none => none
    | some (v1, diags) =>
      some (if v1.top_line = none then { v1 with top_line := some line } else v1, diags)

/-- `HeaderValidator::validate_end`. -/
def header_validate_end (v : HeaderValidator) : Option (List Diagnostic) :=
  match v.top_line with
  | none => some []
  | some top_line =>
    match (if v.class_declaration = none then
             match tokens_to_diagnostic top_line "Missing class directive."
                 (some Severity.Error) with
             | none => none
             | some d => some [d]
           else some []) with
    | none => none
    | some cds =>
      match (if v.super_declaration = none then
               match tokens_to_diagnostic top_line
                   "Missing super directive.\nExtend \x27Ljava/lang/Object;\x27 by default"
                   (some Severity.Error) with
               | none => none
               | some d => some [d]
             else some []) with
      | none => none
      | some sds => some (cds ++ sds)

/-- `method.rs::ReturnType`. -/
inductive ReturnType where
  | None
  | Void
  | BuiltinType (name : String)
  | Class (name : String)
  deriving DecidableEq, Repr

/-- `method.rs::MethodDeclaration`. -/
structure MethodDeclaration where
  is_start : Bool
  found_return : Bool
  tokens : List Token
  return_type : ReturnType
  deriving DecidableEq, Repr

/-- `method.rs::MethodValidator` state. -/
structure MethodValidator where
  method_decl : Option MethodDeclaration
  constructor_static : Option MethodDeclaration
  constructor_virtual : Option MethodDeclaration
  deriving DecidableEq, Repr

/-- `MethodValidator::default()`. -/
def methodDefault : MethodValidator := ⟨none, none, none⟩

/-- `method.rs::MethodDeclarationStage`. -/
inductive MethodDeclarationStage where
  | Modifiers
  | Params
  | ReturnType
  deriving DecidableEq, Repr

/-- Loop-local state of `method.rs::validate_method_declaration_line`. -/
structure MethodDeclLineState where
  vsblty_decl : Option Token
  static_decl : Option Token
  final_decl : Option Token
  const_decl : Option Token
  stage : MethodDeclarationStage
  has_return_type : Bool
  was_space : Bool
  return_type : ReturnType
  deriving DecidableEq, Repr

/-- One iteration of the token loop of `validate_method_declaration_line` (the
`breakable!` blocks of the Rust code are per-token early exits, so each token
contributes its diagnostics and state updates). -/
def methodDeclStep (st : MethodDeclLineState) (token : Token) :
    List Diagnostic × MethodDeclLineState :=
  match st.stage with
  | MethodDeclarationStage.Modifiers =>
    if st.was_space = false ∧ token.token_type ≠ TokenType.Space then
      ([token.to_diagnostic "Space expected." (some Severity.Error)], st)
    else
      match token.token_type with
      | TokenType.Visibility =>
        match st.vsblty_decl with
        | some visibility_token =>
          ([visibility_token.to_diagnostic "Visibility modifier declared here."
              (some Severity.Hint),
            token.to_diagnostic "Visibility modifier already declared."
              (some Severity.Error)], st)
        | none => ([], { st with vsblty_decl := some token })
      | TokenType.Modifier =>
        if token.content = "constructor" then
          match st.const_decl with
          | some constructor_token =>
            ([constructor_token.to_diagnostic "Constuctor modifier declared here."
                (some Severity.Hint),
              token.to_diagnostic "Constuctor modifier already declared."
                (some Severity.Error)], st)
          | none => ([], { st with const_decl := some token })
        else if token.content = "final" then
          match st.final_decl with
          | some final_token =>
            ([final_token.to_diagnostic "Final modifier declared here."
                (some Severity.Hint),
              token.to_diagnostic "Final modifier already declared."
                (some Severity.Error)], st)
          | none => ([], { st with final_decl := some token })
        else if token.content = "static" then
          match st.static_decl with
          | some static_token =>
            ([static_token.to_diagnostic "Static modifier declared here."
                (some Severity.Hint),
              token.to_diagnostic "Static modifier already declared."
                (some Severity.Error)], st)
          | none => ([], { st with static_decl := some token })
        else ([], st)
      | TokenType.MethodName =>
        ((match st.const_decl with
          | some constructor_token =>
            match st.static_decl with
            | some static_token =>
              if token.content ≠ "<clinit>(" then
                [constructor_token.to_diagnostic "Constuctor modifier declared here."
                   (some Severity.Error),
                 static_token.to_diagnostic "Static modifier declared here."
                   (some Severity.Error),
                 token.to_diagnostic "Static constuctor must be named \x27<clinit>\x27."
                   (some Severity.Error)]
              else []
            | none =>
              if token.content ≠ "<init>(" then
                [constructor_token.to_diagnostic "Constuctor modifier declared here."
                   (some Severity.Error),
                 token.to_diagnostic "Non-static constuctor must be named \x27<init>\x27."
                   (some Severity.Error)]
              else []
          | none =>
            if token.content = "<init>(" then
              [token.to_diagnostic "\x27<init>\x27 is reserved for nonstatic constructors."
                 (some Severity.Error)]
            else if token.content = "<clinit>(" then
              [token.to_diagnostic "\x27<clinit>\x27 is reserved for static constructors."
                 (some Severity.Error)]
            else [] : List Diagnostic),
         { st with stage := MethodDeclarationStage.Params })
      | TokenType.Space => ([], st)
      | _ => ([token.to_diagnostic "Method modifier expected." (some Severity.Error)], st)
  | MethodDeclarationStage.Params =>
    match token.token_type with
    | TokenType.BuiltinType => ([], st)
    | TokenType.Class => ([], st)
    | _ =>
      if token.content = ")" then ([], { st with stage := MethodDeclarationStage.ReturnType })
      else ([token.to_diagnostic "\x27)\x27 expected." (some Severity.Error)], st)
  | MethodDeclarationStage.ReturnType =>
    if st.has_return_type then
      (if token.token_type ≠ TokenType.Space
       then [token.to_diagnostic "New line expected." (some Severity.Error)] else [], st)
    else
      match token.token_type with
      | TokenType.BuiltinType =>
        ([],
         { st with
           has_return_type := true,
           return_type := if token.content = "V" then ReturnType.Void
                          else ReturnType.BuiltinType token.content })
      | TokenType.Class =>
        ([],
         { st with
           has_return_type := true,
           return_type := ReturnType.Class token.content })
      | _ =>
        ([token.to_diagnostic "Return type expected.\n\x27V\x27 for void."
            (some Severity.Error)], st)
/-- The `for (idx, token)` loop of `validate_method_declaration_line`: index 0
is skipped with `continue` (so `was_space` is not refreshed there); every other
token contributes its step diagnostics and then refreshes `was_space`. -/
def methodDeclLineGo (st : MethodDeclLineState) (idx : Nat) :
    List Token → List Diagnostic × MethodDeclLineState
  | [] => ([], st)
  | token :: rest =>
    if idx = 0 then methodDeclLineGo st 1 rest
    else
      let step := methodDeclStep st token
      let st2 := { step.2 with was_space := token.token_type == TokenType.Space }
      let r := methodDeclLineGo st2 (idx + 1) rest
      (step.1 ++ r.1, r.2)

/-- The constructor-uniqueness tail of `validate_method_declaration_line`,
over the scan result `(diags, st)`. -/
def declLineFinish (line : List Token) (validator : MethodValidator)
    (diags : List Diagnostic) (st : MethodDeclLineState) :
    Option (List Diagnostic × ReturnType × MethodValidator) :=
  if st.const_decl.isSome then
    if st.static_decl.isSome then
      match validator.constructor_static with
      | some constructor_static =>
        match tokens_to_diagnostic constructor_static.tokens
                "Static constuctor defined here." (some Severity.Hint),
              tokens_to_diagnostic line "Static constuctor already defined."
                (some Severity.Error) with
        | some d1, some d2 => some (diags ++ [d1, d2], st.return_type, validator)
        | _, _ => none
      | none =>
        some (diags, st.return_type,
          { validator with constructor_static := some ⟨true, true, line, ReturnType.Void⟩ })
    else
      match validator.constructor_virtual with
      | some constructor_virtual =>
        match tokens_to_diagnostic constructor_virtual.tokens
                "Constuctor defined here." (some Severity.Hint),
              tokens_to_diagnostic line "Constuctor already defined."
                (some Severity.Error) with
        | some d1, some d2 => some (diags ++ [d1, d2], st.return_type, validator)
        | _, _ => none
      | none =>
        some (diags, st.return_type,
          { validator with constructor_virtual := some ⟨true, true, line, ReturnType.Void⟩ })
  else some (diags, st.return_type, validator)

/-- `method.rs::validate_method_declaration_line`: scans the declaration line
and then enforces file-scoped constructor uniqueness on the validator. -/
def validate_method_declaration_line (line : List Token) (validator : MethodValidator) :
    Option (List Diagnostic × ReturnType × MethodValidator) :=
  declLineFinish line validator
    (methodDeclLineGo
      ⟨none, none, none, none, MethodDeclarationStage.Modifiers, false, false, ReturnType.None⟩
      0 line).1
    (methodDeclLineGo
      ⟨none, none, none, none, MethodDeclarationStage.Modifiers, false, false, ReturnType.None⟩
      0 line).2

/-- `method.rs::validate_method_declaration`. -/
def validate_method_declaration (line : List Token) (validator : MethodValidator) :
    Option (MethodValidator × List Diagnostic) :=
  match line.head? with
  | none => none
  | some first =>
  if first.content = ".method" then
    match validate_method_declaration_line line validator with
    | none => none
    | some (dl_diags, rt, v1) =>
      match v1.method_decl with
      | some m =>
        if m.is_start then
          match tokens_to_diagnostic m.tokens "Method block starts here." (some Severity.Hint),
                tokens_to_diagnostic line
                  "\x27.method\x27 directive cannot be inside a method block."
                  (some Severity.Error) with
          | some d1, some d2 =>
            some ({ v1 with method_decl := some ⟨true, false, line, rt⟩ }, [d1, d2])
          | _, _ => none
        else some ({ v1 with method_decl := some ⟨true, false, line, rt⟩ }, dl_diags)
      | none => some ({ v1 with method_decl := some ⟨true, false, line, rt⟩ }, dl_diags)
  else
    match validator.method_decl with
    | some m =>
      if m.is_start = false then
        match tokens_to_diagnostic m.tokens "Method block ends here." (some Severity.Hint),
              tokens_to_diagnostic line
                "\x27.end method\x27 directive must be at the end of a method block."
                (some Severity.Error) with
        | some d1, some d2 => some (validator, [d1, d2])
        | _, _ => none
      else
        if m.found_return = false then
          match tokens_to_diagnostic m.tokens "No return instruction found in method block."
              (some Severity.Error) with
          | none => none
          | some d =>
            some ({ validator with method_decl := some ⟨false, false, line, ReturnType.None⟩ },
                  [d])
        else
          some ({ validator with method_decl := some ⟨false, false, line, ReturnType.None⟩ },
                [])
    | none =>
      match tokens_to_diagnostic line
          "\x27.end method\x27 directive must be at the end of a method block."
          (some Severity.Error) with
      | none => none
      | some d => some (validator, [d])

/-- `method.rs::validate_method_token`: reacts to a `Return`-type token. -/
def validate_method_token (token : Token) (validator : MethodValidator) :
    Option (MethodValidator × List Diagnostic) :=
  match validator.method_decl with
  | none => some (validator, [])
  | some method =>
    match method.return_type with
    | ReturnType.None =>
      some ({ validator with method_decl := some { method with found_return := true } },
            [token.to_diagnostic "Unable to get return type from method declaration."
               (some Severity.Information)])
    | ReturnType.Void =>
      if token.content ≠ "return-void" then
        match method.tokens.getLast? with
        | none => none
        | some last =>
          some ({ validator with method_decl := some { method with found_return := true } },
                [last.to_diagnostic "Return type declared here." (some Severity.Hint),
                     token.to_diagnostic "\x27return-void\x27 expected." (some Severity.Error)])
      else some ({ validator with method_decl := some { method with found_return := true } }, [])
    | ReturnType.Class _ =>
      if token.content ≠ "return-object" then
        match method.tokens.getLast? with
        | none => none
        | some last =>
          some ({ validator with method_decl := some { method with found_return := true } },
                [last.to_diagnostic "Return type declared here." (some Severity.Hint),
                     token.to_diagnostic "\x27return-object\x27 expected."
                       (some Severity.Error)])
      else some ({ validator with method_decl := some { method with found_return := true } }, [])
    | ReturnType.BuiltinType _ => some ({ validator with method_decl := some { method with found_return := true } }, [])

/-- `MethodValidator::validate_token`. -/
def method_validate_token (v : MethodValidator) (token : Token) :
    Option (MethodValidator × List Diagnostic) :=
  if token.token_type = TokenType.Return then validate_method_token token v
  else some (v, [])

/-- `MethodValidator::validate_line`. -/
def method_validate_line (v : MethodValidator) (line : List Token) :
    Option (MethodValidator × List Diagnostic) :=
  match line.head? with
  | none => none
  | some first =>
    if first.token_type = TokenType.Method then validate_method_declaration line v
    else some (v, [])

/-- `MethodValidator::validate_end`. -/
def method_validate_end (_ : MethodValidator) : List Diagnostic := []

/-- `directives/mod.rs::DirectivesValidator`. -/
structure DirectivesValidator where
  header_validator : HeaderValidator
  method_validator : MethodValidator
  deriving DecidableEq, Repr

/-- `DirectivesValidator::default()`. -/
def dirDefault : DirectivesValidator := ⟨headerDefault, methodDefault⟩

/-- `DirectivesValidator::validate_token`: header first (no diagnostics), then
method. -/
def dirValidateToken (v : DirectivesValidator) (token : Token) :
    Option (DirectivesValidator × List Diagnostic) :=
  match method_validate_token v.method_validator token with
  | none => none
  | some (m1, md) => some (⟨header_validate_token v.header_validator token, m1⟩, md)

/-- `DirectivesValidator::validate_line`: header diagnostics then method
diagnostics. -/
def dirValidateLine (v : DirectivesValidator) (line : List Token) :
    Option (DirectivesValidator × List Diagnostic) :=
  match header_validate_line v.header_validator line with
  | none => none
  | some (h1, hd) =>
    match method_validate_line v.method_validator line with
    | none => none
    | some (m1, md) => some (⟨h1, m1⟩, hd ++ md)

/-- `DirectivesValidator::validate_end`. -/
def dirValidateEnd (v : DirectivesValidator) : Option (List Diagnostic) :=
  match header_validate_end v.header_validator with
  | none => none
  | some hd => some (hd ++ method_validate_end v.method_validator)

/-- The loop state of `validation/mod.rs::validate`: validator state, the
tokens of the line being assembled, and the diagnostics so far. -/
structure LoopState where
  dir : DirectivesValidator
  curLine : List Token
  diags : List Diagnostic
  deriving DecidableEq, Repr

/-- One iteration of the `for token in tokens` loop of `validate`: on a
newline, flush the trimmed current line to the line callbacks when non-empty;
otherwise push the token onto the current line; in either case run the
per-token callbacks on the token. -/
def loopBody (st : LoopState) (token : Token) : Option LoopState :=
  if token.token_type = TokenType.NewLine then
    if (trim_space_tokens st.curLine).isEmpty then
      match dirValidateToken st.dir token with
      | none => none
      | some (dir2, tds) => some ⟨dir2, [], st.diags ++ tds⟩
    else
      match dirValidateLine st.dir (trim_space_tokens st.curLine) with
      | none => none
      | some (dir1, ds) =>
        match dirValidateToken dir1 token with
        | none => none
        | some (dir2, tds) => some ⟨dir2, [], st.diags ++ ds ++ tds⟩
  else
    match dirValidateToken st.dir token with
    | none => none
    | some (dir2, tds) => some ⟨dir2, st.curLine ++ [token], st.diags ++ tds⟩

/-- The token loop of `validate`. -/
def runLoop : LoopState → List Token → Option LoopState
  | st, [] => some st
  | st, token :: rest =>
    match loopBody st token with
    | some st1 => runLoop st1 rest
    | none => none

/-- The loop state reached by `validate` on `content` (exposes the final
validator state). -/
def runValidation (content : String) : Option LoopState :=
  runLoop ⟨dirDefault, [], []⟩ (lex_str content)

/-- `validation/mod.rs::validate`. `some` is the (always-taken) `Ok` arm of the
Rust `Result`; `none` is a panic inside the scan. -/
def validate (content : String) : Option (List Diagnostic) :=
  match runValidation content with
  | none => none
  | some st =>
    match dirValidateEnd st.dir with
    | none => none
    | some endDiags => some (st.diags ++ endDiags)

/-- The logical lines that the loop of `validate` hands to the line callbacks:
trimmed, non-empty token lists flushed at each `NewLine` token (tokens after
the last newline are never flushed). -/
def linesOfAux (cur : List Token) : List Token → List (List Token)
  | [] => []
  | token :: rest =>
    if token.token_type = TokenType.NewLine then
      let line := trim_space_tokens cur
      if line.isEmpty then linesOfAux [] rest else line :: linesOfAux [] rest
    else linesOfAux (cur ++ [token]) rest

/-- Logical lines of a token stream, starting from an empty current line. -/
def linesOf (tokens : List Token) : List (List Token) := linesOfAux [] tokens

/-! ## Position bridge lemmas -/

section PositionBridge

theorem pos_to_lsp_pos_eq (input : Nat) (content : String) :
    pos_to_lsp_pos input content
      = ⟨(splitNl (content.data.take input)).length - 1,
         ((splitNl (content.data.take input)).getLastD []).length⟩ := rfl

theorem lsp_pos_to_pos_oob (content : String) (line ch : Nat)
    (h : (splitNl content.data).length ≤ line) :
    lsp_pos_to_pos ⟨line, ch⟩ content = some content.data.length := by
  have hnone : (splitNl content.data)[line]? = none := List.getElem?_eq_none h
  simp only [lsp_pos_to_pos, hnone]

theorem lsp_pos_to_pos_le (content : String) (line ch : Nat) (L : List Char)
    (hL : (splitNl content.data)[line]? = some L) (hle : ch ≤ L.length) :
    lsp_pos_to_pos ⟨line, ch⟩ content
      = some ((joinNl ((splitNl content.data).take line)).length
              + (if 0 < line then 1 else 0) + ch) := by
  simp only [lsp_pos_to_pos, hL]
  rw [if_pos hle]

theorem lsp_pos_to_pos_gt (content : String) (line ch : Nat) (L : List Char)
    (hL : (splitNl content.data)[line]? = some L) (hgt : L.length < ch) :
    lsp_pos_to_pos ⟨line, ch⟩ content = none := by
  simp only [lsp_pos_to_pos, hL]
  rw [if_neg (by omega)]

theorem joinNl_nil_cons_length (M : List (List Char)) :
    (joinNl ([] :: M)).length = if M = [] then 0 else (joinNl M).length + 1 := by
  cases M with
  | nil => rfl
  | cons m ms =>
    rw [joinNl_cons [] (m :: ms) (by simp), if_neg (by simp)]
    simp

theorem joinNl_cons_cons_length (c : Char) (l0 : List Char) (M : List (List Char)) :
    (joinNl ((c :: l0) :: M)).length = (joinNl (l0 :: M)).length + 1 := by
  cases M with
  | nil => simp [joinNl_single]
  | cons m ms =>
    rw [joinNl_cons (c :: l0) (m :: ms) (by simp), joinNl_cons l0 (m :: ms) (by simp)]
    simp only [List.length_append, List.length_cons]
    omega

theorem getLastD_of_ne_nil {α : Type} {l : List α} (h : l ≠ []) (d1 d2 : α) :
    l.getLastD d1 = l.getLastD d2 := by
  rw [List.getLastD_eq_getLast?, List.getLastD_eq_getLast?]
  cases hl : l.getLast? with
  | none => exact absurd (List.getLast?_eq_none_iff.mp hl) h
  | some x => rfl

theorem getLastD_cons {α : Type} (x : α) (l : List α) (d : α) :
    (x :: l).getLastD d = l.getLastD x :=
  List.getLastD_cons d x l

theorem splitNl_eq_singleton {l s0 : List Char} (h : splitNl l = [s0]) : l = s0 := by
  have := joinNl_splitNl l
  rw [h, joinNl_single] at this
  exact this.symm

theorem splitNl_length_pos (l : List Char) : 1 ≤ (splitNl l).length := by
  cases hx : splitNl l with
  | nil => exact absurd hx (splitNl_ne_nil l)
  | cons a r => simp

/-- Round trip, direction 1: a valid offset survives
`pos_to_lsp_pos` followed by `lsp_pos_to_pos`. -/
theorem lsp_pos_of_pos_to_lsp (cs : List Char) : ∀ input : Nat, input ≤ cs.length →
    lsp_pos_to_pos (pos_to_lsp_pos input (String.mk cs)) (String.mk cs) = some input := by
  induction cs with
  | nil =>
    intro input h
    have h0 : input = 0 := Nat.le_zero.mp h
    subst h0
    decide
  | cons c cs ih =>
    intro input h
    cases input with
    | zero =>
      rcases hsp : splitNl (c :: cs) with _ | ⟨l0, rest⟩
      · exact absurd hsp (splitNl_ne_nil _)
      · have hpos : pos_to_lsp_pos 0 (String.mk (c :: cs)) = ⟨0, 0⟩ := rfl
        rw [hpos]
        have hL : (splitNl (String.mk (c :: cs)).data)[(0 : Nat)]? = some l0 := by
          show (splitNl (c :: cs))[(0 : Nat)]? = some l0
          rw [hsp]
          simp
        rw [lsp_pos_to_pos_le (String.mk (c :: cs)) 0 0 l0 hL (Nat.zero_le _)]
        simp [joinNl_nil]
    | succ i =>
      simp only [List.length_cons, Nat.succ_le_succ_iff] at h
      have hIH := ih i h
      rw [pos_to_lsp_pos_eq] at hIH
      rw [show (String.mk cs).data = cs from rfl] at hIH
      by_cases hc : c = nlChar
      · subst hc
        have hS1 : 1 ≤ (splitNl (cs.take i)).length := splitNl_length_pos _
        have hpos : pos_to_lsp_pos (i + 1) (String.mk (nlChar :: cs))
            = ⟨(splitNl (cs.take i)).length, ((splitNl (cs.take i)).getLastD []).length⟩ := by
          rw [pos_to_lsp_pos_eq]
          rw [show (String.mk (nlChar :: cs)).data.take (i + 1) = nlChar :: cs.take i from rfl]
          rw [splitNl_cons_nl, getLastD_cons]
          simp
        rw [hpos]
        rcases hcase : (splitNl cs)[(splitNl (cs.take i)).length - 1]? with _ | line
        · -- the previous-line index is out of range: both sides clamp
          have houtIH : (splitNl cs).length ≤ (splitNl (cs.take i)).length - 1 :=
            List.getElem?_eq_none_iff.mp hcase
          rw [lsp_pos_to_pos_oob (String.mk cs) ((splitNl (cs.take i)).length - 1)
            (((splitNl (cs.take i)).getLastD []).length) houtIH] at hIH
          have hIHval : cs.length = i := Option.some.injEq _ i |>.mp hIH
          have hout : (splitNl (String.mk (nlChar :: cs)).data).length
              ≤ (splitNl (cs.take i)).length := by
            show (splitNl (nlChar :: cs)).length ≤ _
            rw [splitNl_cons_nl]
            simp only [List.length_cons]
            omega
          rw [lsp_pos_to_pos_oob (String.mk (nlChar :: cs)) _ _ hout]
          show some (cs.length + 1) = some (i + 1)
          exact congrArg some (by omega)
        · -- the previous-line index is in range
          have hlt : (splitNl (cs.take i)).length - 1 < (splitNl cs).length :=
            (List.getElem?_eq_some_iff.mp hcase).1
          by_cases hle : ((splitNl (cs.take i)).getLastD []).length ≤ line.length
          · rw [lsp_pos_to_pos_le (String.mk cs) ((splitNl (cs.take i)).length - 1)
              (((splitNl (cs.take i)).getLastD []).length) line hcase hle] at hIH
            have hveq := Option.some.injEq _ i |>.mp hIH
            rw [show (String.mk cs).data = cs from rfl] at hveq
            have hlook2 : (splitNl (String.mk (nlChar :: cs)).data)[(splitNl (cs.take i)).length]?
                = some line := by
              show (splitNl (nlChar :: cs))[(splitNl (cs.take i)).length]? = some line
              rw [splitNl_cons_nl]
              obtain ⟨k, hk⟩ : ∃ k, (splitNl (cs.take i)).length = k + 1 :=
                ⟨(splitNl (cs.take i)).length - 1, by omega⟩
              rw [hk]
              rw [hk] at hcase
              simpa using hcase
            rw [lsp_pos_to_pos_le (String.mk (nlChar :: cs)) ((splitNl (cs.take i)).length)
              (((splitNl (cs.take i)).getLastD []).length) line hlook2 hle]
            have htake : (splitNl (String.mk (nlChar :: cs)).data).take
                ((splitNl (cs.take i)).length)
                = [] :: (splitNl cs).take ((splitNl (cs.take i)).length - 1) := by
              show (splitNl (nlChar :: cs)).take ((splitNl (cs.take i)).length) = _
              rw [splitNl_cons_nl]
              obtain ⟨k, hk⟩ : ∃ k, (splitNl (cs.take i)).length = k + 1 :=
                ⟨(splitNl (cs.take i)).length - 1, by omega⟩
              rw [hk]
              simp
            rw [htake, joinNl_nil_cons_length,
                if_pos (show 0 < (splitNl (cs.take i)).length by omega)]
            rcases Nat.eq_zero_or_pos ((splitNl (cs.take i)).length - 1) with h0 | hpos'
            · have hM : (splitNl cs).take ((splitNl (cs.take i)).length - 1) = [] := by
                rw [h0]
                rfl
              rw [if_pos hM]
              rw [h0] at hveq
              simp only [List.take_zero, joinNl_nil, List.length_nil, Nat.lt_irrefl,
                if_false, Nat.zero_add, Nat.add_zero] at hveq
              exact congrArg some (by omega)
            · have hM : (splitNl cs).take ((splitNl (cs.take i)).length - 1) ≠ [] := by
                intro hnil
                have hlen := congrArg List.length hnil
                rw [List.length_take] at hlen
                simp only [List.length_nil] at hlen
                omega
              rw [if_neg hM]
              rw [if_pos hpos'] at hveq
              exact congrArg some (by omega)
          · rw [lsp_pos_to_pos_gt (String.mk cs) ((splitNl (cs.take i)).length - 1)
              (((splitNl (cs.take i)).getLastD []).length) line hcase (by omega)] at hIH
            cases hIH
      · -- the head character is not a newline
        rcases hS : splitNl (cs.take i) with _ | ⟨s0, srest⟩
        · exact absurd hS (splitNl_ne_nil _)
        rcases hcs' : splitNl cs with _ | ⟨l0, lt⟩
        · exact absurd hcs' (splitNl_ne_nil _)
        have hsp_pre : splitNl ((String.mk (c :: cs)).data.take (i + 1))
            = (c :: s0) :: srest := by
          rw [show (String.mk (c :: cs)).data.take (i + 1) = c :: cs.take i from rfl]
          rw [splitNl_cons_other c _ hc, hS]
          simp
        rw [hS] at hIH
        cases srest with
        | nil =>
          -- the prefix is newline-free: `s0` is the whole prefix
          have hs0 : cs.take i = s0 := splitNl_eq_singleton hS
          have hs0len : s0.length = i := by
            rw [← hs0]
            exact List.length_take_of_le h
          have hpos : pos_to_lsp_pos (i + 1) (String.mk (c :: cs)) = ⟨0, i + 1⟩ := by
            rw [pos_to_lsp_pos_eq, hsp_pre]
            simp [hs0len]
          rw [hpos]
          simp only [List.getLastD_nil, List.length_cons, List.length_nil,
            Nat.add_sub_cancel, getLastD_cons] at hIH
          have hlook0 : (splitNl cs)[(0 : Nat)]? = some l0 := by
            rw [hcs']
            simp
          have hi_le : i ≤ l0.length := by
            by_contra hgt
            rw [lsp_pos_to_pos_gt (String.mk cs) 0 s0.length l0 hlook0 (by omega)] at hIH
            cases hIH
          have hlook : (splitNl (String.mk (c :: cs)).data)[(0 : Nat)]? = some (c :: l0) := by
            show (splitNl (c :: cs))[(0 : Nat)]? = some (c :: l0)
            rw [splitNl_cons_other c _ hc, hcs']
            simp
          rw [lsp_pos_to_pos_le (String.mk (c :: cs)) 0 (i + 1) (c :: l0) hlook
            (Nat.succ_le_succ hi_le)]
          simp [joinNl_nil]
        | cons t0 ts =>
          -- the prefix spans several lines: the position equals the tail's
          have hchar : (((c :: s0) :: t0 :: ts).getLastD [])
              = ((s0 :: t0 :: ts).getLastD []) := by
            simp only [getLastD_cons]
          have hpos : pos_to_lsp_pos (i + 1) (String.mk (c :: cs))
              = ⟨ts.length + 1, ((s0 :: t0 :: ts).getLastD []).length⟩ := by
            rw [pos_to_lsp_pos_eq, hsp_pre, hchar]
            simp
          rw [hpos]
          simp only [List.length_cons, Nat.add_sub_cancel] at hIH
          rcases hcase : (splitNl cs)[ts.length + 1]? with _ | line
          · have hout : (splitNl cs).length ≤ ts.length + 1 :=
              List.getElem?_eq_none_iff.mp hcase
            rw [lsp_pos_to_pos_oob (String.mk cs) (ts.length + 1)
              (((s0 :: t0 :: ts).getLastD []).length) hout] at hIH
            have hIHval : cs.length = i := Option.some.injEq _ i |>.mp hIH
            have hout2 : (splitNl (String.mk (c :: cs)).data).length ≤ ts.length + 1 := by
              show (splitNl (c :: cs)).length ≤ ts.length + 1
              rw [splitNl_cons_other c _ hc, hcs']
              rw [hcs'] at hout
              simpa using hout
            rw [lsp_pos_to_pos_oob (String.mk (c :: cs)) _ _ hout2]
            show some (cs.length + 1) = some (i + 1)
            exact congrArg some (by omega)
          · by_cases hle : ((s0 :: t0 :: ts).getLastD []).length ≤ line.length
            · rw [lsp_pos_to_pos_le (String.mk cs) (ts.length + 1)
                (((s0 :: t0 :: ts).getLastD []).length) line hcase hle] at hIH
              have hveq := Option.some.injEq _ i |>.mp hIH
              rw [show (String.mk cs).data = cs from rfl] at hveq
              rw [hcs'] at hveq
              have hlook : (splitNl (String.mk (c :: cs)).data)[ts.length + 1]?
                  = some line := by
                show (splitNl (c :: cs))[ts.length + 1]? = some line
                rw [splitNl_cons_other c _ hc, hcs']
                rw [hcs'] at hcase
                simp only [List.headD_cons, List.tail_cons, List.getElem?_cons_succ]
                simpa using hcase
              rw [lsp_pos_to_pos_le (String.mk (c :: cs)) (ts.length + 1)
                (((s0 :: t0 :: ts).getLastD []).length) line hlook hle]
              have hsp2 : (splitNl (String.mk (c :: cs)).data) = (c :: l0) :: lt := by
                show splitNl (c :: cs) = (c :: l0) :: lt
                rw [splitNl_cons_other c _ hc, hcs']
                simp
              rw [hsp2]
              simp only [List.take_succ_cons] at hveq ⊢
              rw [joinNl_cons_cons_length]
              rw [if_pos (by omega : 0 < ts.length + 1)] at hveq ⊢
              exact congrArg some (by omega)
            · rw [lsp_pos_to_pos_gt (String.mk cs) (ts.length + 1)
                (((s0 :: t0 :: ts).getLastD []).length) line hcase (by omega)] at hIH
              cases hIH

end PositionBridge


section PositionBridgeBack

theorem take_of_le_takeWhile {p : Char → Bool} (l : List Char) (n : Nat)
    (h : n ≤ (l.takeWhile p).length) : l.take n = (l.takeWhile p).take n := by
  obtain ⟨rest, hrest⟩ : ∃ rest, l = l.takeWhile p ++ rest :=
    ⟨l.dropWhile p, (List.takeWhile_append_dropWhile (p := p) (l := l)).symm⟩
  conv_lhs => rw [hrest]
  rw [List.take_append_of_le_length h]

theorem splitNl_head_eq_takeWhile (cs : List Char) {L : List Char}
    (h : (splitNl cs)[(0 : Nat)]? = some L) : L = cs.takeWhile (· ≠ nlChar) := by
  have hhead := splitNl_headD cs
  rcases hsp : splitNl cs with _ | ⟨l0, rest⟩
  · exact absurd hsp (splitNl_ne_nil _)
  · rw [hsp] at h hhead
    simp only [List.getElem?_cons_zero, Option.some.injEq] at h
    simp only [List.headD_cons] at hhead
    rw [h] at hhead
    exact hhead

/-- Round trip, direction 2: a valid (line, character) pair survives
`lsp_pos_to_pos` followed by `pos_to_lsp_pos`. -/
theorem pos_of_lsp_roundtrip (cs : List Char) : ∀ (line ch : Nat) (L : List Char),
    (splitNl cs)[line]? = some L → ch ≤ L.length →
    ∃ off, lsp_pos_to_pos ⟨line, ch⟩ (String.mk cs) = some off ∧
           pos_to_lsp_pos off (String.mk cs) = ⟨line, ch⟩ := by
  induction cs with
  | nil =>
    intro line ch L hL hch
    cases line with
    | zero =>
      have hLnil : L = [] := by
        have : (splitNl ([] : List Char))[(0 : Nat)]? = some [] := by decide
        rw [this] at hL
        exact (Option.some.injEq _ _ |>.mp hL).symm
      subst hLnil
      have hch0 : ch = 0 := Nat.le_zero.mp hch
      subst hch0
      exact ⟨0, by decide, by decide⟩
    | succ n =>
      have : (splitNl ([] : List Char))[n + 1]? = none := by
        show ([[]] : List (List Char))[n + 1]? = none
        simp
      rw [this] at hL
      cases hL
  | cons c cs ih =>
    intro line ch L hL hch
    cases line with
    | zero =>
      -- the offset is just the character index within the first line
      have hLW : L = (c :: cs).takeWhile (· ≠ nlChar) := splitNl_head_eq_takeWhile _ hL
      have hLgoal : (splitNl (String.mk (c :: cs)).data)[(0 : Nat)]? = some L := hL
      refine ⟨ch, ?_, ?_⟩
      · rw [lsp_pos_to_pos_le (String.mk (c :: cs)) 0 ch L hLgoal hch]
        simp [joinNl_nil]
      · rw [pos_to_lsp_pos_eq]
        have htk : (String.mk (c :: cs)).data.take ch = ((c :: cs).takeWhile (· ≠ nlChar)).take ch := by
          show (c :: cs).take ch = _
          apply take_of_le_takeWhile
          rw [← hLW]
          exact hch
        rw [htk]
        have hnonl : nlChar ∉ ((c :: cs).takeWhile (· ≠ nlChar)).take ch := by
          intro hmem
          have hmem2 := List.mem_of_mem_take hmem
          have := List.mem_takeWhile_imp hmem2
          simp at this
        rw [splitNl_no_nl _ hnonl]
        have hlen : (((c :: cs).takeWhile (· ≠ nlChar)).take ch).length = ch := by
          rw [List.length_take]
          rw [hLW] at hch
          omega
        have h1 : ([((c :: cs).takeWhile (· ≠ nlChar)).take ch] :
            List (List Char)).length - 1 = 0 := rfl
        have h2 : ([((c :: cs).takeWhile (· ≠ nlChar)).take ch] :
            List (List Char)).getLastD [] = ((c :: cs).takeWhile (· ≠ nlChar)).take ch := rfl
        rw [h1, h2, hlen]
    | succ n =>
      by_cases hc : c = nlChar
      · subst hc
        have hLtail : (splitNl cs)[n]? = some L := by
          have : splitNl (nlChar :: cs) = [] :: splitNl cs := splitNl_cons_nl cs
          rw [this] at hL
          simpa using hL
        obtain ⟨off', hlsp', hpos'⟩ := ih n ch L hLtail hch
        have hlsp'v : lsp_pos_to_pos ⟨n, ch⟩ (String.mk cs)
            = some ((joinNl ((splitNl cs).take n)).length + (if 0 < n then 1 else 0) + ch) := by
          exact lsp_pos_to_pos_le (String.mk cs) n ch L hLtail hch
        rw [hlsp'v] at hlsp'
        have hoffv : off' = (joinNl ((splitNl cs).take n)).length + (if 0 < n then 1 else 0) + ch :=
          (Option.some.injEq _ _ |>.mp hlsp').symm
        refine ⟨off' + 1, ?_, ?_⟩
        · have hLgoal : (splitNl (String.mk (nlChar :: cs)).data)[n + 1]? = some L := by
            show (splitNl (nlChar :: cs))[n + 1]? = some L
            rw [splitNl_cons_nl]
            simpa using hLtail
          rw [lsp_pos_to_pos_le (String.mk (nlChar :: cs)) (n + 1) ch L hLgoal hch]
          have htake : (splitNl (String.mk (nlChar :: cs)).data).take (n + 1)
              = [] :: (splitNl cs).take n := by
            show (splitNl (nlChar :: cs)).take (n + 1) = _
            rw [splitNl_cons_nl]
            simp
          rw [htake, joinNl_nil_cons_length]
          rcases Nat.eq_zero_or_pos n with h0 | hn
          · subst h0
            have hoff0 : off' = ch := by
              rw [hoffv]
              simp [joinNl_nil]
            rw [if_pos (by simp : (splitNl cs).take 0 = []),
                if_pos (by omega : 0 < 0 + 1), hoff0]
            exact congrArg some (by omega)
          · have hlt : n < (splitNl cs).length := (List.getElem?_eq_some_iff.mp hLtail).1
            have hM : (splitNl cs).take n ≠ [] := by
              intro hnil
              have hlen := congrArg List.length hnil
              rw [List.length_take] at hlen
              simp only [List.length_nil] at hlen
              omega
            rw [if_neg hM, if_pos (by omega : 0 < n + 1)]
            rw [hoffv, if_pos hn]
            exact congrArg some (by omega)
        · rw [pos_to_lsp_pos_eq] at hpos' ⊢
          have hpre : (String.mk (nlChar :: cs)).data.take (off' + 1)
              = nlChar :: cs.take off' := rfl
          rw [hpre, splitNl_cons_nl]
          rw [show (String.mk cs).data = cs from rfl] at hpos'
          have hcomp := Position.mk.injEq _ _ _ _ |>.mp hpos'
          have hS1 : 1 ≤ (splitNl (cs.take off')).length := splitNl_length_pos _
          have hline : (splitNl (cs.take off')).length - 1 = n := hcomp.1
          have hchar : ((splitNl (cs.take off')).getLastD []).length = ch := hcomp.2
          rw [getLastD_cons, hchar]
          have : ([] :: splitNl (cs.take off')).length - 1 = n + 1 := by
            simp only [List.length_cons]
            omega
          rw [this]
      · rcases hcs' : splitNl cs with _ | ⟨h0, t0⟩
        · exact absurd hcs' (splitNl_ne_nil _)
        have hsp : splitNl (c :: cs) = (c :: h0) :: t0 := by
          rw [splitNl_cons_other c _ hc, hcs']
          simp
        have hLtail : (splitNl cs)[n + 1]? = some L := by
          rw [hsp] at hL
          rw [hcs']
          simpa using hL
        obtain ⟨off', hlsp', hpos'⟩ := ih (n + 1) ch L hLtail hch
        have hlsp'v : lsp_pos_to_pos ⟨n + 1, ch⟩ (String.mk cs)
            = some ((joinNl ((splitNl cs).take (n + 1))).length + 1 + ch) := by
          rw [lsp_pos_to_pos_le (String.mk cs) (n + 1) ch L hLtail hch]
          rw [if_pos (by omega : 0 < n + 1)]
        rw [hlsp'v] at hlsp'
        have hoffv : off' = (joinNl ((splitNl cs).take (n + 1))).length + 1 + ch :=
          (Option.some.injEq _ _ |>.mp hlsp').symm
        refine ⟨off' + 1, ?_, ?_⟩
        · have hLgoal : (splitNl (String.mk (c :: cs)).data)[n + 1]? = some L := by
            show (splitNl (c :: cs))[n + 1]? = some L
            rw [hsp]
            rw [hcs'] at hLtail
            simp only [List.getElem?_cons_succ] at hLtail ⊢
            exact hLtail
          rw [lsp_pos_to_pos_le (String.mk (c :: cs)) (n + 1) ch L hLgoal hch]
          rw [if_pos (by omega : 0 < n + 1)]
          have htake : (splitNl (String.mk (c :: cs)).data).take (n + 1)
              = (c :: h0) :: t0.take n := by
            show (splitNl (c :: cs)).take (n + 1) = _
            rw [hsp]
            simp
          rw [htake, joinNl_cons_cons_length]
          rw [hoffv, hcs']
          simp only [List.take_succ_cons]
          exact congrArg some (by omega)
        · rw [pos_to_lsp_pos_eq] at hpos' ⊢
          have hpre : (String.mk (c :: cs)).data.take (off' + 1) = c :: cs.take off' := rfl
          rw [hpre, splitNl_cons_other c _ hc]
          rw [show (String.mk cs).data = cs from rfl] at hpos'
          have hcomp := Position.mk.injEq _ _ _ _ |>.mp hpos'
          have hline : (splitNl (cs.take off')).length - 1 = n + 1 := hcomp.1
          have hchar : ((splitNl (cs.take off')).getLastD []).length = ch := hcomp.2
          rcases hX : splitNl (cs.take off') with _ | ⟨x0, xrest⟩
          · exact absurd hX (splitNl_ne_nil _)
          have hxrest : xrest ≠ [] := by
            intro hnil
            rw [hX, hnil] at hline
            simp at hline
          rw [hX] at hline hchar
          have hxlen : xrest.length = n + 1 := by simpa using hline
          simp only [List.headD_cons, List.tail_cons]
          have hget : (((c :: x0) :: xrest) : List (List Char)).getLastD []
              = ((x0 :: xrest) : List (List Char)).getLastD [] := by
            rw [getLastD_cons, getLastD_cons]
            exact getLastD_of_ne_nil hxrest (c :: x0) x0
          rw [hget, hchar]
          simp only [List.length_cons, Nat.add_sub_cancel]
          rw [hxlen]

end PositionBridgeBack

/-! ## Message classification of the validators' diagnostics -/

section Messages

theorem to_diagnostic_message (t : Token) (m : String) (s : Option Severity) :
    (t.to_diagnostic m s).message = m := rfl

theorem mkLineDiag_message (l : List Token) (m : String) (s : Option Severity) :
    (mkLineDiag l m s).message = m := rfl

theorem tokens_to_diagnostic_message {l : List Token} {m : String} {s : Option Severity}
    {d : Diagnostic} (h : tokens_to_diagnostic l m s = some d) : d.message = m := by
  unfold tokens_to_diagnostic at h
  cases hh : l.head? with
  | none => rw [hh] at h; cases h
  | some f =>
    rw [hh] at h
    cases hl : l.getLast? with
    | none => rw [hl] at h; cases h
    | some g =>
      rw [hl] at h
      simp only [Option.bind_eq_bind, Option.some_bind, Option.pure_def,
        Option.some.injEq] at h
      rw [← h]

/-- Messages emitted by `validate_class`. -/
def classGoMsgs : List String :=
  ["Space expected.", "Visibility modifier defined here.", "Visibility modifier already defined.",
   "Class cannot be defined as static.", "Final modifier defined here.",
   "Final modifier already defined.", "Synthetic modifier defined here.",
   "Synthetic modifier already defined.", "New line expected."]

/-- Messages emitted with fixed text by `validate_simple`'s index loop. -/
def simpleGoMsgs : List String :=
  ["Space expected.", "Class expected.", "String expected.", "New line expected."]

/-- Messages emitted by the method validator (declaration-line scan, constructor
uniqueness, block placement, and return-token checks). -/
def methodMsgs : List String :=
  ["Space expected.", "Visibility modifier declared here.",
   "Visibility modifier already declared.", "Constuctor modifier declared here.",
   "Constuctor modifier already declared.", "Final modifier declared here.",
   "Final modifier already declared.", "Static modifier declared here.",
   "Static modifier already declared.",
   "Static constuctor must be named \x27<clinit>\x27.",
   "Non-static constuctor must be named \x27<init>\x27.",
   "\x27<init>\x27 is reserved for nonstatic constructors.",
   "\x27<clinit>\x27 is reserved for static constructors.",
   "Method modifier expected.", "\x27)\x27 expected.", "New line expected.",
   "Return type expected.\n\x27V\x27 for void.",
   "Static constuctor defined here.", "Static constuctor already defined.",
   "Constuctor defined here.", "Constuctor already defined.",
   "Method block starts here.", "\x27.method\x27 directive cannot be inside a method block.",
   "Method block ends here.",
   "\x27.end method\x27 directive must be at the end of a method block.",
   "No return instruction found in method block.",
   "Unable to get return type from method declaration.", "Return type declared here.",
   "\x27return-void\x27 expected.", "\x27return-object\x27 expected."]

theorem validateClassStep_msgs (vs f sn : Option Token) (stage : Stage) (idx : Nat)
    (token : Token) :
    ∀ d ∈ (validateClassStep vs f sn stage idx token).1, d.message ∈ classGoMsgs := by
  unfold validateClassStep
  repeat' split
  all_goals intro d hd
  all_goals simp only [List.mem_cons, List.not_mem_nil, or_false] at hd
  all_goals first
    | (rcases hd with rfl | rfl <;> simp [Token.to_diagnostic, classGoMsgs])
    | (subst hd; simp [Token.to_diagnostic, classGoMsgs])

theorem validateClassGo_msgs (line : List Token) :
    ∀ (vs f sn : Option Token) (stage : Stage) (idx : Nat),
    ∀ d ∈ validateClassGo vs f sn stage idx line, d.message ∈ classGoMsgs := by
  induction line with
  | nil => intro vs f sn stage idx d hd; cases hd
  | cons t rest ih =>
    intro vs f sn stage idx d hd
    have hstep : validateClassGo vs f sn stage idx (t :: rest)
        = (validateClassStep vs f sn stage idx t).1
          ++ validateClassGo (validateClassStep vs f sn stage idx t).2.1
            (validateClassStep vs f sn stage idx t).2.2.1
            (validateClassStep vs f sn stage idx t).2.2.2.1
            (validateClassStep vs f sn stage idx t).2.2.2.2 (idx + 1) rest := rfl
    rw [hstep] at hd
    rcases List.mem_append.mp hd with hmem | hmem
    · exact validateClassStep_msgs vs f sn stage idx t d hmem
    · exact ih _ _ _ _ _ d hmem

theorem validate_class_msgs (line : List Token) :
    ∀ d ∈ validate_class line, d.message ∈ classGoMsgs :=
  validateClassGo_msgs line none none none Stage.Modifier 0

theorem validateSimpleItem_msgs (first token : Token) (idx : Nat) :
    ∀ d ∈ validateSimpleItem first token idx, d.message ∈ simpleGoMsgs := by
  unfold validateSimpleItem
  repeat' split
  all_goals intro d hd
  all_goals simp only [List.mem_cons, List.not_mem_nil, or_false] at hd
  all_goals subst hd
  all_goals simp [Token.to_diagnostic, simpleGoMsgs]

theorem validateSimpleGo_msgs (line : List Token) : ∀ (first : Token) (idx : Nat),
    ∀ d ∈ validateSimpleGo first idx line, d.message ∈ simpleGoMsgs := by
  induction line with
  | nil => intro first idx d hd; cases hd
  | cons t rest ih =>
    intro first idx d hd
    rcases List.mem_append.mp hd with hmem | hmem
    · exact validateSimpleItem_msgs first t idx d hmem
    · exact ih first (idx + 1) d hmem

/-- The apostrophe character. -/
def aposChar : Char := Char.ofNat 39

/-- Every diagnostic of `validate_simple` has a fixed loop message, or (for the
usage message) begins with an apostrophe. -/
theorem validate_simple_msgs {line : List Token} {ds : List Diagnostic}
    (h : validate_simple line = some ds) :
    ∀ d ∈ ds, d.message ∈ simpleGoMsgs ∨ d.message.data.head? = some aposChar := by
  unfold validate_simple at h
  split at h
  · cases h
  · rename_i first hh
    split at h
    · split at h
      · cases h
      · rename_i dg hd
        injection h with h
        subst h
        intro d hmem
        simp only [List.mem_cons, List.not_mem_nil, or_false] at hmem
        subst hmem
        right
        rw [tokens_to_diagnostic_message hd]
        rfl
    · injection h with h
      subst h
      intro d hmem
      exact Or.inl (validateSimpleGo_msgs line first 0 d hmem)

end Messages

theorem methodDeclStep_msgs (st : MethodDeclLineState) (token : Token) :
    ∀ d ∈ (methodDeclStep st token).1, d.message ∈ methodMsgs := by
  unfold methodDeclStep
  repeat' split
  all_goals intro d hd
  all_goals simp only [List.mem_cons, List.not_mem_nil, or_false] at hd
  all_goals first
    | (rcases hd with rfl | rfl | rfl <;> simp [Token.to_diagnostic, methodMsgs])
    | (rcases hd with rfl | rfl <;> simp [Token.to_diagnostic, methodMsgs])
    | (subst hd; simp [Token.to_diagnostic, methodMsgs])

theorem methodDeclLineGo_msgs (line : List Token) :
    ∀ (st : MethodDeclLineState) (idx : Nat),
    ∀ d ∈ (methodDeclLineGo st idx line).1, d.message ∈ methodMsgs := by
  induction line with
  | nil => intro st idx d hd; cases hd
  | cons token rest ih =>
    intro st idx d hd
    by_cases h0 : idx = 0
    · subst h0
      have heq : methodDeclLineGo st 0 (token :: rest) = methodDeclLineGo st 1 rest := rfl
      rw [heq] at hd
      exact ih st 1 d hd
    · have heq : (methodDeclLineGo st idx (token :: rest)).1
          = (methodDeclStep st token).1
            ++ (methodDeclLineGo
                  { (methodDeclStep st token).2 with
                    was_space := token.token_type == TokenType.Space }
                  (idx + 1) rest).1 := by
        simp only [methodDeclLineGo, h0, if_false]
      rw [heq] at hd
      rcases List.mem_append.mp hd with hmem | hmem
      · exact methodDeclStep_msgs st token d hmem
      · exact ih _ _ d hmem

theorem declLineFinish_msgs {line : List Token} {validator : MethodValidator}
    {diags : List Diagnostic} {st : MethodDeclLineState} {ds : List Diagnostic}
    {rt : ReturnType} {v' : MethodValidator}
    (hgo : ∀ d ∈ diags, d.message ∈ methodMsgs)
    (h : declLineFinish line validator diags st = some (ds, rt, v')) :
    ∀ d ∈ ds, d.message ∈ methodMsgs := by
  unfold declLineFinish at h
  repeat' split at h
  all_goals first
    | exact Option.noConfusion h
    | (simp only [Option.some.injEq, Prod.mk.injEq] at h
       obtain ⟨hds, hrt, hv⟩ := h
       subst hds
       exact hgo)
    | (rename_i hd1 hd2
       simp only [Option.some.injEq, Prod.mk.injEq] at h
       obtain ⟨hds, hrt, hv⟩ := h
       subst hds
       intro d hd
       rcases List.mem_append.mp hd with hmem | hmem
       · exact hgo d hmem
       · simp only [List.mem_cons, List.not_mem_nil, or_false] at hmem
         rcases hmem with rfl | rfl
         · rw [tokens_to_diagnostic_message hd1]; simp [methodMsgs]
         · rw [tokens_to_diagnostic_message hd2]; simp [methodMsgs])

theorem validate_method_declaration_line_msgs {line : List Token}
    {validator : MethodValidator} {ds : List Diagnostic} {rt : ReturnType}
    {v' : MethodValidator}
    (h : validate_method_declaration_line line validator = some (ds, rt, v')) :
    ∀ d ∈ ds, d.message ∈ methodMsgs := by
  unfold validate_method_declaration_line at h
  exact declLineFinish_msgs
    (methodDeclLineGo_msgs line
      ⟨none, none, none, none, MethodDeclarationStage.Modifiers, false, false, ReturnType.None⟩
      0) h

theorem validate_method_declaration_msgs {line : List Token} {validator v' : MethodValidator}
    {ds : List Diagnostic}
    (h : validate_method_declaration line validator = some (v', ds)) :
    ∀ d ∈ ds, d.message ∈ methodMsgs := by
  unfold validate_method_declaration at h
  repeat' split at h
  all_goals first
    | exact Option.noConfusion h
    | (simp only [Option.some.injEq, Prod.mk.injEq] at h
       obtain ⟨hv, hds⟩ := h
       subst hds
       intro d hd
       exact absurd hd (List.not_mem_nil d))
    | (rename_i hd1 hd2
       simp only [Option.some.injEq, Prod.mk.injEq] at h
       obtain ⟨hv, hds⟩ := h
       subst hds
       intro d hd
       simp only [List.mem_cons, List.not_mem_nil, or_false] at hd
       rcases hd with rfl | rfl
       · rw [tokens_to_diagnostic_message hd1]; simp [methodMsgs]
       · rw [tokens_to_diagnostic_message hd2]; simp [methodMsgs])
    | (rename_i hd0
       simp only [Option.some.injEq, Prod.mk.injEq] at h
       obtain ⟨hv, hds⟩ := h
       subst hds
       intro d hd
       simp only [List.mem_cons, List.not_mem_nil, or_false] at hd
       subst hd
       rw [tokens_to_diagnostic_message hd0]
       simp [methodMsgs])
    | (simp only [Option.some.injEq, Prod.mk.injEq] at h
       obtain ⟨hv, hds⟩ := h
       subst hds
       exact validate_method_declaration_line_msgs (by assumption))

theorem validate_method_token_msgs {token : Token} {validator v' : MethodValidator}
    {ds : List Diagnostic} (h : validate_method_token token validator = some (v', ds)) :
    ∀ d ∈ ds, d.message ∈ methodMsgs := by
  unfold validate_method_token at h
  repeat' split at h
  all_goals first
    | exact Option.noConfusion h
    | (simp only [Option.some.injEq, Prod.mk.injEq] at h
       obtain ⟨hv, hds⟩ := h
       subst hds
       intro d hd
       exact absurd hd (List.not_mem_nil d))
    | (simp only [Option.some.injEq, Prod.mk.injEq] at h
       obtain ⟨hv, hds⟩ := h
       subst hds
       intro d hd
       simp only [List.mem_cons, List.not_mem_nil, or_false] at hd
       first
         | (rcases hd with rfl | rfl <;> simp [Token.to_diagnostic, methodMsgs])
         | (subst hd; simp [Token.to_diagnostic, methodMsgs]))

theorem method_validate_token_msgs {v : MethodValidator} {token : Token}
    {v' : MethodValidator} {ds : List Diagnostic}
    (h : method_validate_token v token = some (v', ds)) :
    ∀ d ∈ ds, d.message ∈ methodMsgs := by
  unfold method_validate_token at h
  split at h
  · exact validate_method_token_msgs h
  · simp only [Option.some.injEq, Prod.mk.injEq] at h
    obtain ⟨hv, hds⟩ := h
    subst hds
    intro d hd
    exact absurd hd (List.not_mem_nil d)

theorem method_validate_line_msgs {v : MethodValidator} {line : List Token}
    {v' : MethodValidator} {ds : List Diagnostic}
    (h : method_validate_line v line = some (v', ds)) :
    ∀ d ∈ ds, d.message ∈ methodMsgs := by
  unfold method_validate_line at h
  split at h
  · exact Option.noConfusion h
  · split at h
    · exact validate_method_declaration_msgs h
    · simp only [Option.some.injEq, Prod.mk.injEq] at h
      obtain ⟨hv, hds⟩ := h
      subst hds
      intro d hd
      exact absurd hd (List.not_mem_nil d)

/-! ## Per-line header characterization and the loop simulation -/

/-- The line's head token is a `.class` directive (the dispatch test of
`HeaderValidator::validate_line`). -/
def isClassLine (line : List Token) : Bool :=
  match line.head? with
  | some t => t.token_type == TokenType.Directive && t.content == ".class"
  | none => false

/-- The line's head token is a `.super` directive. -/
def isSuperLine (line : List Token) : Bool :=
  match line.head? with
  | some t => t.token_type == TokenType.Directive && t.content == ".super"
  | none => false

/-- Effect of one validated line on the header's `top_line` slot. -/
def topFoldF (t : Option (List Token)) (line : List Token) : Option (List Token) :=
  if t = none then some line else t

/-- Effect of one validated line on the header's `class_declaration` slot. -/
def classFoldF (c : Option (List Token)) (line : List Token) : Option (List Token) :=
  if isClassLine line = true ∧ c = none then some line else c

/-- Effect of one validated line on the header's `super_declaration` slot. -/
def superFoldF (c : Option (List Token)) (line : List Token) : Option (List Token) :=
  if isSuperLine line = true ∧ c = none then some line else c

/-- The (stored declaration, offending line) pairs of the duplicate-`.class`
events along a line list, starting from stored state `c`. -/
def dupClassPairs (c : Option (List Token)) :
    List (List Token) → List (List Token × List Token)
  | [] => []
  | line :: rest =>
    if isClassLine line then
      match c with
      | some stored => (stored, line) :: dupClassPairs (some stored) rest
      | none => dupClassPairs (some line) rest
    else dupClassPairs c rest

/-- All fixed message texts the token/line callbacks can emit. -/
def loopMsgs : List String :=
  classGoMsgs ++ simpleGoMsgs ++ methodMsgs
    ++ ["Class declared here.", "Class already declared.", "Super declared here.",
        "Super already declared.", "Source declared here.", "Source already declared."]

theorem tokens_to_diagnostic_some {l : List Token} {m : String} {s : Option Severity}
    {d : Diagnostic} (h : tokens_to_diagnostic l m s = some d) :
    d = mkLineDiag l m s ∧ l ≠ [] := by
  cases l with
  | nil => exact Option.noConfusion h
  | cons t rest =>
    rw [tokens_to_diagnostic_eq m s (List.cons_ne_nil t rest)] at h
    injection h with h
    exact ⟨h.symm, List.cons_ne_nil t rest⟩

theorem filter_msg_nil {l : List Diagnostic} {msgs : List String} {m : String}
    (hall : ∀ d ∈ l, d.message ∈ msgs) (hm : m ∉ msgs) :
    l.filter (fun d => d.message == m) = [] := by
  rw [List.filter_eq_nil]
  intro d hd
  simp only [beq_iff_eq]
  intro hdm
  exact hm (hdm ▸ hall d hd)

theorem filter_msg_nil_apos {l : List Diagnostic} {msgs : List String} {m : String}
    (hall : ∀ d ∈ l, d.message ∈ msgs ∨ d.message.data.head? = some aposChar)
    (hm : m ∉ msgs) (hm2 : ¬m.data.head? = some aposChar) :
    l.filter (fun d => d.message == m) = [] := by
  rw [List.filter_eq_nil]
  intro d hd
  simp only [beq_iff_eq]
  intro hdm
  subst hdm
  rcases hall d hd with hmem | hapos
  · exact hm hmem
  · exact hm2 hapos

/-- `HeaderValidator::validate_token` never changes the four stored line
slots (it only refreshes `blank_line` and `last_token`). -/
theorem header_validate_token_slots (v : HeaderValidator) (token : Token) :
    (header_validate_token v token).top_line = v.top_line
      ∧ (header_validate_token v token).class_declaration = v.class_declaration
      ∧ (header_validate_token v token).super_declaration = v.super_declaration
      ∧ (header_validate_token v token).source_declaration = v.source_declaration := by
  unfold header_validate_token
  repeat' split
  all_goals exact ⟨rfl, rfl, rfl, rfl⟩

theorem isClassLine_head {line : List Token} {first : Token} (h : line.head? = some first) :
    isClassLine line = (first.token_type == TokenType.Directive && first.content == ".class") := by
  unfold isClassLine
  rw [h]

theorem isSuperLine_head {line : List Token} {first : Token} (h : line.head? = some first) :
    isSuperLine line = (first.token_type == TokenType.Directive && first.content == ".super") := by
  unfold isSuperLine
  rw [h]

theorem classGoMsgs_sub : ∀ m ∈ classGoMsgs, m ∈ loopMsgs := by
  intro m hm
  unfold loopMsgs
  exact List.mem_append_left _ (List.mem_append_left _ (List.mem_append_left _ hm))

theorem simpleGoMsgs_sub : ∀ m ∈ simpleGoMsgs, m ∈ loopMsgs := by
  intro m hm
  unfold loopMsgs
  exact List.mem_append_left _ (List.mem_append_left _ (List.mem_append_right _ hm))

theorem methodMsgs_sub : ∀ m ∈ methodMsgs, m ∈ loopMsgs := by
  intro m hm
  unfold loopMsgs
  exact List.mem_append_left _ (List.mem_append_right _ hm)

theorem headerLineCore_spec {v : HeaderValidator} {first : Token} {line : List Token}
    {v1 : HeaderValidator} {ds : List Diagnostic}
    (hfirst : line.head? = some first)
    (h : headerLineCore v first line = some (v1, ds)) :
    v1.top_line = v.top_line ∧
    v1.class_declaration = classFoldF v.class_declaration line ∧
    v1.super_declaration = superFoldF v.super_declaration line ∧
    ds.filter (fun d => d.message == "Class declared here.")
      = (dupClassPairs v.class_declaration [line]).map
          (fun p => mkLineDiag p.1 "Class declared here." (some Severity.Hint)) ∧
    ds.filter (fun d => d.message == "Class already declared.")
      = (dupClassPairs v.class_declaration [line]).map
          (fun p => mkLineDiag p.2 "Class already declared." (some Severity.Error)) ∧
    (∀ d ∈ ds, d.message ∈ loopMsgs ∨ d.message.data.head? = some aposChar) := by
  have hcl := isClassLine_head hfirst
  have hsl := isSuperLine_head hfirst
  unfold headerLineCore at h
  by_cases hdir : first.token_type = TokenType.Directive
  · rw [if_pos hdir] at h
    by_cases hclass : first.content = ".class"
    · rw [if_pos hclass] at h
      have hcl' : isClassLine line = true := by
        rw [hcl]
        simp [hdir, hclass]
      have hsl' : isSuperLine line = false := by
        rw [hsl]
        simp [hclass]
      split at h
      · rename_i stored hcd
        split at h
        · rename_i d1 d2 hd1 hd2
          simp only [Option.some.injEq, Prod.mk.injEq] at h
          obtain ⟨hv1, hds⟩ := h
          subst hds
          subst hv1
          obtain ⟨hd1e, hstored_ne⟩ := tokens_to_diagnostic_some hd1
          obtain ⟨hd2e, hline_ne⟩ := tokens_to_diagnostic_some hd2
          subst hd1e
          subst hd2e
          refine ⟨rfl, ?_, ?_, ?_, ?_, ?_⟩
          · simp [classFoldF, hcd]
          · simp [superFoldF, hsl']
          · simp [dupClassPairs, hcl', hcd, mkLineDiag, List.filter]
          · simp [dupClassPairs, hcl', hcd, mkLineDiag, List.filter]
          · intro d hd
            simp only [List.mem_cons, List.not_mem_nil, or_false] at hd
            rcases hd with rfl | rfl
            · exact Or.inl (by simp [loopMsgs, mkLineDiag])
            · exact Or.inl (by simp [loopMsgs, mkLineDiag])
        · exact Option.noConfusion h
      · rename_i hcd
        simp only [Option.some.injEq, Prod.mk.injEq] at h
        obtain ⟨hv1, hds⟩ := h
        subst hds
        subst hv1
        refine ⟨rfl, ?_, ?_, ?_, ?_, ?_⟩
        · simp [classFoldF, hcl', hcd]
        · simp [superFoldF, hsl']
        · rw [filter_msg_nil (validate_class_msgs line) (by decide)]
          simp [dupClassPairs, hcl', hcd]
        · rw [filter_msg_nil (validate_class_msgs line) (by decide)]
          simp [dupClassPairs, hcl', hcd]
        · intro d hd
          exact Or.inl (classGoMsgs_sub _ (validate_class_msgs line d hd))
    · rw [if_neg hclass] at h
      have hcl' : isClassLine line = false := by
        rw [hcl]
        simp [hclass]
      have hdup : dupClassPairs v.class_declaration [line] = [] := by
        cases v.class_declaration <;> simp [dupClassPairs, hcl']
      have hcfold : classFoldF v.class_declaration line = v.class_declaration := by
        simp [classFoldF, hcl']
      by_cases hsuper : first.content = ".super"
      · rw [if_pos hsuper] at h
        have hsl' : isSuperLine line = true := by
          rw [hsl]
          simp [hdir, hsuper]
        split at h
        · rename_i stored hsd
          split at h
          · rename_i d1 d2 hd1 hd2
            simp only [Option.some.injEq, Prod.mk.injEq] at h
            obtain ⟨hv1, hds⟩ := h
            subst hds
            subst hv1
            obtain ⟨hd1e, hstored_ne⟩ := tokens_to_diagnostic_some hd1
            obtain ⟨hd2e, hline_ne⟩ := tokens_to_diagnostic_some hd2
            subst hd1e
            subst hd2e
            refine ⟨rfl, hcfold.symm, ?_, ?_, ?_, ?_⟩
            · simp [superFoldF, hsd]
            · rw [hdup]
              simp [mkLineDiag, List.filter]
            · rw [hdup]
              simp [mkLineDiag, List.filter]
            · intro d hd
              simp only [List.mem_cons, List.not_mem_nil, or_false] at hd
              rcases hd with rfl | rfl
              · exact Or.inl (by simp [loopMsgs, mkLineDiag])
              · exact Or.inl (by simp [loopMsgs, mkLineDiag])
          · exact Option.noConfusion h
        · rename_i hsd
          split at h
          · exact Option.noConfusion h
          · rename_i ds0 hsimple
            simp only [Option.some.injEq, Prod.mk.injEq] at h
            obtain ⟨hv1, hds⟩ := h
            subst hds
            subst hv1
            refine ⟨rfl, hcfold.symm, ?_, ?_, ?_, ?_⟩
            · simp [superFoldF, hsl', hsd]
            · rw [filter_msg_nil_apos (validate_simple_msgs hsimple) (by decide) (by decide)]
              rw [hdup]
              rfl
            · rw [filter_msg_nil_apos (validate_simple_msgs hsimple) (by decide) (by decide)]
              rw [hdup]
              rfl
            · intro d hd
              rcases validate_simple_msgs hsimple d hd with hmem | hapos
              · exact Or.inl (simpleGoMsgs_sub _ hmem)
              · exact Or.inr hapos
      · rw [if_neg hsuper] at h
        have hsl' : isSuperLine line = false := by
          rw [hsl]
          simp [hsuper]
        have hsfold : superFoldF v.super_declaration line = v.super_declaration := by
          simp [superFoldF, hsl']
        by_cases himpl : first.content = ".implements"
        · rw [if_pos himpl] at h
          split at h
          · exact Option.noConfusion h
          · rename_i ds0 hsimple
            simp only [Option.some.injEq, Prod.mk.injEq] at h
            obtain ⟨hv1, hds⟩ := h
            subst hds
            subst hv1
            refine ⟨rfl, hcfold.symm, hsfold.symm, ?_, ?_, ?_⟩
            · rw [filter_msg_nil_apos (validate_simple_msgs hsimple) (by decide) (by decide)]
              rw [hdup]
              rfl
            · rw [filter_msg_nil_apos (validate_simple_msgs hsimple) (by decide) (by decide)]
              rw [hdup]
              rfl
            · intro d hd
              rcases validate_simple_msgs hsimple d hd with hmem | hapos
              · exact Or.inl (simpleGoMsgs_sub _ hmem)
              · exact Or.inr hapos
        · rw [if_neg himpl] at h
          by_cases hsource : first.content = ".source"
          · rw [if_pos hsource] at h
            split at h
            · rename_i stored hsrc
              split at h
              · rename_i d1 d2 hd1 hd2
                simp only [Option.some.injEq, Prod.mk.injEq] at h
                obtain ⟨hv1, hds⟩ := h
                subst hds
                subst hv1
                obtain ⟨hd1e, hstored_ne⟩ := tokens_to_diagnostic_some hd1
                obtain ⟨hd2e, hline_ne⟩ := tokens_to_diagnostic_some hd2
                subst hd1e
                subst hd2e
                refine ⟨rfl, hcfold.symm, hsfold.symm, ?_, ?_, ?_⟩
                · rw [hdup]
                  simp [mkLineDiag, List.filter]
                · rw [hdup]
                  simp [mkLineDiag, List.filter]
                · intro d hd
                  simp only [List.mem_cons, List.not_mem_nil, or_false] at hd
                  rcases hd with rfl | rfl
                  · exact Or.inl (by simp [loopMsgs, mkLineDiag])
                  · exact Or.inl (by simp [loopMsgs, mkLineDiag])
              · exact Option.noConfusion h
            · rename_i hsrc
              split at h
              · exact Option.noConfusion h
              · rename_i ds0 hsimple
                simp only [Option.some.injEq, Prod.mk.injEq] at h
                obtain ⟨hv1, hds⟩ := h
                subst hds
                subst hv1
                refine ⟨rfl, hcfold.symm, hsfold.symm, ?_, ?_, ?_⟩
                · rw [filter_msg_nil_apos (validate_simple_msgs hsimple) (by decide) (by decide)]
                  rw [hdup]
                  rfl
                · rw [filter_msg_nil_apos (validate_simple_msgs hsimple) (by decide) (by decide)]
                  rw [hdup]
                  rfl
                · intro d hd
                  rcases validate_simple_msgs hsimple d hd with hmem | hapos
                  · exact Or.inl (simpleGoMsgs_sub _ hmem)
                  · exact Or.inr hapos
          · rw [if_neg hsource] at h
            simp only [Option.some.injEq, Prod.mk.injEq] at h
            obtain ⟨hv1, hds⟩ := h
            subst hds
            subst hv1
            refine ⟨rfl, hcfold.symm, hsfold.symm, ?_, ?_, ?_⟩
            · rw [hdup]
              rfl
            · rw [hdup]
              rfl
            · intro d hd
              exact absurd hd (List.not_mem_nil d)
  · rw [if_neg hdir] at h
    have hcl' : isClassLine line = false := by
      rw [hcl]
      simp [hdir]
    have hsl' : isSuperLine line = false := by
      rw [hsl]
      simp [hdir]
    simp only [Option.some.injEq, Prod.mk.injEq] at h
    obtain ⟨hv1, hds⟩ := h
    subst hds
    subst hv1
    refine ⟨rfl, ?_, ?_, ?_, ?_, ?_⟩
    · simp [classFoldF, hcl']
    · simp [superFoldF, hsl']
    · cases v.class_declaration <;> simp [dupClassPairs, hcl']
    · cases v.class_declaration <;> simp [dupClassPairs, hcl']
    · intro d hd
      exact absurd hd (List.not_mem_nil d)

theorem header_validate_line_some_spec {v : HeaderValidator} {line : List Token}
    {v' : HeaderValidator} {ds : List Diagnostic}
    (h : header_validate_line v line = some (v', ds)) :
    v'.top_line = topFoldF v.top_line line ∧
    v'.class_declaration = classFoldF v.class_declaration line ∧
    v'.super_declaration = superFoldF v.super_declaration line ∧
    ds.filter (fun d => d.message == "Class declared here.")
      = (dupClassPairs v.class_declaration [line]).map
          (fun p => mkLineDiag p.1 "Class declared here." (some Severity.Hint)) ∧
    ds.filter (fun d => d.message == "Class already declared.")
      = (dupClassPairs v.class_declaration [line]).map
          (fun p => mkLineDiag p.2 "Class already declared." (some Severity.Error)) ∧
    (∀ d ∈ ds, d.message ∈ loopMsgs ∨ d.message.data.head? = some aposChar) := by
  unfold header_validate_line at h
  split at h
  · exact Option.noConfusion h
  · rename_i first hfirst
    split at h
    · exact Option.noConfusion h
    · rename_i v1 ds1 hcore
      simp only [Option.some.injEq, Prod.mk.injEq] at h
      obtain ⟨hv', hds⟩ := h
      subst hds
      obtain ⟨htop, hclass, hsuper, hfCH, hfCA, hmsgs⟩ := headerLineCore_spec hfirst hcore
      subst hv'
      refine ⟨?_, ?_, ?_, hfCH, hfCA, hmsgs⟩
      · by_cases ht : v1.top_line = none
        · rw [if_pos ht]
          rw [htop] at ht
          simp [topFoldF, ht]
        · rw [if_neg ht]
          rw [htop] at ht
          simp [topFoldF, ht, htop]
      · by_cases ht : v1.top_line = none
        · rw [if_pos ht]
          simpa using hclass
        · rw [if_neg ht]
          exact hclass
      · by_cases ht : v1.top_line = none
        · rw [if_pos ht]
          simpa using hsuper
        · rw [if_neg ht]
          exact hsuper

theorem dirValidateToken_spec {v : DirectivesValidator} {token : Token}
    {v' : DirectivesValidator} {tds : List Diagnostic}
    (h : dirValidateToken v token = some (v', tds)) :
    v'.header_validator.top_line = v.header_validator.top_line ∧
    v'.header_validator.class_declaration = v.header_validator.class_declaration ∧
    v'.header_validator.super_declaration = v.header_validator.super_declaration ∧
    (∀ d ∈ tds, d.message ∈ methodMsgs) := by
  unfold dirValidateToken at h
  split at h
  · exact Option.noConfusion h
  · rename_i m1 md hm
    simp only [Option.some.injEq, Prod.mk.injEq] at h
    obtain ⟨hv, htds⟩ := h
    subst htds
    subst hv
    obtain ⟨h1, h2, h3, _⟩ := header_validate_token_slots v.header_validator token
    exact ⟨h1, h2, h3, method_validate_token_msgs hm⟩

theorem dirValidateLine_spec {v : DirectivesValidator} {line : List Token}
    {v' : DirectivesValidator} {ds : List Diagnostic}
    (h : dirValidateLine v line = some (v', ds)) :
    v'.header_validator.top_line = topFoldF v.header_validator.top_line line ∧
    v'.header_validator.class_declaration
      = classFoldF v.header_validator.class_declaration line ∧
    v'.header_validator.super_declaration
      = superFoldF v.header_validator.super_declaration line ∧
    ds.filter (fun d => d.message == "Class declared here.")
      = (dupClassPairs v.header_validator.class_declaration [line]).map
          (fun p => mkLineDiag p.1 "Class declared here." (some Severity.Hint)) ∧
    ds.filter (fun d => d.message == "Class already declared.")
      = (dupClassPairs v.header_validator.class_declaration [line]).map
          (fun p => mkLineDiag p.2 "Class already declared." (some Severity.Error)) ∧
    (∀ d ∈ ds, d.message ∈ loopMsgs ∨ d.message.data.head? = some aposChar) := by
  unfold dirValidateLine at h
  split at h
  · exact Option.noConfusion h
  · rename_i h1 hd hh
    split at h
    · exact Option.noConfusion h
    · rename_i m1 md hm
      simp only [Option.some.injEq, Prod.mk.injEq] at h
      obtain ⟨hv, hds⟩ := h
      subst hds
      subst hv
      obtain ⟨htop, hclass, hsuper, hfCH, hfCA, hmsgs⟩ := header_validate_line_some_spec hh
      have hmdmsgs := method_validate_line_msgs hm
      have hmdCH : md.filter (fun d => d.message == "Class declared here.") = [] :=
        filter_msg_nil hmdmsgs (by decide)
      have hmdCA : md.filter (fun d => d.message == "Class already declared.") = [] :=
        filter_msg_nil hmdmsgs (by decide)
      refine ⟨htop, hclass, hsuper, ?_, ?_, ?_⟩
      · rw [List.filter_append, hfCH, hmdCH, List.append_nil]
      · rw [List.filter_append, hfCA, hmdCA, List.append_nil]
      · intro d hd
        rcases List.mem_append.mp hd with hmem | hmem
        · exact hmsgs d hmem
        · exact Or.inl (methodMsgs_sub _ (hmdmsgs d hmem))

theorem linesOfAux_single (cur : List Token) (token : Token) :
    linesOfAux cur [token]
      = (if token.token_type = TokenType.NewLine then
           (if (trim_space_tokens cur).isEmpty then [] else [trim_space_tokens cur])
         else []) := by
  by_cases hnl : token.token_type = TokenType.NewLine
  · by_cases hemp : (trim_space_tokens cur).isEmpty
    · simp [linesOfAux, hnl, hemp]
    · simp [linesOfAux, hnl, hemp]
  · simp [linesOfAux, hnl]

theorem loopBody_spec {st : LoopState} {token : Token} {st1 : LoopState}
    (h : loopBody st token = some st1) :
    st1.curLine
      = (if token.token_type = TokenType.NewLine then [] else st.curLine ++ [token]) ∧
    st1.dir.header_validator.top_line
      = List.foldl topFoldF st.dir.header_validator.top_line (linesOfAux st.curLine [token]) ∧
    st1.dir.header_validator.class_declaration
      = List.foldl classFoldF st.dir.header_validator.class_declaration
          (linesOfAux st.curLine [token]) ∧
    st1.dir.header_validator.super_declaration
      = List.foldl superFoldF st.dir.header_validator.super_declaration
          (linesOfAux st.curLine [token]) ∧
    ∃ new, st1.diags = st.diags ++ new ∧
      new.filter (fun d => d.message == "Class declared here.")
        = (dupClassPairs st.dir.header_validator.class_declaration
            (linesOfAux st.curLine [token])).map
            (fun p => mkLineDiag p.1 "Class declared here." (some Severity.Hint)) ∧
      new.filter (fun d => d.message == "Class already declared.")
        = (dupClassPairs st.dir.header_validator.class_declaration
            (linesOfAux st.curLine [token])).map
            (fun p => mkLineDiag p.2 "Class already declared." (some Severity.Error)) ∧
      (∀ d ∈ new, d.message ∈ loopMsgs ∨ d.message.data.head? = some aposChar) := by
  rw [linesOfAux_single]
  unfold loopBody at h
  by_cases hnl : token.token_type = TokenType.NewLine
  · rw [if_pos hnl] at h
    by_cases hemp : (trim_space_tokens st.curLine).isEmpty
    · rw [if_pos hemp] at h
      split at h
      · exact Option.noConfusion h
      · rename_i dir2 tds htok
        injection h with h
        subst h
        obtain ⟨ht, hc, hs, hmsgs⟩ := dirValidateToken_spec htok
        simp only [if_pos hnl, if_pos hemp]
        refine ⟨by trivial, by simpa using ht, by simpa using hc, by simpa using hs,
          ⟨tds, rfl, ?_, ?_, ?_⟩⟩
        · rw [filter_msg_nil hmsgs (by decide)]
          simp [dupClassPairs]
        · rw [filter_msg_nil hmsgs (by decide)]
          simp [dupClassPairs]
        · intro d hd
          exact Or.inl (methodMsgs_sub _ (hmsgs d hd))
    · rw [if_neg hemp] at h
      split at h
      · exact Option.noConfusion h
      · rename_i dir1 lds hline
        split at h
        · exact Option.noConfusion h
        · rename_i dir2 tds htok
          injection h with h
          subst h
          obtain ⟨hlt, hlc, hls, hfCH, hfCA, hlmsgs⟩ := dirValidateLine_spec hline
          obtain ⟨ht, hc, hs, htmsgs⟩ := dirValidateToken_spec htok
          have htCH : tds.filter (fun d => d.message == "Class declared here.") = [] :=
            filter_msg_nil htmsgs (by decide)
          have htCA : tds.filter (fun d => d.message == "Class already declared.") = [] :=
            filter_msg_nil htmsgs (by decide)
          simp only [if_pos hnl, if_neg hemp]
          refine ⟨by trivial, ?_, ?_, ?_, ⟨lds ++ tds, by rw [List.append_assoc], ?_, ?_, ?_⟩⟩
          · rw [List.foldl_cons, List.foldl_nil]
            rw [ht, hlt]
          · rw [List.foldl_cons, List.foldl_nil]
            rw [hc, hlc]
          · rw [List.foldl_cons, List.foldl_nil]
            rw [hs, hls]
          · rw [List.filter_append, hfCH, htCH, List.append_nil]
          · rw [List.filter_append, hfCA, htCA, List.append_nil]
          · intro d hd
            rcases List.mem_append.mp hd with hmem | hmem
            · exact hlmsgs d hmem
            · exact Or.inl (methodMsgs_sub _ (htmsgs d hmem))
  · rw [if_neg hnl] at h
    split at h
    · exact Option.noConfusion h
    · rename_i dir2 tds htok
      injection h with h
      subst h
      obtain ⟨ht, hc, hs, hmsgs⟩ := dirValidateToken_spec htok
      simp only [if_neg hnl]
      refine ⟨by trivial, by simpa using ht, by simpa using hc, by simpa using hs,
        ⟨tds, rfl, ?_, ?_, ?_⟩⟩
      · rw [filter_msg_nil hmsgs (by decide)]
        simp [dupClassPairs]
      · rw [filter_msg_nil hmsgs (by decide)]
        simp [dupClassPairs]
      · intro d hd
        exact Or.inl (methodMsgs_sub _ (hmsgs d hd))

theorem linesOfAux_cons (cur : List Token) (token : Token) (rest : List Token) :
    linesOfAux cur (token :: rest)
      = linesOfAux cur [token]
        ++ linesOfAux
            (if token.token_type = TokenType.NewLine then [] else cur ++ [token]) rest := by
  by_cases hnl : token.token_type = TokenType.NewLine
  · by_cases hemp : (trim_space_tokens cur).isEmpty
    · simp [linesOfAux, hnl, hemp]
    · simp [linesOfAux, hnl, hemp]
  · simp [linesOfAux, hnl]

theorem dupClassPairs_append (ls1 : List (List Token)) :
    ∀ (c : Option (List Token)) (ls2 : List (List Token)),
    dupClassPairs c (ls1 ++ ls2)
      = dupClassPairs c ls1 ++ dupClassPairs (List.foldl classFoldF c ls1) ls2 := by
  induction ls1 with
  | nil => intro c ls2; rfl
  | cons line rest ih =>
    intro c ls2
    by_cases hcl : isClassLine line
    · have hunfS : ∀ (stored : List Token) (l : List (List Token)),
          dupClassPairs (some stored) (line :: l)
            = (stored, line) :: dupClassPairs (some stored) l := by
        intro stored l
        simp [dupClassPairs, hcl]
      have hunfN : ∀ (l : List (List Token)),
          dupClassPairs none (line :: l) = dupClassPairs (some line) l := by
        intro l
        simp [dupClassPairs, hcl]
      cases c with
      | some stored =>
        have hfold : classFoldF (some stored) line = some stored := by
          simp [classFoldF]
        rw [List.cons_append, hunfS, hunfS, List.foldl_cons, hfold, ih, List.cons_append]
      | none =>
        have hfold : classFoldF none line = some line := by
          simp [classFoldF, hcl]
        rw [List.cons_append, hunfN, hunfN, List.foldl_cons, hfold, ih]
    · have hunfF : ∀ (c0 : Option (List Token)) (l : List (List Token)),
          dupClassPairs c0 (line :: l) = dupClassPairs c0 l := by
        intro c0 l
        simp [dupClassPairs, hcl]
      have hfold : classFoldF c line = c := by
        simp [classFoldF, hcl]
      rw [List.cons_append, hunfF, hunfF, List.foldl_cons, hfold, ih]

theorem runLoop_spec (ts : List Token) : ∀ (st st' : LoopState),
    runLoop st ts = some st' →
    st'.dir.header_validator.top_line
      = List.foldl topFoldF st.dir.header_validator.top_line (linesOfAux st.curLine ts) ∧
    st'.dir.header_validator.class_declaration
      = List.foldl classFoldF st.dir.header_validator.class_declaration
          (linesOfAux st.curLine ts) ∧
    st'.dir.header_validator.super_declaration
      = List.foldl superFoldF st.dir.header_validator.super_declaration
          (linesOfAux st.curLine ts) ∧
    ∃ new, st'.diags = st.diags ++ new ∧
      new.filter (fun d => d.message == "Class declared here.")
        = (dupClassPairs st.dir.header_validator.class_declaration
            (linesOfAux st.curLine ts)).map
            (fun p => mkLineDiag p.1 "Class declared here." (some Severity.Hint)) ∧
      new.filter (fun d => d.message == "Class already declared.")
        = (dupClassPairs st.dir.header_validator.class_declaration
            (linesOfAux st.curLine ts)).map
            (fun p => mkLineDiag p.2 "Class already declared." (some Severity.Error)) ∧
      (∀ d ∈ new, d.message ∈ loopMsgs ∨ d.message.data.head? = some aposChar) := by
  induction ts with
  | nil =>
    intro st st' h
    injection h with h
    subst h
    refine ⟨rfl, rfl, rfl, ⟨[], (List.append_nil _).symm, ?_, ?_, ?_⟩⟩
    · simp [dupClassPairs]
    · simp [dupClassPairs]
    · intro d hd
      exact absurd hd (List.not_mem_nil d)
  | cons token rest ih =>
    intro st st' h
    have hsplit : runLoop st (token :: rest)
        = (match loopBody st token with
           | some st1 => runLoop st1 rest
           | none => none) := rfl
    rw [hsplit] at h
    split at h
    · rename_i st1 hbody
      obtain ⟨hcur, htop1, hclass1, hsuper1, new1, hdiags1, hCH1, hCA1, hmsgs1⟩ :=
        loopBody_spec hbody
      obtain ⟨htop2, hclass2, hsuper2, new2, hdiags2, hCH2, hCA2, hmsgs2⟩ := ih st1 st' h
      rw [linesOfAux_cons, ← hcur]
      refine ⟨?_, ?_, ?_, ⟨new1 ++ new2, ?_, ?_, ?_, ?_⟩⟩
      · rw [List.foldl_append, ← htop1, htop2]
      · rw [List.foldl_append, ← hclass1, hclass2]
      · rw [List.foldl_append, ← hsuper1, hsuper2]
      · rw [hdiags2, hdiags1, List.append_assoc]
      · rw [List.filter_append, hCH1, hCH2, dupClassPairs_append, List.map_append,
          ← hclass1]
      · rw [List.filter_append, hCA1, hCA2, dupClassPairs_append, List.map_append,
          ← hclass1]
      · intro d hd
        rcases List.mem_append.mp hd with hmem | hmem
        · exact hmsgs1 d hmem
        · exact hmsgs2 d hmem
    · exact Option.noConfusion h

/-! ## Totality of the validation pipeline -/

/-- A stored optional token list is well-formed when it is non-empty (so the
`first()`/`last()` unwraps of `tokens_to_diagnostic` cannot panic on it). -/
def optTokensWF (o : Option (List Token)) : Prop := ∀ l, o = some l → l ≠ []

/-- A stored optional method declaration has a non-empty token list. -/
def mdTokensWF (o : Option MethodDeclaration) : Prop := ∀ m, o = some m → m.tokens ≠ []

/-- All stored header lines are non-empty. -/
def HeaderWF (v : HeaderValidator) : Prop :=
  optTokensWF v.top_line ∧ optTokensWF v.class_declaration
    ∧ optTokensWF v.super_declaration ∧ optTokensWF v.source_declaration

/-- All stored method declarations have non-empty token lists. -/
def MethodWF (v : MethodValidator) : Prop :=
  mdTokensWF v.method_decl ∧ mdTokensWF v.constructor_static
    ∧ mdTokensWF v.constructor_virtual

/-- Well-formedness of the combined validator state. -/
def DirWF (v : DirectivesValidator) : Prop :=
  HeaderWF v.header_validator ∧ MethodWF v.method_validator

theorem optTokensWF_some {line : List Token} (h : line ≠ []) : optTokensWF (some line) := by
  intro l hl
  injection hl with hl
  subst hl
  exact h

theorem optTokensWF_none : optTokensWF none := fun l hl => Option.noConfusion hl

theorem mdTokensWF_none : mdTokensWF none := fun m hm => Option.noConfusion hm

theorem validate_simple_isSome (line : List Token) (hne : line ≠ []) :
    (validate_simple line).isSome := by
  cases line with
  | nil => exact absurd rfl hne
  | cons t rest =>
    unfold validate_simple
    simp only [List.head?_cons]
    split
    · rw [tokens_to_diagnostic_eq _ _ (List.cons_ne_nil t rest)]
      rfl
    · rfl

theorem headerLineCore_total {v : HeaderValidator} {first : Token} {line : List Token}
    (hWF : HeaderWF v) (hfirst : line.head? = some first) :
    ∃ v1 ds, headerLineCore v first line = some (v1, ds) ∧ HeaderWF v1 := by
  have hne : line ≠ [] := by
    intro h
    rw [h] at hfirst
    exact Option.noConfusion hfirst
  have hWF2 := hWF
  obtain ⟨hWFtop, hWFclass, hWFsuper, hWFsource⟩ := hWF2
  have hsimple : ∀ ds0, validate_simple line = some ds0 → True := fun _ _ => trivial
  unfold headerLineCore
  by_cases hdir : first.token_type = TokenType.Directive
  · rw [if_pos hdir]
    by_cases hclass : first.content = ".class"
    · rw [if_pos hclass]
      cases hcd : v.class_declaration with
      | some stored =>
        simp only [tokens_to_diagnostic_eq _ _ (hWFclass stored hcd),
          tokens_to_diagnostic_eq _ _ hne]
        exact ⟨v, _, rfl, hWF⟩
      | none =>
        refine ⟨_, _, rfl, ?_⟩
        exact ⟨hWFtop, optTokensWF_some hne, hWFsuper, hWFsource⟩
    · rw [if_neg hclass]
      by_cases hsuper : first.content = ".super"
      · rw [if_pos hsuper]
        cases hsd : v.super_declaration with
        | some stored =>
          simp only [tokens_to_diagnostic_eq _ _ (hWFsuper stored hsd),
            tokens_to_diagnostic_eq _ _ hne]
          exact ⟨v, _, rfl, hWF⟩
        | none =>
          obtain ⟨ds0, hds0⟩ := Option.isSome_iff_exists.mp (validate_simple_isSome line hne)
          rw [hds0]
          refine ⟨_, _, rfl, ?_⟩
          exact ⟨hWFtop, hWFclass, optTokensWF_some hne, hWFsource⟩
      · rw [if_neg hsuper]
        by_cases himpl : first.content = ".implements"
        · rw [if_pos himpl]
          obtain ⟨ds0, hds0⟩ := Option.isSome_iff_exists.mp (validate_simple_isSome line hne)
          rw [hds0]
          exact ⟨v, _, rfl, hWF⟩
        · rw [if_neg himpl]
          by_cases hsource : first.content = ".source"
          · rw [if_pos hsource]
            cases hsrc : v.source_declaration with
            | some stored =>
              simp only [tokens_to_diagnostic_eq _ _ (hWFsource stored hsrc),
                tokens_to_diagnostic_eq _ _ hne]
              exact ⟨v, _, rfl, hWF⟩
            | none =>
              obtain ⟨ds0, hds0⟩ :=
                Option.isSome_iff_exists.mp (validate_simple_isSome line hne)
              rw [hds0]
              refine ⟨_, _, rfl, ?_⟩
              exact ⟨hWFtop, hWFclass, hWFsuper, optTokensWF_some hne⟩
          · rw [if_neg hsource]
            exact ⟨v, [], rfl, hWF⟩
  · rw [if_neg hdir]
    exact ⟨v, [], rfl, hWF⟩

theorem header_validate_line_total {v : HeaderValidator} {line : List Token}
    (hWF : HeaderWF v) (hne : line ≠ []) :
    ∃ v' ds, header_validate_line v line = some (v', ds) ∧ HeaderWF v' := by
  cases line with
  | nil => exact absurd rfl hne
  | cons t rest =>
    obtain ⟨v1, ds, hcore, hWF1⟩ := headerLineCore_total hWF (List.head?_cons (a := t) (l := rest))
    unfold header_validate_line
    simp only [List.head?_cons, hcore]
    by_cases ht : v1.top_line = none
    · rw [if_pos ht]
      obtain ⟨_, hc1, hs1, hsrc1⟩ := hWF1
      exact ⟨_, ds, rfl, ⟨optTokensWF_some hne, hc1, hs1, hsrc1⟩⟩
    · rw [if_neg ht]
      exact ⟨v1, ds, rfl, hWF1⟩

theorem header_validate_token_WF {v : HeaderValidator} (token : Token)
    (hWF : HeaderWF v) : HeaderWF (header_validate_token v token) := by
  obtain ⟨h1, h2, h3, h4⟩ := header_validate_token_slots v token
  obtain ⟨w1, w2, w3, w4⟩ := hWF
  exact ⟨h1 ▸ w1, h2 ▸ w2, h3 ▸ w3, h4 ▸ w4⟩

theorem validate_method_token_total {validator : MethodValidator} (token : Token)
    (hWF : MethodWF validator) :
    ∃ v' ds, validate_method_token token validator = some (v', ds) ∧ MethodWF v' := by
  have hWF2 := hWF
  obtain ⟨hmd, hcs, hcv⟩ := hWF2
  cases hd : validator.method_decl with
  | none =>
    refine ⟨validator, [], ?_, hWF⟩
    simp [validate_method_token, hd]
  | some m =>
    have hmtok : m.tokens ≠ [] := hmd m hd
    have hWF' :
        MethodWF { validator with method_decl := some { m with found_return := true } } := by
      refine ⟨?_, hcs, hcv⟩
      intro m1 hm1
      injection hm1 with hm1
      subst hm1
      exact hmtok
    obtain ⟨last, hlast⟩ : ∃ x, m.tokens.getLast? = some x := by
      cases hgl : m.tokens.getLast? with
      | none => exact absurd (List.getLast?_eq_none_iff.mp hgl) hmtok
      | some x => exact ⟨x, rfl⟩
    cases hrt : m.return_type with
    | None =>
      refine ⟨_, [token.to_diagnostic "Unable to get return type from method declaration."
        (some Severity.Information)], ?_, hWF'⟩
      simp [validate_method_token, hd, hrt]
    | Void =>
      by_cases hc : token.content = "return-void"
      · refine ⟨_, ([] : List Diagnostic), ?_, hWF'⟩
        simp [validate_method_token, hd, hrt, hc]
      · refine ⟨_, [last.to_diagnostic "Return type declared here." (some Severity.Hint),
          token.to_diagnostic "\x27return-void\x27 expected." (some Severity.Error)],
          ?_, hWF'⟩
        simp [validate_method_token, hd, hrt, hc, hlast]
    | Class nm =>
      by_cases hc : token.content = "return-object"
      · refine ⟨_, ([] : List Diagnostic), ?_, hWF'⟩
        simp [validate_method_token, hd, hrt, hc]
      · refine ⟨_, [last.to_diagnostic "Return type declared here." (some Severity.Hint),
          token.to_diagnostic "\x27return-object\x27 expected." (some Severity.Error)],
          ?_, hWF'⟩
        simp [validate_method_token, hd, hrt, hc, hlast]
    | BuiltinType nm =>
      refine ⟨_, ([] : List Diagnostic), ?_, hWF'⟩
      simp [validate_method_token, hd, hrt]

theorem method_validate_token_total {v : MethodValidator} (token : Token)
    (hWF : MethodWF v) :
    ∃ v' ds, method_validate_token v token = some (v', ds) ∧ MethodWF v' := by
  unfold method_validate_token
  by_cases hret : token.token_type = TokenType.Return
  · rw [if_pos hret]
    exact validate_method_token_total token hWF
  · rw [if_neg hret]
    exact ⟨v, [], rfl, hWF⟩

theorem declLineFinish_total {line : List Token} {validator : MethodValidator}
    (diags : List Diagnostic) (st : MethodDeclLineState)
    (hWF : MethodWF validator) (hne : line ≠ []) :
    ∃ ds rt v', declLineFinish line validator diags st = some (ds, rt, v')
      ∧ MethodWF v' := by
  have hWF2 := hWF
  obtain ⟨hmd, hcs, hcv⟩ := hWF2
  have hlineWF : ∀ o, mdTokensWF o →
      mdTokensWF (some (⟨true, true, line, ReturnType.Void⟩ : MethodDeclaration)) := by
    intro o _ m1 hm1
    injection hm1 with hm1
    subst hm1
    exact hne
  unfold declLineFinish
  by_cases hconst : st.const_decl.isSome
  · rw [if_pos hconst]
    by_cases hstat : st.static_decl.isSome
    · rw [if_pos hstat]
      cases hslot : validator.constructor_static with
      | some cs =>
        have hcstok : cs.tokens ≠ [] := hcs cs hslot
        simp only [tokens_to_diagnostic_eq _ _ hcstok, tokens_to_diagnostic_eq _ _ hne]
        exact ⟨_, _, _, rfl, hWF⟩
      | none =>
        refine ⟨_, _, _, rfl, ?_⟩
        exact ⟨hmd, hlineWF none mdTokensWF_none, hcv⟩
    · rw [if_neg hstat]
      cases hslot : validator.constructor_virtual with
      | some cv =>
        have hcvtok : cv.tokens ≠ [] := hcv cv hslot
        simp only [tokens_to_diagnostic_eq _ _ hcvtok, tokens_to_diagnostic_eq _ _ hne]
        exact ⟨_, _, _, rfl, hWF⟩
      | none =>
        refine ⟨_, _, _, rfl, ?_⟩
        exact ⟨hmd, hcs, hlineWF none mdTokensWF_none⟩
  · rw [if_neg hconst]
    exact ⟨_, _, _, rfl, hWF⟩

theorem validate_method_declaration_line_total {line : List Token}
    {validator : MethodValidator} (hWF : MethodWF validator) (hne : line ≠ []) :
    ∃ ds rt v', validate_method_declaration_line line validator = some (ds, rt, v')
      ∧ MethodWF v' := by
  unfold validate_method_declaration_line
  exact declLineFinish_total _ _ hWF hne

theorem validate_method_declaration_total {line : List Token}
    {validator : MethodValidator} (hWF : MethodWF validator) (hne : line ≠ []) :
    ∃ v' ds, validate_method_declaration line validator = some (v', ds)
      ∧ MethodWF v' := by
  have hWF2 := hWF
  obtain ⟨hmd0, hcs0, hcv0⟩ := hWF2
  cases line with
  | nil => exact absurd rfl hne
  | cons t rest =>
    by_cases hm : t.content = ".method"
    · obtain ⟨dl, rt, v1, hdl, hWF1⟩ :=
        validate_method_declaration_line_total hWF (List.cons_ne_nil t rest)
      obtain ⟨hmd1, hcs1, hcv1⟩ := hWF1
      have hWFnew : MethodWF { v1 with method_decl := some ⟨true, false, t :: rest, rt⟩ } := by
        refine ⟨?_, hcs1, hcv1⟩
        intro m1 hm1
        injection hm1 with hm1
        subst hm1
        exact List.cons_ne_nil t rest
      cases hmd : v1.method_decl with
      | some m =>
        have hmtok : m.tokens ≠ [] := hmd1 m hmd
        by_cases hstart : m.is_start
        · refine ⟨_, [mkLineDiag m.tokens "Method block starts here." (some Severity.Hint),
            mkLineDiag (t :: rest)
              "\x27.method\x27 directive cannot be inside a method block."
              (some Severity.Error)], ?_, hWFnew⟩
          simp [validate_method_declaration, hm, hdl, hmd, hstart,
            tokens_to_diagnostic_eq _ _ hmtok,
            tokens_to_diagnostic_eq _ _ (List.cons_ne_nil t rest)]
        · refine ⟨_, dl, ?_, hWFnew⟩
          simp [validate_method_declaration, hm, hdl, hmd, hstart]
      | none =>
        refine ⟨_, dl, ?_, hWFnew⟩
        simp [validate_method_declaration, hm, hdl, hmd]
    · cases hmd : validator.method_decl with
      | some m =>
        have hmtok : m.tokens ≠ [] := hmd0 m hmd
        have hWFend : MethodWF
            { validator with method_decl := some ⟨false, false, t :: rest, ReturnType.None⟩ } := by
          refine ⟨?_, hcs0, hcv0⟩
          intro m1 hm1
          injection hm1 with hm1
          subst hm1
          exact List.cons_ne_nil t rest
        by_cases hstart : m.is_start = false
        · refine ⟨validator, [mkLineDiag m.tokens "Method block ends here." (some Severity.Hint),
            mkLineDiag (t :: rest)
              "\x27.end method\x27 directive must be at the end of a method block."
              (some Severity.Error)], ?_, hWF⟩
          simp [validate_method_declaration, hm, hmd, hstart,
            tokens_to_diagnostic_eq _ _ hmtok,
            tokens_to_diagnostic_eq _ _ (List.cons_ne_nil t rest)]
        · by_cases hret : m.found_return = false
          · refine ⟨_, [mkLineDiag m.tokens "No return instruction found in method block."
              (some Severity.Error)], ?_, hWFend⟩
            simp [validate_method_declaration, hm, hmd, hstart, hret,
              tokens_to_diagnostic_eq _ _ hmtok]
          · refine ⟨_, ([] : List Diagnostic), ?_, hWFend⟩
            simp [validate_method_declaration, hm, hmd, hstart, hret]
      | none =>
        refine ⟨validator, [mkLineDiag (t :: rest)
          "\x27.end method\x27 directive must be at the end of a method block."
          (some Severity.Error)], ?_, hWF⟩
        simp [validate_method_declaration, hm, hmd,
          tokens_to_diagnostic_eq _ _ (List.cons_ne_nil t rest)]

theorem method_validate_line_total {v : MethodValidator} {line : List Token}
    (hWF : MethodWF v) (hne : line ≠ []) :
    ∃ v' ds, method_validate_line v line = some (v', ds) ∧ MethodWF v' := by
  cases line with
  | nil => exact absurd rfl hne
  | cons t rest =>
    unfold method_validate_line
    simp only [List.head?_cons]
    by_cases hmeth : t.token_type = TokenType.Method
    · rw [if_pos hmeth]
      exact validate_method_declaration_total hWF hne
    · rw [if_neg hmeth]
      exact ⟨v, [], rfl, hWF⟩

theorem dirValidateToken_total {v : DirectivesValidator} (token : Token)
    (hWF : DirWF v) :
    ∃ v' ds, dirValidateToken v token = some (v', ds) ∧ DirWF v' := by
  obtain ⟨hh, hm⟩ := hWF
  obtain ⟨m1, md, hmt, hWFm⟩ := method_validate_token_total token hm
  refine ⟨⟨header_validate_token v.header_validator token, m1⟩, md, ?_, ?_⟩
  · unfold dirValidateToken
    rw [hmt]
  · exact ⟨header_validate_token_WF token hh, hWFm⟩

theorem dirValidateLine_total {v : DirectivesValidator} {line : List Token}
    (hWF : DirWF v) (hne : line ≠ []) :
    ∃ v' ds, dirValidateLine v line = some (v', ds) ∧ DirWF v' := by
  obtain ⟨hh, hm⟩ := hWF
  obtain ⟨h1, hd, hht, hWFh⟩ := header_validate_line_total hh hne
  obtain ⟨m1, md, hmt, hWFm⟩ := method_validate_line_total hm hne
  refine ⟨⟨h1, m1⟩, hd ++ md, ?_, ⟨hWFh, hWFm⟩⟩
  unfold dirValidateLine
  rw [hht, hmt]

theorem loopBody_total {st : LoopState} (token : Token) (hWF : DirWF st.dir) :
    ∃ st1, loopBody st token = some st1 ∧ DirWF st1.dir := by
  unfold loopBody
  by_cases hnl : token.token_type = TokenType.NewLine
  · rw [if_pos hnl]
    by_cases hemp : (trim_space_tokens st.curLine).isEmpty
    · rw [if_pos hemp]
      obtain ⟨v', tds, htok, hWF'⟩ := dirValidateToken_total token hWF
      rw [htok]
      exact ⟨_, rfl, hWF'⟩
    · rw [if_neg hemp]
      have hlne : trim_space_tokens st.curLine ≠ [] := by
        intro h0
        rw [h0] at hemp
        exact hemp rfl
      obtain ⟨dir1, lds, hline, hWF1⟩ := dirValidateLine_total hWF hlne
      simp only [hline]
      obtain ⟨dir2, tds, htok, hWF2⟩ := dirValidateToken_total token hWF1
      rw [htok]
      exact ⟨_, rfl, hWF2⟩
  · rw [if_neg hnl]
    obtain ⟨v', tds, htok, hWF'⟩ := dirValidateToken_total token hWF
    rw [htok]
    exact ⟨_, rfl, hWF'⟩

theorem runLoop_total (ts : List Token) : ∀ (st : LoopState), DirWF st.dir →
    ∃ st', runLoop st ts = some st' ∧ DirWF st'.dir := by
  induction ts with
  | nil => intro st hWF; exact ⟨st, rfl, hWF⟩
  | cons token rest ih =>
    intro st hWF
    obtain ⟨st1, hbody, hWF1⟩ := loopBody_total token hWF
    obtain ⟨st', hrest, hWF'⟩ := ih st1 hWF1
    refine ⟨st', ?_, hWF'⟩
    have hsplit : runLoop st (token :: rest)
        = (match loopBody st token with
           | some st1 => runLoop st1 rest
           | none => none) := rfl
    rw [hsplit, hbody]
    exact hrest

theorem header_validate_end_total {v : HeaderValidator} (hWF : HeaderWF v) :
    ∃ ds, header_validate_end v = some ds := by
  obtain ⟨htop, _, _, _⟩ := hWF
  unfold header_validate_end
  cases htl : v.top_line with
  | none => exact ⟨[], rfl⟩
  | some top =>
    have htne : top ≠ [] := htop top htl
    by_cases hcd : v.class_declaration = none
    · by_cases hsd : v.super_declaration = none
      · refine ⟨[mkLineDiag top "Missing class directive." (some Severity.Error),
          mkLineDiag top
            "Missing super directive.\nExtend \x27Ljava/lang/Object;\x27 by default"
            (some Severity.Error)], ?_⟩
        simp [hcd, hsd, tokens_to_diagnostic_eq _ _ htne]
      · refine ⟨[mkLineDiag top "Missing class directive." (some Severity.Error)], ?_⟩
        simp [hcd, hsd, tokens_to_diagnostic_eq _ _ htne]
    · by_cases hsd : v.super_declaration = none
      · refine ⟨[mkLineDiag top
            "Missing super directive.\nExtend \x27Ljava/lang/Object;\x27 by default"
            (some Severity.Error)], ?_⟩
        simp [hcd, hsd, tokens_to_diagnostic_eq _ _ htne]
      · refine ⟨([] : List Diagnostic), ?_⟩
        simp [hcd, hsd]

theorem dirValidateEnd_total {v : DirectivesValidator} (hWF : DirWF v) :
    ∃ ds, dirValidateEnd v = some ds := by
  obtain ⟨he, hee⟩ := header_validate_end_total hWF.1
  refine ⟨he ++ method_validate_end v.method_validator, ?_⟩
  unfold dirValidateEnd
  rw [hee]

theorem dirDefault_WF : DirWF dirDefault :=
  ⟨⟨optTokensWF_none, optTokensWF_none, optTokensWF_none, optTokensWF_none⟩,
   ⟨mdTokensWF_none, mdTokensWF_none, mdTokensWF_none⟩⟩

theorem runValidation_total (content : String) :
    ∃ st', runValidation content = some st' ∧ DirWF st'.dir :=
  runLoop_total (lex_str content) ⟨dirDefault, [], []⟩ dirDefault_WF

theorem validate_isSome (content : String) : (validate content).isSome := by
  obtain ⟨st', hrun, hWF'⟩ := runValidation_total content
  obtain ⟨eds, hend⟩ := dirValidateEnd_total hWF'
  unfold validate
  simp only [hrun, hend]
  rfl

/-- The two end-of-stream header messages. -/
def endMsgs : List String :=
  ["Missing class directive.",
   "Missing super directive.\nExtend \x27Ljava/lang/Object;\x27 by default"]

theorem header_validate_end_spec {v : HeaderValidator} {ds : List Diagnostic}
    (h : header_validate_end v = some ds) :
    (v.top_line = none → ds = []) ∧
    (∀ top, v.top_line = some top →
      ds = (if v.class_declaration = none
            then [mkLineDiag top "Missing class directive." (some Severity.Error)] else [])
        ++ (if v.super_declaration = none
            then [mkLineDiag top
              "Missing super directive.\nExtend \x27Ljava/lang/Object;\x27 by default"
              (some Severity.Error)] else [])) := by
  unfold header_validate_end at h
  split at h
  · rename_i htl
    injection h with h
    subst h
    constructor
    · intro _
      rfl
    · intro top htop
      rw [htl] at htop
      exact Option.noConfusion htop
  · rename_i top0 htl
    have hmain : ds
        = (if v.class_declaration = none
           then [mkLineDiag top0 "Missing class directive." (some Severity.Error)] else [])
          ++ (if v.super_declaration = none
           then [mkLineDiag top0
             "Missing super directive.\nExtend \x27Ljava/lang/Object;\x27 by default"
             (some Severity.Error)] else []) := by
      by_cases hcd : v.class_declaration = none
      · simp only [if_pos hcd] at h ⊢
        cases hc1 : tokens_to_diagnostic top0 "Missing class directive."
            (some Severity.Error) with
        | none =>
          rw [hc1] at h
          exact Option.noConfusion h
        | some d1 =>
          obtain ⟨hd1e, -⟩ := tokens_to_diagnostic_some hc1
          subst hd1e
          simp only [hc1] at h
          by_cases hsd : v.super_declaration = none
          · simp only [if_pos hsd] at h ⊢
            cases hc2 : tokens_to_diagnostic top0
                "Missing super directive.\nExtend \x27Ljava/lang/Object;\x27 by default"
                (some Severity.Error) with
            | none =>
              rw [hc2] at h
              exact Option.noConfusion h
            | some d2 =>
              obtain ⟨hd2e, -⟩ := tokens_to_diagnostic_some hc2
              subst hd2e
              simp only [hc2] at h
              injection h with h
              exact h.symm
          · simp only [if_neg hsd] at h ⊢
            injection h with h
            exact h.symm
      · simp only [if_neg hcd] at h ⊢
        by_cases hsd : v.super_declaration = none
        · simp only [if_pos hsd] at h ⊢
          cases hc2 : tokens_to_diagnostic top0
              "Missing super directive.\nExtend \x27Ljava/lang/Object;\x27 by default"
              (some Severity.Error) with
          | none =>
            rw [hc2] at h
            exact Option.noConfusion h
          | some d2 =>
            obtain ⟨hd2e, -⟩ := tokens_to_diagnostic_some hc2
            subst hd2e
            simp only [hc2] at h
            injection h with h
            exact h.symm
        · simp only [if_neg hsd] at h ⊢
          injection h with h
          exact h.symm
    constructor
    · intro hnone
      rw [htl] at hnone
      exact Option.noConfusion hnone
    · intro top htop
      rw [htl] at htop
      injection htop with htop
      subst htop
      exact hmain

theorem header_validate_end_msgs {v : HeaderValidator} {ds : List Diagnostic}
    (h : header_validate_end v = some ds) : ∀ d ∈ ds, d.message ∈ endMsgs := by
  obtain ⟨hnone, hsome⟩ := header_validate_end_spec h
  cases htl : v.top_line with
  | none =>
    rw [hnone htl]
    intro d hd
    exact absurd hd (List.not_mem_nil d)
  | some top =>
    rw [hsome top htl]
    intro d hd
    rcases List.mem_append.mp hd with hmem | hmem
    · split at hmem
      · simp only [List.mem_cons, List.not_mem_nil, or_false] at hmem
        subst hmem
        simp [mkLineDiag, endMsgs]
      · exact absurd hmem (List.not_mem_nil d)
    · split at hmem
      · simp only [List.mem_cons, List.not_mem_nil, or_false] at hmem
        subst hmem
        simp [mkLineDiag, endMsgs]
      · exact absurd hmem (List.not_mem_nil d)

theorem topFold_some (L : List Token) (lines : List (List Token)) :
    List.foldl topFoldF (some L) lines = some L := by
  induction lines with
  | nil => rfl
  | cons l rest ih =>
    rw [List.foldl_cons]
    have hstep : topFoldF (some L) l = some L := by
      simp [topFoldF]
    rw [hstep, ih]

theorem topFold_none (lines : List (List Token)) :
    List.foldl topFoldF none lines = lines.head? := by
  cases lines with
  | nil => rfl
  | cons l rest =>
    rw [List.foldl_cons]
    have hstep : topFoldF none l = some l := by
      simp [topFoldF]
    rw [hstep, topFold_some]
    rfl

theorem classFold_some (L : List Token) (lines : List (List Token)) :
    List.foldl classFoldF (some L) lines = some L := by
  induction lines with
  | nil => rfl
  | cons l rest ih =>
    rw [List.foldl_cons]
    have hstep : classFoldF (some L) l = some L := by
      simp [classFoldF]
    rw [hstep, ih]

theorem classFold_none (lines : List (List Token)) :
    List.foldl classFoldF none lines = (lines.filter (fun l => isClassLine l)).head? := by
  induction lines with
  | nil => rfl
  | cons l rest ih =>
    rw [List.foldl_cons]
    by_cases hcl : isClassLine l
    · have hstep : classFoldF none l = some l := by
        simp [classFoldF, hcl]
      rw [hstep, classFold_some, List.filter_cons_of_pos hcl]
      rfl
    · have hstep : classFoldF none l = none := by
        simp [classFoldF, hcl]
      rw [hstep, ih, List.filter_cons_of_neg hcl]

theorem superFold_some (L : List Token) (lines : List (List Token)) :
    List.foldl superFoldF (some L) lines = some L := by
  induction lines with
  | nil => rfl
  | cons l rest ih =>
    rw [List.foldl_cons]
    have hstep : superFoldF (some L) l = some L := by
      simp [superFoldF]
    rw [hstep, ih]

theorem superFold_none (lines : List (List Token)) :
    List.foldl superFoldF none lines = (lines.filter (fun l => isSuperLine l)).head? := by
  induction lines with
  | nil => rfl
  | cons l rest ih =>
    rw [List.foldl_cons]
    by_cases hsl : isSuperLine l
    · have hstep : superFoldF none l = some l := by
        simp [superFoldF, hsl]
      rw [hstep, superFold_some, List.filter_cons_of_pos hsl]
      rfl
    · have hstep : superFoldF none l = none := by
        simp [superFoldF, hsl]
      rw [hstep, ih, List.filter_cons_of_neg hsl]

theorem dupClassPairs_some (L : List Token) (lines : List (List Token)) :
    dupClassPairs (some L) lines
      = (lines.filter (fun l => isClassLine l)).map (fun l => (L, l)) := by
  induction lines with
  | nil => rfl
  | cons l rest ih =>
    by_cases hcl : isClassLine l
    · have hstep : dupClassPairs (some L) (l :: rest) = (L, l) :: dupClassPairs (some L) rest := by
        simp [dupClassPairs, hcl]
      rw [hstep, ih, List.filter_cons_of_pos hcl, List.map_cons]
    · have hstep : dupClassPairs (some L) (l :: rest) = dupClassPairs (some L) rest := by
        simp [dupClassPairs, hcl]
      rw [hstep, ih, List.filter_cons_of_neg hcl]

theorem dupClassPairs_none (lines : List (List Token)) :
    dupClassPairs none lines
      = (match (lines.filter (fun l => isClassLine l)) with
         | [] => []
         | L :: rest => rest.map (fun l => (L, l))) := by
  induction lines with
  | nil => rfl
  | cons l rest ih =>
    by_cases hcl : isClassLine l
    · have hstep : dupClassPairs none (l :: rest) = dupClassPairs (some l) rest := by
        simp [dupClassPairs, hcl]
      rw [hstep, dupClassPairs_some, List.filter_cons_of_pos hcl]
    · have hstep : dupClassPairs none (l :: rest) = dupClassPairs none rest := by
        simp [dupClassPairs, hcl]
      rw [hstep, ih, List.filter_cons_of_neg hcl]

/-! ## Suffix behaviour after the last newline, and lexer non-emptiness -/

theorem runLoop_append (xs : List Token) : ∀ (ys : List Token) (st : LoopState),
    runLoop st (xs ++ ys)
      = (match runLoop st xs with
         | some st1 => runLoop st1 ys
         | none => none) := by
  induction xs with
  | nil => intro ys st; rfl
  | cons x xs ih =>
    intro ys st
    have h1 : runLoop st ((x :: xs) ++ ys)
        = (match loopBody st x with
           | some st1 => runLoop st1 (xs ++ ys)
           | none => none) := rfl
    have h2 : runLoop st (x :: xs)
        = (match loopBody st x with
           | some st1 => runLoop st1 xs
           | none => none) := rfl
    rw [h1, h2]
    cases hb : loopBody st x with
    | none => rfl
    | some st1 => exact ih ys st1

theorem linesOfAux_no_newline (ts : List Token)
    (hnn : ∀ t ∈ ts, t.token_type ≠ TokenType.NewLine) :
    ∀ cur, linesOfAux cur ts = [] := by
  induction ts with
  | nil => intro cur; rfl
  | cons t rest ih =>
    intro cur
    have hnl : t.token_type ≠ TokenType.NewLine := hnn t (List.mem_cons_self t rest)
    have hrest : ∀ u ∈ rest, u.token_type ≠ TokenType.NewLine :=
      fun u hu => hnn u (List.mem_cons_of_mem t hu)
    simp only [linesOfAux, if_neg hnl]
    exact ih hrest (cur ++ [t])

/-- The current-line accumulator left by feeding `ts` to the loop. -/
def lineAcc (cur : List Token) : List Token → List Token
  | [] => cur
  | t :: rest =>
    lineAcc (if t.token_type = TokenType.NewLine then [] else cur ++ [t]) rest

theorem linesOfAux_append (xs : List Token) : ∀ (ys : List Token) (cur : List Token),
    linesOfAux cur (xs ++ ys) = linesOfAux cur xs ++ linesOfAux (lineAcc cur xs) ys := by
  induction xs with
  | nil => intro ys cur; rfl
  | cons x xs ih =>
    intro ys cur
    have hae : xs.append ys = xs ++ ys := rfl
    by_cases hnl : x.token_type = TokenType.NewLine
    · by_cases hemp : (trim_space_tokens cur).isEmpty
      · simp only [List.cons_append, linesOfAux, if_pos hnl, if_pos hemp, lineAcc]
        rw [hae, ih]
      · simp only [List.cons_append, linesOfAux, if_pos hnl, if_neg hemp, lineAcc]
        rw [hae, ih]
    · simp only [List.cons_append, linesOfAux, if_neg hnl, lineAcc]
      rw [hae, ih]

theorem runLoop_no_newline (ts : List Token) : ∀ (st st' : LoopState),
    (∀ t ∈ ts, t.token_type ≠ TokenType.NewLine) →
    runLoop st ts = some st' →
    st'.dir.header_validator.top_line = st.dir.header_validator.top_line ∧
    st'.dir.header_validator.class_declaration
      = st.dir.header_validator.class_declaration ∧
    st'.dir.header_validator.super_declaration
      = st.dir.header_validator.super_declaration ∧
    ∃ new, st'.diags = st.diags ++ new ∧ ∀ d ∈ new, d.message ∈ methodMsgs := by
  induction ts with
  | nil =>
    intro st st' _ h
    injection h with h
    subst h
    exact ⟨rfl, rfl, rfl, ⟨[], (List.append_nil _).symm, fun d hd =>
      absurd hd (List.not_mem_nil d)⟩⟩
  | cons t rest ih =>
    intro st st' hnn h
    have hnl : t.token_type ≠ TokenType.NewLine := hnn t (List.mem_cons_self t rest)
    have hrest : ∀ u ∈ rest, u.token_type ≠ TokenType.NewLine :=
      fun u hu => hnn u (List.mem_cons_of_mem t hu)
    have hsplit : runLoop st (t :: rest)
        = (match loopBody st t with
           | some st1 => runLoop st1 rest
           | none => none) := rfl
    rw [hsplit] at h
    split at h
    · rename_i st1 hbody
      unfold loopBody at hbody
      rw [if_neg hnl] at hbody
      split at hbody
      · exact Option.noConfusion hbody
      · rename_i dir2 tds htok
        injection hbody with hbody
        subst hbody
        obtain ⟨ht, hc, hs, htmsgs⟩ := dirValidateToken_spec htok
        obtain ⟨ht2, hc2, hs2, new2, hdiags2, hmsgs2⟩ := ih _ _ hrest h
        refine ⟨ht2.trans ht, hc2.trans hc, hs2.trans hs,
          ⟨tds ++ new2, ?_, ?_⟩⟩
        · rw [hdiags2]
          simp only [List.append_assoc]
        · intro d hd
          rcases List.mem_append.mp hd with hmem | hmem
          · exact htmsgs d hmem
          · exact hmsgs2 d hmem
    · exact Option.noConfusion h

theorem piecesGo_ne (fuel : Nat) : ∀ (cs : List Char), ∀ p ∈ piecesGo fuel cs, p.2 ≠ [] := by
  induction fuel with
  | zero => intro cs p hp; cases hp
  | succ fuel ih =>
    intro cs p hp
    cases cs with
    | nil => cases hp
    | cons c cs =>
      have h0 : piecesGo (fuel + 1) (c :: cs)
          = (match bestMatch (c :: cs) with
             | some (t, n) => (t, (c :: cs).take n) :: piecesGo fuel ((c :: cs).drop n)
             | none => (TokenType.Error, [c]) :: piecesGo fuel cs) := rfl
      rw [h0] at hp
      split at hp
      · rename_i t n hb
        have hn := bestMatch_pos hb
        rcases List.mem_cons.mp hp with rfl | hmem
        · obtain ⟨k, hk⟩ : ∃ k, n = k + 1 := ⟨n - 1, by omega⟩
          subst hk
          simp [List.take_succ_cons]
        · exact ih _ p hmem
      · rcases List.mem_cons.mp hp with rfl | hmem
        · simp
        · exact ih _ p hmem

theorem tokensFromPieces_content_ne (content : String)
    (ps : List (TokenType × List Char)) (hps : ∀ p ∈ ps, p.2 ≠ []) :
    ∀ off, ∀ t ∈ tokensFromPieces content off ps, t.content ≠ "" := by
  induction ps with
  | nil => intro off t ht; cases ht
  | cons p rest ih =>
    intro off t ht
    match p with
    | (ty, w) =>
      rcases List.mem_cons.mp ht with rfl | hmem
      · have hw : w ≠ [] := hps (ty, w) (List.mem_cons_self _ _)
        intro hcon
        have : w = [] := by
          have := congrArg String.data hcon
          simpa using this
        exact hw this
      · exact ih (fun q hq => hps q (List.mem_cons_of_mem (ty, w) hq)) _ t hmem

theorem lex_str_content_ne (content : String) :
    ∀ t ∈ lex_str content, t.content ≠ "" := by
  unfold lex_str
  exact tokensFromPieces_content_ne content _
    (fun p hp => piecesGo_ne content.data.length content.data p hp) 0

theorem declLineFinish_method_decl {line : List Token} {validator : MethodValidator}
    {diags : List Diagnostic} {st : MethodDeclLineState} {ds : List Diagnostic}
    {rt : ReturnType} {v' : MethodValidator}
    (h : declLineFinish line validator diags st = some (ds, rt, v')) :
    v'.method_decl = validator.method_decl := by
  unfold declLineFinish at h
  repeat' split at h
  all_goals first
    | exact Option.noConfusion h
    | (simp only [Option.some.injEq, Prod.mk.injEq] at h
       obtain ⟨-, -, hv⟩ := h
       subst hv
       rfl)

theorem validate_method_declaration_line_method_decl {line : List Token}
    {validator : MethodValidator} {ds : List Diagnostic} {rt : ReturnType}
    {v' : MethodValidator}
    (h : validate_method_declaration_line line validator = some (ds, rt, v')) :
    v'.method_decl = validator.method_decl := by
  unfold validate_method_declaration_line at h
  exact declLineFinish_method_decl h

/-! ## Claim theorems -/

/-- C1: lexical totality. For every input text, concatenating the `content`
fields of the tokens of `lex_str` in order reproduces the input exactly (no
gaps, no overlaps), tokenization never fails, every emitted token carries at
least one character, and a character matching no category (here `~`) is kept
in the stream as an `Error` token. -/
theorem lexer_totality_claim (content : String) :
    String.join ((lex_str content).map (fun t => t.content)) = content ∧
    (∀ t ∈ lex_str content, t.content ≠ "") ∧
    (lex_str "~").map (fun t => (t.token_type, t.content))
      = [(TokenType.Error, "~")] :=
  ⟨lex_str_concat content, lex_str_content_ne content, by decide⟩

/-- C2 counterexample: the spec says a column beyond the target line's length
is clamped to the line's end, so `(0, 10)` into `"abc"` would map to offset 3;
the code instead panics (`line.split_at(character)` is out of range), modelled
as `none`. -/
theorem lsp_pos_to_pos_column_overrun_cex :
    lsp_pos_to_pos ⟨0, 10⟩ "abc" = none ∧
    ¬lsp_pos_to_pos ⟨0, 10⟩ "abc" = some 3 := by
  constructor
  · decide
  · decide

/-- C2 (amended): `lsp_pos_to_pos` clamps to `text.length` when `line` exceeds
the number of lines, returns the separator-aware offset when the column is
within the target line, and PANICS (`none`) — rather than clamping — when the
column overruns the target line's length. -/
theorem lsp_pos_to_pos_claim (content : String) (line ch : Nat) :
    ((splitNl content.data).length ≤ line →
      lsp_pos_to_pos ⟨line, ch⟩ content = some content.data.length) ∧
    (∀ L, (splitNl content.data)[line]? = some L → ch ≤ L.length →
      lsp_pos_to_pos ⟨line, ch⟩ content
        = some ((joinNl ((splitNl content.data).take line)).length
                + (if 0 < line then 1 else 0) + ch)) ∧
    (∀ L, (splitNl content.data)[line]? = some L → L.length < ch →
      lsp_pos_to_pos ⟨line, ch⟩ content = none) :=
  ⟨fun h => lsp_pos_to_pos_oob content line ch h,
   fun L hL hle => lsp_pos_to_pos_le content line ch L hL hle,
   fun L hL hgt => lsp_pos_to_pos_gt content line ch L hL hgt⟩

/-- C3: the position bridge round-trips. For every valid offset into the text,
`lsp_pos_to_pos (pos_to_lsp_pos offset text) text` recovers the offset, and for
every in-bounds (line, column) pair, `lsp_pos_to_pos` succeeds and
`pos_to_lsp_pos` maps the resulting offset back to the original pair. -/
theorem position_bridge_roundtrip_claim (cs : List Char) :
    (∀ input : Nat, input ≤ cs.length →
      lsp_pos_to_pos (pos_to_lsp_pos input (String.mk cs)) (String.mk cs) = some input) ∧
    (∀ (line ch : Nat) (L : List Char),
      (splitNl cs)[line]? = some L → ch ≤ L.length →
      ∃ off, lsp_pos_to_pos ⟨line, ch⟩ (String.mk cs) = some off
        ∧ pos_to_lsp_pos off (String.mk cs) = ⟨line, ch⟩) :=
  ⟨lsp_pos_of_pos_to_lsp cs, pos_of_lsp_roundtrip cs⟩

/-- C8: `validate` always returns `Ok` (modelled `some`): no panic is reachable
on any input — every stored token list the callbacks unwrap is non-empty along
every execution, so the scan never aborts. -/
theorem validate_total_claim (content : String) : (validate content).isSome :=
  validate_isSome content

/-- C9: `validate` is a deterministic pure function of the input text: two
invocations on the same text yield the same diagnostic list, with the same
count, in the same order (the embedding carries no state between calls, and
any two results of the same call are equal). -/
theorem validate_deterministic_claim (content : String) (ds1 ds2 : List Diagnostic)
    (h1 : validate content = some ds1) (h2 : validate content = some ds2) :
    ds1 = ds2 ∧ ds1.length = ds2.length := by
  rw [h1] at h2
  injection h2 with h2
  exact ⟨h2, by rw [h2]⟩

/-- C9 witness: the determinism theorem applied at a concrete document. -/
theorem validate_deterministic_claim_witness :
    [({ range := { start := { line := 0, character := 0 },
                   stop := { line := 0, character := 10 } },
        severity := some Severity.Error,
        message := "Missing super directive.\nExtend \x27Ljava/lang/Object;\x27 by default"
      } : Diagnostic)]
      = [({ range := { start := { line := 0, character := 0 },
                       stop := { line := 0, character := 10 } },
            severity := some Severity.Error,
            message :=
              "Missing super directive.\nExtend \x27Ljava/lang/Object;\x27 by default"
          } : Diagnostic)] ∧
    ([({ range := { start := { line := 0, character := 0 },
                    stop := { line := 0, character := 10 } },
         severity := some Severity.Error,
         message := "Missing super directive.\nExtend \x27Ljava/lang/Object;\x27 by default"
       } : Diagnostic)]).length
      = ([({ range := { start := { line := 0, character := 0 },
                        stop := { line := 0, character := 10 } },
             severity := some Severity.Error,
             message :=
               "Missing super directive.\nExtend \x27Ljava/lang/Object;\x27 by default"
           } : Diagnostic)]).length :=
  validate_deterministic_claim ".class La;\n" _ _ (by decide) (by decide)

/-- C4 counterexample: the spec says a `return*` token seen while no method
block is open "produces no diagnostic and no state change"; in the code the
check fires whenever `method_decl` is `Some` — including after `.end method`
closed the block — so the trailing `return-void` below (outside any open
block) yields an `Information` diagnostic at line 3. -/
theorem return_after_end_method_cex :
    validate ".method public foo()V\n    return-void\n.end method\nreturn-void\n"
      = some
        [{ range := { start := { line := 3, character := 0 },
                      stop := { line := 3, character := 11 } },
           severity := some Severity.Information,
           message := "Unable to get return type from method declaration." },
         { range := { start := { line := 0, character := 0 },
                      stop := { line := 0, character := 21 } },
           severity := some Severity.Error,
           message := "Missing class directive." },
         { range := { start := { line := 0, character := 0 },
                      stop := { line := 0, character := 21 } },
           severity := some Severity.Error,
           message :=
             "Missing super directive.\nExtend \x27Ljava/lang/Object;\x27 by default" }] ∧
    ((validate ".method public foo()V\n    return-void\n.end method\nreturn-void\n").getD
        []).any (fun d => d.severity == some Severity.Information) = true := by
  constructor
  · decide
  · decide

/-- C4 (amended): a `return*` token is acted on whenever a method declaration
is recorded (`method_decl` is `Some` — whether the block is still open or was
already closed by `.end method`), marking the return as observed; with no
recorded declaration there is no diagnostic and no state change. A `Void`
return kind requires exactly `return-void` and a `Class` kind exactly
`return-object` (mismatch: one Hint at the declared return type plus one
Error at the instruction); `BuiltinType` kinds are not cross-checked; a
declaration with no readable return kind yields an Information diagnostic.
End to end, a well-typed `()V` method with `return-void` yields no
diagnostics, and with a class return type the `return-void` body yields
exactly the Hint/Error pair. -/
theorem return_instruction_claim :
    (∀ (token : Token) (v : MethodValidator), v.method_decl = none →
      validate_method_token token v = some (v, [])) ∧
    (∀ (token : Token) (v v' : MethodValidator) (m : MethodDeclaration)
        (ds : List Diagnostic),
      v.method_decl = some m → validate_method_token token v = some (v', ds) →
      v'.method_decl = some { m with found_return := true }) ∧
    (∀ (token : Token) (v : MethodValidator) (m : MethodDeclaration),
      v.method_decl = some m → m.return_type = ReturnType.Void →
      token.content = "return-void" →
      validate_method_token token v
        = some ({ v with method_decl := some { m with found_return := true } }, [])) ∧
    (∀ (token : Token) (v : MethodValidator) (m : MethodDeclaration) (last : Token),
      v.method_decl = some m → m.return_type = ReturnType.Void →
      token.content ≠ "return-void" → m.tokens.getLast? = some last →
      validate_method_token token v
        = some ({ v with method_decl := some { m with found_return := true } },
            [last.to_diagnostic "Return type declared here." (some Severity.Hint),
             token.to_diagnostic "\x27return-void\x27 expected." (some Severity.Error)])) ∧
    (∀ (token : Token) (v : MethodValidator) (m : MethodDeclaration) (name : String),
      v.method_decl = some m → m.return_type = ReturnType.Class name →
      token.content = "return-object" →
      validate_method_token token v
        = some ({ v with method_decl := some { m with found_return := true } }, [])) ∧
    (∀ (token : Token) (v : MethodValidator) (m : MethodDeclaration) (name : String)
        (last : Token),
      v.method_decl = some m → m.return_type = ReturnType.Class name →
      token.content ≠ "return-object" → m.tokens.getLast? = some last →
      validate_method_token token v
        = some ({ v with method_decl := some { m with found_return := true } },
            [last.to_diagnostic "Return type declared here." (some Severity.Hint),
             token.to_diagnostic "\x27return-object\x27 expected." (some Severity.Error)])) ∧
    (∀ (token : Token) (v : MethodValidator) (m : MethodDeclaration) (name : String),
      v.method_decl = some m → m.return_type = ReturnType.BuiltinType name →
      validate_method_token token v
        = some ({ v with method_decl := some { m with found_return := true } }, [])) ∧
    (∀ (token : Token) (v : MethodValidator) (m : MethodDeclaration),
      v.method_decl = some m → m.return_type = ReturnType.None →
      validate_method_token token v
        = some ({ v with method_decl := some { m with found_return := true } },
            [token.to_diagnostic "Unable to get return type from method declaration."
               (some Severity.Information)])) ∧
    validate ".class La;\n.super Lb;\n.method public foo()V\n    return-void\n.end method\n"
      = some [] ∧
    validate ".class La;\n.super Lb;\n.method public foo()La;\n    return-void\n.end method\n"
      = some
        [{ range := { start := { line := 2, character := 20 },
                      stop := { line := 2, character := 23 } },
           severity := some Severity.Hint,
           message := "Return type declared here." },
         { range := { start := { line := 3, character := 4 },
                      stop := { line := 3, character := 15 } },
           severity := some Severity.Error,
           message := "\x27return-object\x27 expected." }] := by
  refine ⟨?_, ?_, ?_, ?_, ?_, ?_, ?_, ?_, by decide, by decide⟩
  · intro token v hmd
    simp [validate_method_token, hmd]
  · intro token v v' m ds hmd h
    simp only [validate_method_token, hmd] at h
    repeat' split at h
    all_goals first
      | exact Option.noConfusion h
      | (simp only [Option.some.injEq, Prod.mk.injEq] at h
         obtain ⟨hv, -⟩ := h
         subst hv
         rfl)
  · intro token v m hmd hrt hc
    simp [validate_method_token, hmd, hrt, hc]
  · intro token v m last hmd hrt hc hlast
    simp [validate_method_token, hmd, hrt, hc, hlast]
  · intro token v m name hmd hrt hc
    simp [validate_method_token, hmd, hrt, hc]
  · intro token v m name last hmd hrt hc hlast
    simp [validate_method_token, hmd, hrt, hc, hlast]
  · intro token v m name hmd hrt
    simp [validate_method_token, hmd, hrt]
  · intro token v m hmd hrt
    simp [validate_method_token, hmd, hrt]

/-- C7: block-nesting invariants. At most one method block is tracked at any
point (the state is a single `Option`-valued declaration slot): a `.method`
line while a block is open replaces it after emitting a Hint at the open
block's declaration plus an Error on the new line; an `.end method`-style line
while no block is open emits the must-be-at-end Error — a single Error when no
declaration was ever recorded, and, when the recorded block was already closed
by a previous `.end method` (`is_start = false`), the same Error paired with a
"Method block ends here." Hint at the closed block's declaration, with the
validator state unchanged; and line processing always continues (the callback
returns `some` and preserves well-formedness). Concretely, two nested
`.method` lines yield the Hint/Error pair citing the first method's line. -/
theorem method_nesting_claim :
    (∀ (line : List Token) (v : MethodValidator) (m : MethodDeclaration) (first : Token),
      MethodWF v → line.head? = some first → first.content = ".method" →
      v.method_decl = some m → m.is_start = true →
      ∃ v', validate_method_declaration line v
          = some (v',
              [mkLineDiag m.tokens "Method block starts here." (some Severity.Hint),
               mkLineDiag line "\x27.method\x27 directive cannot be inside a method block."
                 (some Severity.Error)])
        ∧ (∃ rt, v'.method_decl = some ⟨true, false, line, rt⟩)) ∧
    (∀ (line : List Token) (v : MethodValidator) (first : Token),
      line.head? = some first → first.content ≠ ".method" →
      v.method_decl = none →
      validate_method_declaration line v
        = some (v,
            [mkLineDiag line
              "\x27.end method\x27 directive must be at the end of a method block."
              (some Severity.Error)])) ∧
    (∀ (line : List Token) (v : MethodValidator) (m : MethodDeclaration) (first : Token),
      MethodWF v → line.head? = some first → first.content ≠ ".method" →
      v.method_decl = some m → m.is_start = false →
      validate_method_declaration line v
        = some (v,
            [mkLineDiag m.tokens "Method block ends here." (some Severity.Hint),
             mkLineDiag line
               "\x27.end method\x27 directive must be at the end of a method block."
               (some Severity.Error)])) ∧
    (∀ (v : MethodValidator) (line : List Token), MethodWF v → line ≠ [] →
      ∃ v' ds, method_validate_line v line = some (v', ds) ∧ MethodWF v') ∧
    validate ".method public a()V\n.method public b()V\n"
      = some
        [{ range := { start := { line := 0, character := 0 },
                      stop := { line := 0, character := 19 } },
           severity := some Severity.Hint,
           message := "Method block starts here." },
         { range := { start := { line := 1, character := 0 },
                      stop := { line := 1, character := 19 } },
           severity := some Severity.Error,
           message := "\x27.method\x27 directive cannot be inside a method block." },
         { range := { start := { line := 0, character := 0 },
                      stop := { line := 0, character := 19 } },
           severity := some Severity.Error,
           message := "Missing class directive." },
         { range := { start := { line := 0, character := 0 },
                      stop := { line := 0, character := 19 } },
           severity := some Severity.Error,
           message :=
             "Missing super directive.\nExtend \x27Ljava/lang/Object;\x27 by default" }] := by
  refine ⟨?_, ?_, ?_, ?_, by decide⟩
  · intro line v m first hWF hfirst hmc hmd hstart
    cases line with
    | nil => exact Option.noConfusion hfirst
    | cons t rest =>
      have hteq : first = t := by
        simp only [List.head?_cons, Option.some.injEq] at hfirst
        exact hfirst.symm
      subst hteq
      obtain ⟨dl, rt, v1, hdl, hWF1⟩ :=
        validate_method_declaration_line_total hWF (List.cons_ne_nil first rest)
      have hv1 : v1.method_decl = v.method_decl :=
        validate_method_declaration_line_method_decl hdl
      have hmtok : m.tokens ≠ [] := hWF.1 m hmd
      refine ⟨{ v1 with method_decl := some ⟨true, false, first :: rest, rt⟩ }, ?_, ⟨rt, rfl⟩⟩
      simp [validate_method_declaration, hmc, hdl, hv1, hmd, hstart,
        tokens_to_diagnostic_eq _ _ hmtok,
        tokens_to_diagnostic_eq _ _ (List.cons_ne_nil first rest)]
  · intro line v first hfirst hmc hmd
    cases line with
    | nil => exact Option.noConfusion hfirst
    | cons t rest =>
      have hteq : first = t := by
        simp only [List.head?_cons, Option.some.injEq] at hfirst
        exact hfirst.symm
      subst hteq
      simp [validate_method_declaration, hmc, hmd,
        tokens_to_diagnostic_eq _ _ (List.cons_ne_nil first rest)]
  · intro line v m first hWF hfirst hmc hmd hstart
    cases line with
    | nil => exact Option.noConfusion hfirst
    | cons t rest =>
      have hteq : first = t := by
        simp only [List.head?_cons, Option.some.injEq] at hfirst
        exact hfirst.symm
      subst hteq
      have hmtok : m.tokens ≠ [] := hWF.1 m hmd
      simp [validate_method_declaration, hmc, hmd, hstart,
        tokens_to_diagnostic_eq _ _ hmtok,
        tokens_to_diagnostic_eq _ _ (List.cons_ne_nil first rest)]
  · intro v line hWF hne
    exact method_validate_line_total hWF hne

/-- C10: tokens after the last newline are never assembled into a logical
line. Splitting the token stream at the last newline (`ts2` newline-free),
the logical lines of the whole stream are exactly those of the prefix; the
final validator state records nothing new from the suffix (`top_line`,
`class_declaration`, `super_declaration` unchanged, so a directive on the
trailing line is neither shape-checked nor recorded nor usable as the
end-of-stream anchor), and the only diagnostics added by the suffix come from
the per-token callbacks (method-validator messages). -/
theorem trailing_line_dropped_claim (content : String) (ts1 ts2 : List Token)
    (st1 : LoopState)
    (hsplit : lex_str content = ts1 ++ ts2)
    (hnn : ∀ t ∈ ts2, t.token_type ≠ TokenType.NewLine)
    (hrun1 : runLoop ⟨dirDefault, [], []⟩ ts1 = some st1) :
    linesOf (lex_str content) = linesOf ts1 ∧
    ∃ st', runValidation content = some st'
      ∧ st'.dir.header_validator.top_line = st1.dir.header_validator.top_line
      ∧ st'.dir.header_validator.class_declaration
          = st1.dir.header_validator.class_declaration
      ∧ st'.dir.header_validator.super_declaration
          = st1.dir.header_validator.super_declaration
      ∧ ∃ new, st'.diags = st1.diags ++ new ∧ ∀ d ∈ new, d.message ∈ methodMsgs := by
  constructor
  · rw [hsplit]
    unfold linesOf
    rw [linesOfAux_append, linesOfAux_no_newline ts2 hnn, List.append_nil]
  · have hWF1 : DirWF st1.dir := by
      obtain ⟨st1', hrun', hWF'⟩ := runLoop_total ts1 ⟨dirDefault, [], []⟩ dirDefault_WF
      rw [hrun1] at hrun'
      injection hrun' with hrun'
      subst hrun'
      exact hWF'
    obtain ⟨st', hrun2, hWF2⟩ := runLoop_total ts2 st1 hWF1
    refine ⟨st', ?_, ?_⟩
    · unfold runValidation
      rw [hsplit, runLoop_append, hrun1]
      exact hrun2
    · exact runLoop_no_newline ts2 st1 st' hnn hrun2

/-- C10 witness: a document with no newline at all (`".class Lfoo;"`): its
`.class` line is never flushed, and the final state still has every header
slot empty. -/
theorem trailing_line_dropped_claim_witness :
    linesOf (lex_str ".class Lfoo;") = linesOf [] ∧
    ∃ st', runValidation ".class Lfoo;" = some st'
      ∧ st'.dir.header_validator.top_line
          = (⟨dirDefault, [], []⟩ : LoopState).dir.header_validator.top_line
      ∧ st'.dir.header_validator.class_declaration
          = (⟨dirDefault, [], []⟩ : LoopState).dir.header_validator.class_declaration
      ∧ st'.dir.header_validator.super_declaration
          = (⟨dirDefault, [], []⟩ : LoopState).dir.header_validator.super_declaration
      ∧ ∃ new, st'.diags = (⟨dirDefault, [], []⟩ : LoopState).diags ++ new
          ∧ ∀ d ∈ new, d.message ∈ methodMsgs :=
  trailing_line_dropped_claim ".class Lfoo;" [] (lex_str ".class Lfoo;")
    ⟨dirDefault, [], []⟩ rfl (by decide) rfl

/-- C5: duplicate-`.class` pairing. For any document whose logical lines
contain exactly two `.class` lines (in order `L1`, `L2`), `validate` succeeds
and its diagnostics contain exactly one Hint anchored at `L1` (the
"Class declared here." pairing hint) and exactly one Error anchored at `L2`
("Class already declared."), and the stored class declaration remains the
first line `L1`. -/
theorem duplicate_class_pairing_claim (content : String) (L1 L2 : List Token)
    (hfilter : (linesOf (lex_str content)).filter (fun l => isClassLine l) = [L1, L2]) :
    ∃ ds, validate content = some ds
      ∧ ds.filter (fun d => d.message == "Class declared here.")
          = [mkLineDiag L1 "Class declared here." (some Severity.Hint)]
      ∧ ds.filter (fun d => d.message == "Class already declared.")
          = [mkLineDiag L2 "Class already declared." (some Severity.Error)]
      ∧ ∃ st, runValidation content = some st
          ∧ st.dir.header_validator.class_declaration = some L1 := by
  obtain ⟨st, hrun, hWF⟩ := runValidation_total content
  obtain ⟨eds, hend⟩ := dirValidateEnd_total hWF
  have hval : validate content = some (st.diags ++ eds) := by
    unfold validate
    simp only [hrun, hend]
  obtain ⟨htop, hclass, hsuper, new, hdiags, hCH, hCA, hmsgs⟩ :=
    runLoop_spec (lex_str content) ⟨dirDefault, [], []⟩ st hrun
  have hdup : dupClassPairs none (linesOf (lex_str content)) = [(L1, L2)] := by
    rw [dupClassPairs_none, hfilter]
    rfl
  have hclass1 : st.dir.header_validator.class_declaration = some L1 := by
    have h2 : List.foldl classFoldF
        ((⟨dirDefault, [], []⟩ : LoopState).dir.header_validator.class_declaration)
        (linesOfAux [] (lex_str content)) = some L1 := by
      show List.foldl classFoldF none (linesOf (lex_str content)) = some L1
      rw [classFold_none, hfilter]
      rfl
    exact hclass.trans h2
  have hCH' : new.filter (fun d => d.message == "Class declared here.")
      = [mkLineDiag L1 "Class declared here." (some Severity.Hint)] := by
    rw [hCH]
    show (dupClassPairs none (linesOf (lex_str content))).map
      (fun p => mkLineDiag p.1 "Class declared here." (some Severity.Hint)) = _
    rw [hdup]
    rfl
  have hCA' : new.filter (fun d => d.message == "Class already declared.")
      = [mkLineDiag L2 "Class already declared." (some Severity.Error)] := by
    rw [hCA]
    show (dupClassPairs none (linesOf (lex_str content))).map
      (fun p => mkLineDiag p.2 "Class already declared." (some Severity.Error)) = _
    rw [hdup]
    rfl
  have hstd : st.diags = new := by
    rw [hdiags]
    rfl
  have hedsmsgs : ∀ d ∈ eds, d.message ∈ endMsgs := by
    unfold dirValidateEnd at hend
    split at hend
    · exact Option.noConfusion hend
    · rename_i he hhe
      injection hend with hend
      subst hend
      intro d hd
      rcases List.mem_append.mp hd with hmem | hmem
      · exact header_validate_end_msgs hhe d hmem
      · simp only [method_validate_end] at hmem
        exact absurd hmem (List.not_mem_nil d)
  have hedCH : eds.filter (fun d => d.message == "Class declared here.") = [] :=
    filter_msg_nil hedsmsgs (by decide)
  have hedCA : eds.filter (fun d => d.message == "Class already declared.") = [] :=
    filter_msg_nil hedsmsgs (by decide)
  refine ⟨st.diags ++ eds, hval, ?_, ?_, ⟨st, hrun, hclass1⟩⟩
  · rw [List.filter_append, hstd, hCH', hedCH, List.append_nil]
  · rw [List.filter_append, hstd, hCA', hedCA, List.append_nil]

/-- C5 witness: the pairing theorem applied to the concrete document
`".class La;\n.class Lb;\n"`. -/
theorem duplicate_class_pairing_claim_witness :
    ∃ ds, validate ".class La;\n.class Lb;\n" = some ds
      ∧ ds.filter (fun d => d.message == "Class declared here.")
          = [mkLineDiag
              [⟨⟨⟨0, 0⟩, ⟨0, 6⟩⟩, ".class", TokenType.Directive⟩,
               ⟨⟨⟨0, 6⟩, ⟨0, 7⟩⟩, " ", TokenType.Space⟩,
               ⟨⟨⟨0, 7⟩, ⟨0, 10⟩⟩, "La;", TokenType.Class⟩]
              "Class declared here." (some Severity.Hint)]
      ∧ ds.filter (fun d => d.message == "Class already declared.")
          = [mkLineDiag
              [⟨⟨⟨1, 0⟩, ⟨1, 6⟩⟩, ".class", TokenType.Directive⟩,
               ⟨⟨⟨1, 6⟩, ⟨1, 7⟩⟩, " ", TokenType.Space⟩,
               ⟨⟨⟨1, 7⟩, ⟨1, 10⟩⟩, "Lb;", TokenType.Class⟩]
              "Class already declared." (some Severity.Error)]
      ∧ ∃ st, runValidation ".class La;\n.class Lb;\n" = some st
          ∧ st.dir.header_validator.class_declaration
              = some [⟨⟨⟨0, 0⟩, ⟨0, 6⟩⟩, ".class", TokenType.Directive⟩,
                      ⟨⟨⟨0, 6⟩, ⟨0, 7⟩⟩, " ", TokenType.Space⟩,
                      ⟨⟨⟨0, 7⟩, ⟨0, 10⟩⟩, "La;", TokenType.Class⟩] :=
  duplicate_class_pairing_claim ".class La;\n.class Lb;\n"
    [⟨⟨⟨0, 0⟩, ⟨0, 6⟩⟩, ".class", TokenType.Directive⟩,
     ⟨⟨⟨0, 6⟩, ⟨0, 7⟩⟩, " ", TokenType.Space⟩,
     ⟨⟨⟨0, 7⟩, ⟨0, 10⟩⟩, "La;", TokenType.Class⟩]
    [⟨⟨⟨1, 0⟩, ⟨1, 6⟩⟩, ".class", TokenType.Directive⟩,
     ⟨⟨⟨1, 6⟩, ⟨1, 7⟩⟩, " ", TokenType.Space⟩,
     ⟨⟨⟨1, 7⟩, ⟨1, 10⟩⟩, "Lb;", TokenType.Class⟩]
    (by decide)

/-- C6: missing mandatory sections. If at least one non-empty (logical) line
was seen but no line is a `.class` line and none is a `.super` line, the
end-of-stream pass emits exactly one "Missing class directive." Error and
exactly one missing-super Error (whose message notes the
`Ljava/lang/Object;` default), both anchored at the first non-empty line; a
document with no non-empty lines emits neither. -/
theorem missing_directives_claim (content : String) :
    (∀ (L : List Token) (rest : List (List Token)),
      linesOf (lex_str content) = L :: rest →
      (∀ l ∈ linesOf (lex_str content), isClassLine l = false) →
      (∀ l ∈ linesOf (lex_str content), isSuperLine l = false) →
      ∃ ds, validate content = some ds
        ∧ ds.filter (fun d => d.message == "Missing class directive.")
            = [mkLineDiag L "Missing class directive." (some Severity.Error)]
        ∧ ds.filter (fun d => d.message ==
              "Missing super directive.\nExtend \x27Ljava/lang/Object;\x27 by default")
            = [mkLineDiag L
                "Missing super directive.\nExtend \x27Ljava/lang/Object;\x27 by default"
                (some Severity.Error)]) ∧
    (linesOf (lex_str content) = [] →
      ∃ ds, validate content = some ds
        ∧ ds.filter (fun d => d.message == "Missing class directive.") = []
        ∧ ds.filter (fun d => d.message ==
            "Missing super directive.\nExtend \x27Ljava/lang/Object;\x27 by default") = []) := by
  obtain ⟨st, hrun, hWF⟩ := runValidation_total content
  obtain ⟨eds, hend⟩ := dirValidateEnd_total hWF
  have hval : validate content = some (st.diags ++ eds) := by
    unfold validate
    simp only [hrun, hend]
  obtain ⟨htop, hclass, hsuper, new, hdiags, hCH, hCA, hmsgs⟩ :=
    runLoop_spec (lex_str content) ⟨dirDefault, [], []⟩ st hrun
  have hstd : st.diags = new := by
    rw [hdiags]
    rfl
  have hnewMC : new.filter (fun d => d.message == "Missing class directive.") = [] :=
    filter_msg_nil_apos hmsgs (by decide) (by decide)
  have hnewMS : new.filter (fun d => d.message ==
      "Missing super directive.\nExtend \x27Ljava/lang/Object;\x27 by default") = [] :=
    filter_msg_nil_apos hmsgs (by decide) (by decide)
  have htopN : st.dir.header_validator.top_line = (linesOf (lex_str content)).head? := by
    have h2 : List.foldl topFoldF
        ((⟨dirDefault, [], []⟩ : LoopState).dir.header_validator.top_line)
        (linesOfAux [] (lex_str content)) = (linesOf (lex_str content)).head? := by
      show List.foldl topFoldF none (linesOf (lex_str content)) = _
      exact topFold_none _
    exact htop.trans h2
  obtain ⟨he, hhe, hedseq⟩ : ∃ he, header_validate_end st.dir.header_validator = some he
      ∧ eds = he := by
    unfold dirValidateEnd at hend
    split at hend
    · exact Option.noConfusion hend
    · rename_i he hhe
      injection hend with hend
      refine ⟨he, hhe, ?_⟩
      rw [← hend]
      show he ++ ([] : List Diagnostic) = he
      exact List.append_nil he
  subst hedseq
  obtain ⟨hendnone, hendsome⟩ := header_validate_end_spec hhe
  constructor
  · intro L rest hlines hnc hns
    have hcfilter : (linesOf (lex_str content)).filter (fun l => isClassLine l) = [] := by
      rw [List.filter_eq_nil]
      intro l hl
      simp [hnc l hl]
    have hsfilter : (linesOf (lex_str content)).filter (fun l => isSuperLine l) = [] := by
      rw [List.filter_eq_nil]
      intro l hl
      simp [hns l hl]
    have hclassN : st.dir.header_validator.class_declaration = none := by
      have h2 : List.foldl classFoldF
          ((⟨dirDefault, [], []⟩ : LoopState).dir.header_validator.class_declaration)
          (linesOfAux [] (lex_str content)) = none := by
        show List.foldl classFoldF none (linesOf (lex_str content)) = none
        rw [classFold_none, hcfilter]
        rfl
      exact hclass.trans h2
    have hsuperN : st.dir.header_validator.super_declaration = none := by
      have h2 : List.foldl superFoldF
          ((⟨dirDefault, [], []⟩ : LoopState).dir.header_validator.super_declaration)
          (linesOfAux [] (lex_str content)) = none := by
        show List.foldl superFoldF none (linesOf (lex_str content)) = none
        rw [superFold_none, hsfilter]
        rfl
      exact hsuper.trans h2
    have htopL : st.dir.header_validator.top_line = some L := by
      rw [htopN, hlines]
      rfl
    have hhe2 := hendsome L htopL
    rw [if_pos hclassN, if_pos hsuperN] at hhe2
    refine ⟨st.diags ++ eds, hval, ?_, ?_⟩
    · rw [List.filter_append, hstd, hnewMC, hhe2]
      simp [mkLineDiag, List.filter]
    · rw [List.filter_append, hstd, hnewMS, hhe2]
      simp [mkLineDiag, List.filter]
  · intro hnil
    have htopNone : st.dir.header_validator.top_line = none := by
      rw [htopN, hnil]
      rfl
    have hheN := hendnone htopNone
    subst hheN
    refine ⟨st.diags ++ [], hval, ?_, ?_⟩
    · rw [List.filter_append, hstd, hnewMC]
      rfl
    · rw [List.filter_append, hstd, hnewMS]
      rfl

/-- C6 witness: the missing-directives theorem applied to the concrete
document `"nop\n"`, whose single logical line has no `.class` or `.super`. -/
theorem missing_directives_claim_witness :
    ∃ ds, validate "nop\n" = some ds
      ∧ ds.filter (fun d => d.message == "Missing class directive.")
          = [mkLineDiag
              [⟨⟨⟨0, 0⟩, ⟨0, 1⟩⟩, "n", TokenType.Error⟩,
               ⟨⟨⟨0, 1⟩, ⟨0, 2⟩⟩, "o", TokenType.Error⟩,
               ⟨⟨⟨0, 2⟩, ⟨0, 3⟩⟩, "p", TokenType.Error⟩]
              "Missing class directive." (some Severity.Error)]
      ∧ ds.filter (fun d => d.message ==
            "Missing super directive.\nExtend \x27Ljava/lang/Object;\x27 by default")
          = [mkLineDiag
              [⟨⟨⟨0, 0⟩, ⟨0, 1⟩⟩, "n", TokenType.Error⟩,
               ⟨⟨⟨0, 1⟩, ⟨0, 2⟩⟩, "o", TokenType.Error⟩,
               ⟨⟨⟨0, 2⟩, ⟨0, 3⟩⟩, "p", TokenType.Error⟩]
              "Missing super directive.\nExtend \x27Ljava/lang/Object;\x27 by default"
              (some Severity.Error)] :=
  (missing_directives_claim "nop\n").1
    [⟨⟨⟨0, 0⟩, ⟨0, 1⟩⟩, "n", TokenType.Error⟩,
     ⟨⟨⟨0, 1⟩, ⟨0, 2⟩⟩, "o", TokenType.Error⟩,
     ⟨⟨⟨0, 2⟩, ⟨0, 3⟩⟩, "p", TokenType.Error⟩]
    [] (by decide) (by decide) (by decide)
